import Mathlib

/-! Nonogram solver: deduction rules, solver loop and clue validation.

A shallow embedding of `nonogram-solver-lib/src/puzzle_solver.cpp` and
`nonogram-solver-lib/src/puzzle.cpp`, followed by theorems about it.

Conventions of the embedding

* A `GridView` (one row or one column seen through the grid) is the list of
  its cells; a rule is a function from the clue values and the cells of the
  view to an `Outcome`: the rule returned (`done`), an exception left it
  (`fault`), or it reached an access past the end of a vector, which the
  source language leaves undefined (`undefined`); each carries the cells as
  they are at that moment, because the rules mutate the grid in place.
* Clue values are the non-negative `int32_t` values of the input format and
  are natural numbers here.  Unsigned arithmetic of the source is written with
  an explicit `% u32` (`uint32_t`) or `% u64` (`size_t`) wherever the source
  computes in that type and the value can wrap, and unsigned subtraction is
  `subWrap`.
* Loops are structural recursions over the indices they visit.
-/

namespace Nonogram

/-- The three cell states of `Puzzle::FieldState`. -/
inductive FieldState where
  | Unknown
  | Marked
  | Empty
deriving DecidableEq, Repr

/-- The result of running a piece of code that mutates a state of type `σ` in
place: it returned normally (`done`), an exception propagated out of it
(`fault`), or it reached an access past the end of a vector (`undefined`):
the behaviour of the source is undefined from there on and the model says
nothing about what follows.  The payload is the state at that moment. -/
inductive Outcome (σ : Type) where
  | done (s : σ)
  | fault (s : σ)
  | undefined (s : σ)
deriving DecidableEq, Repr

namespace Outcome

/-- The state the code left behind, however it ended. -/
def state {σ : Type} : Outcome σ → σ
  | done s => s
  | fault s => s
  | undefined s => s

/-- Sequencing: the second piece of code runs only when the first returned. -/
def andThen {σ : Type} (o : Outcome σ) (f : σ → Outcome σ) : Outcome σ :=
  match o with
  | done s => f s
  | fault s => fault s
  | undefined s => undefined s

/-- Transport of an outcome along a map of states (writing a line back into
the grid it is a view of). -/
def map {σ τ : Type} (f : σ → τ) : Outcome σ → Outcome τ
  | done s => done (f s)
  | fault s => fault (f s)
  | undefined s => undefined (f s)

end Outcome

/-- A `for` loop whose body is `f`, run over the listed indices in order; an
exception or an undefined access in the body ends the loop. -/
def runAll {α σ : Type} (f : α → σ → Outcome σ) : List α → σ → Outcome σ
  | [], s => Outcome.done s
  | a :: rest, s =>
    match f a s with
    | Outcome.done s' => runAll f rest s'
    | Outcome.fault s' => Outcome.fault s'
    | Outcome.undefined s' => Outcome.undefined s'

/-- Modulus of `uint32_t` arithmetic, `2^32`. -/
def u32 : Nat := 4294967296

/-- Modulus of `size_t` arithmetic (64-bit target), `2^64`. -/
def u64 : Nat := 18446744073709551616

/-- Unsigned subtraction `a - b` modulo `m`, for `a, b < m`: the difference
when `b <= a`, and the wrapped value `a + m - b` otherwise. -/
def subWrap (m a b : Nat) : Nat := if b ≤ a then a - b else a + m - b

/-- The cells of one row or one column, in view order. -/
abbrev Line := List FieldState

namespace GridView

/-- Modelled from the spec: `GridView::size` (declared in `puzzle.h`, which is
not among the sources): the number of cells of the line. -/
def size (l : Line) : Nat := l.length

/-- Modelled from the spec: `GridView::at` (declared in `puzzle.h`, which is not
among the sources): the state of cell `i`, for `i < size`.  Every read the
rules make is in range; outside the range the model answers `Unknown`. -/
def at_ (l : Line) (i : Nat) : FieldState := l.getD i FieldState.Unknown

/-- Modelled from the spec: `GridView::set` (declared in `puzzle.h`, which is
not among the sources).  It forwards to the grid's `set`, which "fails with
`InvalidStateTransition` if called with `Unknown` ... or if it would overwrite
an already-determined cell with a different determined state; writing the
same state twice is a no-op".  The contract of the view covers the indices
`0 <= i < length()` only: a write outside the line is an access past the end
of the grid's storage and is `undefined` here. -/
def set (l : Line) (i : Nat) (s : FieldState) : Outcome Line :=
  if s = FieldState.Unknown then Outcome.fault l
  else if i < l.length then
    (if at_ l i = FieldState.Unknown ∨ at_ l i = s then Outcome.done (List.set l i s)
     else Outcome.fault l)
  else Outcome.undefined l

end GridView

/-- The aggregate of `puzzle.h`: row clues, column clues and the grid. -/
structure Puzzle where
  m_rows : List (List Nat)
  m_columns : List (List Nat)
  m_grid : List (List FieldState)
deriving DecidableEq, Repr

namespace PuzzleSolver

open FieldState

/-! ## `PuzzleSolver::ZeroValueRule` -/

/-- The rule `ZeroValueRule`: with clues exactly `[0]` every cell is set to `Empty`;
with any other clues nothing is written. -/
def ZeroValueRule (values : List Nat) (grid_view : Line) : Outcome Line :=
  let zero_value : Bool := decide (values.length = 1) && decide (values.getD 0 0 = 0)
  if !zero_value then Outcome.done grid_view
  else runAll (fun i v => GridView.set v i FieldState.Empty) (List.range (GridView.size grid_view)) grid_view

/-! ## `PuzzleSolver::CloseSideRule` -/

/-- The first loop of `CloseSideRule`: the index of the first `Unknown` cell
among `cells` (whose first cell has index `i`), `0` when there is none. -/
def firstUnknownFrom : Line → Nat → Nat
  | [], _ => 0
  | c :: cs, i => if c = FieldState.Unknown then i else firstUnknownFrom cs (i + 1)

/-- The value of `first_unknown_id` after the first loop. -/
def first_unknown_id (grid_view : Line) : Nat := firstUnknownFrom grid_view 0

/-- The value of `value_id` after the second loop: the number of `i < first_unknown_id`
with cell `i` `Marked` and cell `i + 1` `Empty`. -/
def value_id (grid_view : Line) (fu : Nat) : Nat :=
  (List.range fu).countP
    (fun i => decide (GridView.at_ grid_view i = FieldState.Marked) && decide (GridView.at_ grid_view (i + 1) = FieldState.Empty))

/-- The value of `side_begin` after the third loop, `for (i = first_unknown_id; i > 1; i--)`,
entered with loop variable `i`. -/
def sideBeginFrom (grid_view : Line) : Nat → Nat
  | 0 => 0
  | i + 1 =>
    if 1 < i + 1 then
      (if GridView.at_ grid_view i = FieldState.Empty then i + 1 else sideBeginFrom grid_view i)
    else 0

/-- The rule `CloseSideRule`.  Reading `values[value_id]` past the end of the
vector is undefined in the source (no exception is thrown; a real run goes on
with whatever the read returns) and is `undefined` here. -/
def CloseSideRule (values : List Nat) (grid_view : Line) : Outcome Line :=
  let fu := first_unknown_id grid_view
  if fu = GridView.size grid_view then Outcome.done grid_view
  else if fu = 0 then Outcome.done grid_view
  else if GridView.at_ grid_view (fu - 1) ≠ FieldState.Marked then Outcome.done grid_view
  else
    let vid := value_id grid_view fu
    let side_begin := sideBeginFrom grid_view fu
    match values.get? vid with
    | none => Outcome.undefined grid_view
    | some value =>
      (runAll (fun i v => GridView.set v (side_begin + i) FieldState.Marked) (List.range value) grid_view).andThen
        (fun v =>
          let empty_id := side_begin + value
          if empty_id < GridView.size v then GridView.set v empty_id FieldState.Empty else Outcome.done v)

/-! ## `PuzzleSolver::MarkerRule` -/

/-- The local `SectionRange` of `MarkerRule`. -/
structure SectionRange where
  begin_ : Nat
  end_ : Nat
deriving DecidableEq, Repr

/-- One turn of the loop that collects the sections: the state is the optional
open section and the ranges pushed so far. -/
def sectionStep (grid_view : Line) (st : Option SectionRange × List SectionRange) (id : Nat) :
    Option SectionRange × List SectionRange :=
  let sec : Option SectionRange :=
    if GridView.at_ grid_view id ≠ FieldState.Empty ∧ st.1 = none then some ⟨id, 0⟩ else st.1
  let next_id := id + 1
  match sec with
  | some s =>
    if next_id = GridView.size grid_view ∨ GridView.at_ grid_view next_id = FieldState.Empty then
      (none, st.2 ++ [⟨s.begin_, next_id⟩])
    else (some s, st.2)
  | none => (none, st.2)

/-- The vector `section_ranges` after the first block of `MarkerRule`. -/
def section_ranges (grid_view : Line) : List SectionRange :=
  ((List.range (GridView.size grid_view)).foldl (sectionStep grid_view) (none, [])).2

/-- The `size_t` value that the scans add to (`s += values[i] + 1`) and subtract
from (`s -= values[i] + 1`) the running `size_t`: the sum `values[i] + 1` is
computed in 32-bit `int` and then converted to `size_t`.  For the clue
`INT32_MAX = 2147483647` the `int` addition overflows (undefined in the
language; the machine result is `INT32_MIN`) and the conversion sign-extends
`-2^31` to `2^64 - 2^31`.  Clue values are `int32_t` values; a natural number
above `INT32_MAX` is not one, and the model adds `v + 1` for it. -/
def scanStep (v : Nat) : Nat :=
  if v = 2147483647 then 18446744071562067968 else v + 1

/-- The left scan: `values` are the clues not yet visited, `s` the running sum
and `i` the loop variable; the result is `start_value_id`. -/
def startScan (section_begin : Nat) : List Nat → Nat → Nat → Nat
  | [], _, i => i
  | v :: rest, s, i =>
    let s' := (s + scanStep v) % u64
    if section_begin < s' then i else startScan section_begin rest s' (i + 1)

/-- The value of `start_value_id` for a section. -/
def start_value_id (values : List Nat) (sr : SectionRange) : Nat :=
  startScan sr.begin_ values 0 0

/-- The right scan, over the clues in reverse order: the head of `rev` is
`values[i]` for the loop variable `i = rev.length - 1`; `s` is the running
`size_t` value, which wraps below zero; the result is `end_value_id = i + 1`. -/
def endScan (section_end : Nat) : List Nat → Nat → Nat
  | [], _ => 0
  | v :: rest, s =>
    let s' := subWrap u64 s (scanStep v % u64)
    if s' < section_end then rest.length + 1 else endScan section_end rest s'

/-- The value of `end_value_id` for a section. -/
def end_value_id (values : List Nat) (grid_size : Nat) (sr : SectionRange) : Nat :=
  endScan sr.end_ values.reverse grid_size

/-- The `uint32_t` accumulation `padding += section_values[j] + 1` over the
listed clues. -/
def padding (vs : List Nat) : Nat :=
  vs.foldl (fun acc v => (acc + (v + 1)) % u32) 0

/-- The value of `left_begin` for run `i` of the section values: `size_t` subtraction of a
`uint32_t` from the section size. -/
def left_begin (section_values : List Nat) (section_size i : Nat) : Nat :=
  let right_padding := padding (section_values.drop (i + 1))
  subWrap u64 section_size ((right_padding + section_values.getD i 0) % u32)

/-- The value of `right_end` for run `i` of the section values (`uint32_t`). -/
def right_end (section_values : List Nat) (i : Nat) : Nat :=
  let left_padding := padding (section_values.take i)
  (left_padding + section_values.getD i 0) % u32

/-- The body of the loop over the sections. -/
def markSection (values : List Nat) (grid_size : Nat) (sr : SectionRange) (grid_view : Line) :
    Outcome Line :=
  let s := start_value_id values sr
  let e := end_value_id values grid_size sr
  if e < s then Outcome.done grid_view
  else
    let section_values := (values.drop s).take (e - s)
    let section_size := sr.end_ - sr.begin_
    runAll
      (fun i v =>
        let lb := left_begin section_values section_size i
        let re := right_end section_values i
        runAll (fun j w => GridView.set w (sr.begin_ + j) FieldState.Marked) (List.range' lb (re - lb)) v)
      (List.range section_values.length) grid_view

/-- The rule `MarkerRule`: the overlap marking, section by section. -/
def MarkerRule (values : List Nat) (grid_view : Line) : Outcome Line :=
  runAll (markSection values (GridView.size grid_view)) (section_ranges grid_view) grid_view

end PuzzleSolver

/-! ## Views of the grid -/

namespace Puzzle

open FieldState

/-- Modelled from the spec: `Puzzle::GetRowView` (declared in `puzzle.h`, which
is not among the sources): index `i` of the view of row `r` is `grid[r][i]`. -/
def GetRowView (g : List (List FieldState)) (r : Nat) : Line := g.getD r []

/-- Writing the cells of a row view back into the grid. -/
def putRow (g : List (List FieldState)) (r : Nat) (l : Line) : List (List FieldState) :=
  List.set g r l

/-- Modelled from the spec: `Puzzle::GetColumnView` (declared in `puzzle.h`,
which is not among the sources): index `i` of the view of column `c` is
`grid[i][c]`. -/
def GetColumnView (g : List (List FieldState)) (c : Nat) : Line :=
  g.map (fun row => row.getD c FieldState.Unknown)

/-- Writing the cells of a column view back into the grid. -/
def putColumn (g : List (List FieldState)) (c : Nat) (l : Line) : List (List FieldState) :=
  List.zipWith (fun row x => List.set row c x) g l

/-- Modelled from the spec: `Puzzle::IsGridEqual` (declared in `puzzle.h`, which
is not among the sources): equality of the two grids, cell by cell. -/
def IsGridEqual (a b : Puzzle) : Bool := decide (a.m_grid = b.m_grid)

/-- The number of `Unknown` cells of a grid; `GetCompletionRatio` is one minus
this number over the number of cells. -/
def unknownCount (g : List (List FieldState)) : Nat :=
  (g.map (fun row => row.count FieldState.Unknown)).sum

/-- The grid `LoadFromFile` builds: `rows` rows of `columns` `Unknown` cells. -/
def unknownGrid (rows columns : Nat) : List (List FieldState) :=
  List.replicate rows (List.replicate columns FieldState.Unknown)

end Puzzle

namespace PuzzleSolver

open FieldState

/-- One call of `rule` on the view of row `i`. -/
def ruleOnRow (rule : List Nat → Line → Outcome Line) (i : Nat) (p : Puzzle) : Outcome Puzzle :=
  (rule (p.m_rows.getD i []) (Puzzle.GetRowView p.m_grid i)).map
    (fun l => { p with m_grid := Puzzle.putRow p.m_grid i l })

/-- One call of `rule` on the view of column `i`. -/
def ruleOnColumn (rule : List Nat → Line → Outcome Line) (i : Nat) (p : Puzzle) : Outcome Puzzle :=
  (rule (p.m_columns.getD i []) (Puzzle.GetColumnView p.m_grid i)).map
    (fun l => { p with m_grid := Puzzle.putColumn p.m_grid i l })

/-- The lambda `apply_rule` of `Solve`: the rule on every row in index order,
then on every column in index order. -/
def apply_rule (rule : List Nat → Line → Outcome Line) (p : Puzzle) : Outcome Puzzle :=
  (runAll (ruleOnRow rule) (List.range p.m_rows.length) p).andThen
    (fun q => runAll (ruleOnColumn rule) (List.range q.m_columns.length) q)

/-- The body of the `for (;;)` loop of `Solve` up to the comparison with
`last_state`: the three blocks in the order of the source. -/
def iteration (p : Puzzle) : Outcome Puzzle :=
  ((apply_rule MarkerRule p).andThen (apply_rule ZeroValueRule)).andThen (apply_rule CloseSideRule)

/-- How a run of `Solve` ends. -/
inductive SolveResult where
  /-- The loop was left through `break`; `iterations` is `m_iteration_count`. -/
  | converged (p : Puzzle) (iterations : Nat)
  /-- An exception left `Solve`. -/
  | aborted (p : Puzzle) (iterations : Nat)
  /-- A rule reached an access past the end of a vector: from here on the
  behaviour of the source is undefined. -/
  | undefinedBehaviour (p : Puzzle) (iterations : Nat)
  /-- The model ran out of loop turns. -/
  | outOfFuel
deriving DecidableEq, Repr

/-- The `for (;;)` loop of `Solve`, for at most `fuel` turns; `p` is `m_puzzle`,
which equals `last_state` at the top of every turn, and `n` is
`m_iteration_count`. -/
def solveLoop : Nat → Puzzle → Nat → SolveResult
  | 0, _, _ => SolveResult.outOfFuel
  | fuel + 1, p, n =>
    match iteration p with
    | Outcome.fault q => SolveResult.aborted q n
    | Outcome.undefined q => SolveResult.undefinedBehaviour q n
    | Outcome.done q =>
      if Puzzle.IsGridEqual q p then SolveResult.converged q n
      else solveLoop fuel q (n + 1)

/-- The function `PuzzleSolver::Solve` on a solver constructed for `p`
(`m_iteration_count` starts at `0`). -/
def Solve (fuel : Nat) (p : Puzzle) : SolveResult := solveLoop fuel p 0

end PuzzleSolver

/-! ## `Puzzle::Validate` -/

namespace Puzzle

/-- The lambda `values_valid`: the sum of the clues and `count - 1`, all in
`uint32_t` (`uint32_t(values.size()) - 1` wraps for an empty vector), compared
with the length of the line. -/
def values_valid (values : List Nat) (grid_size : Nat) : Bool :=
  let s := values.foldl (fun s v => (s + v) % u32) 0
  let s := (s + subWrap u32 (values.length % u32) 1) % u32
  decide (s ≤ grid_size)

/-- One of the two loops of `Validate`, over the lines from index `i` on; the
state is `valid` and the text written to `issues_stream` so far. -/
def validateLines (label : String) (grid_size : Nat) :
    List (List Nat) → Nat → Bool × String → Bool × String
  | [], _, st => st
  | values :: rest, i, st =>
    validateLines label grid_size rest (i + 1)
      (if !values_valid values grid_size then
        (false, st.2 ++ label ++ toString (i + 1) ++ " is invalid" ++ "\n")
      else st)

/-- The function `Puzzle::Validate`: the returned flag and the text stored in `issues`. -/
def Validate (p : Puzzle) : Bool × String :=
  let st := validateLines "Row " (p.m_columns.length % u32) p.m_rows 0 (true, "")
  validateLines "Column " (p.m_rows.length % u32) p.m_columns 0 st

end Puzzle

end Nonogram


/-! ## `Puzzle::LoadFromFile` -/

namespace Nonogram

namespace Puzzle

/-- The C library `isspace` in the default locale: space, `\t`, `\n`, `\v`,
`\f` and `\r`. -/
def isspace (c : Char) : Bool :=
  c = ' ' || c = '\t' || c = '\n' || c = Char.ofNat 11 || c = Char.ofNat 12 || c = '\r'

/-- The test of `get_non_empty_line`: `std::all_of(line.begin(), line.end(),
isspace)`, which also holds for the empty line. -/
def isBlank (line : String) : Bool := line.data.all isspace

/-- The lambda `get_non_empty_line` on a stream given by the lines that
`std::getline` will return: the first line that is not blank and the stream
after it, or `none` when `getline` fails first. -/
def get_non_empty_line : List String → Option (String × List String)
  | [] => none
  | line :: rest => if isBlank line then get_non_empty_line rest else some (line, rest)

/-- The lambda `read_values` for a vector of `count` clue sequences: one
non-blank line per sequence; `clues` is the loop `while (sstream >> value)`
on one line.  The result is the clue sequences and the stream left. -/
def read_values (clues : String → List Nat) :
    Nat → List String → Except String (List (List Nat) × List String)
  | 0, stream => Except.ok ([], stream)
  | count + 1, stream =>
    match get_non_empty_line stream with
    | none => Except.error "Invalid input"
    | some (line, rest) =>
      match read_values clues count rest with
      | Except.error e => Except.error e
      | Except.ok (values, left) => Except.ok (clues line :: values, left)

/-- The function `Puzzle::LoadFromFile` on the lines of the file, with the two
stream extractions it makes as parameters: `dims` is
`sstream >> row_count >> column_count` on the first non-blank line and `clues`
is the loop `while (sstream >> value)` on a clue line.  A thrown
`std::runtime_error` is `Except.error` with its message.  Here every `resize`
is taken to succeed; `LoadFromFileSized` below is the function with the
failure of `resize`. -/
def LoadFromFileWith (dims : String → Nat × Nat) (clues : String → List Nat)
    (lines : List String) : Except String Puzzle :=
  match get_non_empty_line lines with
  | none => Except.error "Invalid input"
  | some (line, rest) =>
    match read_values clues (dims line).1 rest with
    | Except.error e => Except.error e
    | Except.ok (rows, rest2) =>
      match read_values clues (dims line).2 rest2 with
      | Except.error e => Except.error e
      | Except.ok (columns, _) =>
        Except.ok
          { m_rows := rows
            m_columns := columns
            m_grid := List.replicate rows.length
              (List.replicate columns.length FieldState.Unknown) }

/-- How a call of `Puzzle::LoadFromFile` ends. -/
inductive LoadResult where
  /-- The puzzle was returned. -/
  | loaded (p : Puzzle)
  /-- The call threw `std::runtime_error("Invalid input")`. -/
  | invalidInput
  /-- A `resize` threw (`std::length_error` for a count above `max_size()`,
  `std::bad_alloc` when memory is short). -/
  | resizeFailed
deriving DecidableEq, Repr

/-- The function `Puzzle::LoadFromFile` on the lines of the file, with the
failure of `resize`: `max_count` is the largest number of elements `resize`
provides in the run at hand (at most `max_size()` of the vector, which is
below `2^63`).  `m_rows.resize(row_count)` and `m_columns.resize(column_count)`
run right after the dimension line is parsed, before any clue line is read;
the grid is resized to the same two counts at the end, which succeeds in the
model when the first two calls did.  Running out of memory anywhere else (in
`push_back`, in `std::getline`) is not modelled.  `dims` and `clues` are the
two stream extractions, as in `LoadFromFileWith`. -/
def LoadFromFileSized (max_count : Nat) (dims : String → Nat × Nat)
    (clues : String → List Nat) (lines : List String) : LoadResult :=
  match get_non_empty_line lines with
  | none => LoadResult.invalidInput
  | some (line, rest) =>
    if max_count < (dims line).1 then LoadResult.resizeFailed
    else if max_count < (dims line).2 then LoadResult.resizeFailed
    else
      match read_values clues (dims line).1 rest with
      | Except.error _ => LoadResult.invalidInput
      | Except.ok (rows, rest2) =>
        match read_values clues (dims line).2 rest2 with
        | Except.error _ => LoadResult.invalidInput
        | Except.ok (columns, _) =>
          LoadResult.loaded
            { m_rows := rows
              m_columns := columns
              m_grid := List.replicate rows.length
                (List.replicate columns.length FieldState.Unknown) }

/-- The outcome of one formatted extraction of an unsigned decimal number. -/
inductive Extracted where
  /-- The number read and the characters left in the stream. -/
  | ok (value : Nat) (rest : List Char)
  /-- No digit at the read position (or end of stream): the extraction fails. -/
  | noDigits
  /-- The digits do not fit the type: the extraction fails. -/
  | overflow
deriving DecidableEq, Repr

/-- The value of a run of decimal digits. -/
def decimalValue (digits : List Char) : Nat :=
  digits.foldl (fun a d => 10 * a + (d.toNat - 48)) 0

/-- One extraction `stream >> value` of the standard library for text made of
whitespace and decimal digits: leading whitespace is skipped, the longest
run of digits is read, and the value must be below `bound`.  A sign
character, which the library accepts, is outside this model (clue values are
natural numbers here) and reads as no digits. -/
def extractUnsigned (bound : Nat) (cs : List Char) : Extracted :=
  let cs1 := cs.dropWhile isspace
  let digits := cs1.takeWhile Char.isDigit
  if digits = [] then Extracted.noDigits
  else if decimalValue digits < bound then
    Extracted.ok (decimalValue digits) (cs1.dropWhile Char.isDigit)
  else Extracted.overflow

/-- The extraction `sstream >> row_count >> column_count` into two `size_t`
variables that start at `0`: a failed extraction without digits leaves `0`,
an overflow stores the largest value, and after a failure nothing more is
read. -/
def readDimensions (line : String) : Nat × Nat :=
  match extractUnsigned u64 line.data with
  | Extracted.noDigits => (0, 0)
  | Extracted.overflow => (u64 - 1, 0)
  | Extracted.ok r rest =>
    match extractUnsigned u64 rest with
    | Extracted.noDigits => (r, 0)
    | Extracted.overflow => (r, u64 - 1)
    | Extracted.ok c _ => (r, c)

/-- The loop `while (sstream >> value) sub_values.push_back(value)` with an
`int32_t` value, for at most `fuel` extractions. -/
def readValuesFrom : Nat → List Char → List Nat
  | 0, _ => []
  | fuel + 1, cs =>
    match extractUnsigned 2147483648 cs with
    | Extracted.ok v rest => v :: readValuesFrom fuel rest
    | Extracted.noDigits => []
    | Extracted.overflow => []

/-- The clue values read from one line; every extraction consumes a character,
so the length of the line bounds the number of extractions. -/
def readValues (line : String) : List Nat := readValuesFrom line.length line.data

/-- The function `Puzzle::LoadFromFile` on the lines of the file. -/
def LoadFromFile (lines : List String) : Except String Puzzle :=
  LoadFromFileWith readDimensions readValues lines

end Puzzle

end Nonogram


/-! ## Definitions used to state the theorems -/

namespace Nonogram

open PuzzleSolver

/-- The cells after writing `s` at every listed index. -/
def paint (idxs : List Nat) (s : FieldState) (l : Line) : Line :=
  idxs.foldl (fun v i => List.set v i s) l

/-- The overlap of the specification: cell `j` of a line of length `L` lies in
the intersection of the leftmost and the rightmost placement of some run `i`
(counted from `0`) of `clues`. -/
def inOverlap (clues : List Nat) (L j : Nat) : Bool :=
  (List.range clues.length).any (fun i =>
    decide (L - ((clues.drop i).sum + (clues.length - 1 - i)) ≤ j) &&
      decide (j < (clues.take (i + 1)).sum + i))

/-- The 5x5 puzzle of the end-to-end scenario, as loaded. -/
def ladderPuzzle : Puzzle :=
  { m_rows := [[5], [1, 1], [5], [1, 1], [5]]
    m_columns := [[5], [1, 1], [5], [1, 1], [5]]
    m_grid := Puzzle.unknownGrid 5 5 }

/-- The capacity invariant of the specification for one line, over the
integers: `sum(clues) + (count(clues) - 1) <= line length`. -/
def fits (clues : List Nat) (line_length : Nat) : Bool :=
  decide ((clues.sum : Int) + ((clues.length : Int) - 1) ≤ (line_length : Int))

/-- The puzzle stays inside 32-bit arithmetic: fewer than `2^32` rows and
columns, and every clue sequence is non-empty with
`sum(clues) + (count(clues) - 1)` below `2^32`. -/
def InRange32 (p : Puzzle) : Prop :=
  p.m_rows.length < u32 ∧ p.m_columns.length < u32 ∧
    ∀ clues ∈ p.m_rows ++ p.m_columns, clues ≠ [] ∧ clues.sum + (clues.length - 1) < u32

/-- One entry per line that `bad` selects, in increasing index order; the
first line has index `i`, and entries show the index plus one. -/
def entriesOf (label : String) (bad : List Nat → Bool) (lines : List (List Nat)) (i : Nat) :
    List String :=
  ((lines.enumFrom i).filter (fun ic => bad ic.2)).map
    (fun ic => label ++ toString (ic.1 + 1) ++ " is invalid" ++ "\n")

/-- The issues text of the specification: an entry `Row <i+1> is invalid` for
every row that violates the capacity invariant, in increasing `i`, then an
entry `Column <j+1> is invalid` for every violating column, in increasing
`j`. -/
def expectedIssues (p : Puzzle) : String :=
  String.join
    (entriesOf "Row " (fun clues => !fits clues p.m_columns.length) p.m_rows 0 ++
      entriesOf "Column " (fun clues => !fits clues p.m_rows.length) p.m_columns 0)

/-- A 1x1 puzzle whose row clues sum to `2^32 - 1`. -/
def wrappedSumPuzzle : Puzzle :=
  { m_rows := [[2147483647, 2147483647, 1]]
    m_columns := [[0]]
    m_grid := Puzzle.unknownGrid 1 1 }

/-- A 1x1 puzzle whose row has no clue at all. -/
def emptyCluePuzzle : Puzzle :=
  { m_rows := [[]]
    m_columns := [[0]]
    m_grid := Puzzle.unknownGrid 1 1 }

/-- A puzzle with 5 columns whose first row has the clue `[6]`. -/
def tooLongRowPuzzle : Puzzle :=
  { m_rows := [[6], [1]]
    m_columns := [[1], [1], [0], [0], [1]]
    m_grid := Puzzle.unknownGrid 2 5 }

/-- The calls of one pass of `rule` over a puzzle with the clues of `p`: the
rule on rows `0..R-1` in index order, then on columns `0..C-1` in index
order. -/
def passSteps (rule : List Nat → Line → Outcome Line) (p : Puzzle) :
    List (Puzzle → Outcome Puzzle) :=
  (List.range p.m_rows.length).map (ruleOnRow rule) ++
    (List.range p.m_columns.length).map (ruleOnColumn rule)

/-- The passes of one iteration as a single sequence of line applications, for
the rules in the given order. -/
def passSequence (order : List (List Nat → Line → Outcome Line)) (p : Puzzle) : Outcome Puzzle :=
  runAll (fun step q => step q) ((order.map (fun rule => passSteps rule p)).flatten) p

/-- One iteration as the specification orders it: the Zero-Value pass first,
the Marker pass second, the Close-Side pass third. -/
def specIteration (p : Puzzle) : Outcome Puzzle :=
  passSequence [ZeroValueRule, MarkerRule, CloseSideRule] p

/-- A puzzle with two rows and one column on which the order of the Marker
pass and the Zero-Value pass matters. -/
def orderPuzzle : Puzzle :=
  { m_rows := [[0], [1]]
    m_columns := [[1]]
    m_grid := Puzzle.unknownGrid 2 1 }

/-- The clue sequences of `q` are those of `p`. -/
def SameClues (p q : Puzzle) : Prop :=
  q.m_rows = p.m_rows ∧ q.m_columns = p.m_columns

/-- Cell `(r, c)` of a grid, as a row view or a column view reads it. -/
def cell (g : List (List FieldState)) (r c : Nat) : FieldState :=
  GridView.at_ (Puzzle.GetRowView g r) c

/-- A determined state is kept: `y` is `x` unless `x` is `Unknown`. -/
def CellKept (x y : FieldState) : Prop := x ≠ FieldState.Unknown → y = x

/-- Line `b` has the length of `a` and keeps every determined cell of `a`. -/
def Narrows (a b : Line) : Prop := List.Forall₂ CellKept a b

/-- Grid `h` has the shape of `g` and keeps every determined cell of `g`. -/
def GridNarrows (g h : List (List FieldState)) : Prop := List.Forall₂ Narrows g h

/-- Puzzle `q` has the clues of `p`, and its grid keeps every determined cell
of the grid of `p`. -/
def PuzzleNarrows (p q : Puzzle) : Prop :=
  SameClues p q ∧ GridNarrows p.m_grid q.m_grid

/-- The first `k` turns of the `Solve` loop, without the comparison with
`last_state`. -/
def run : Nat → Puzzle → Outcome Puzzle
  | 0, p => Outcome.done p
  | k + 1, p => (run k p).andThen iteration

/-- A valid 3x1 puzzle without a solution: the column needs two filled cells,
every row needs none. -/
def contradictoryPuzzle : Puzzle :=
  { m_rows := [[0], [0], [0]]
    m_columns := [[2]]
    m_grid := Puzzle.unknownGrid 3 1 }

/-- A valid 3x3 puzzle that the three rules solve in part. -/
def ringPuzzle : Puzzle :=
  { m_rows := [[3], [1, 1], [3]]
    m_columns := [[3], [1, 1], [3]]
    m_grid := Puzzle.unknownGrid 3 3 }

/-- The indices `MarkerRule` passes to `set` for one section, in the order of
the two nested loops. -/
def sectionTargets (values : List Nat) (grid_size : Nat) (sr : SectionRange) : List Nat :=
  let s := start_value_id values sr
  let e := end_value_id values grid_size sr
  if e < s then []
  else
    let section_values := (values.drop s).take (e - s)
    let section_size := sr.end_ - sr.begin_
    ((List.range section_values.length).map (fun i =>
      (List.range' (left_begin section_values section_size i)
        (right_end section_values i - left_begin section_values section_size i)).map
        (fun j => sr.begin_ + j))).flatten

/-- The indices `MarkerRule` passes to `set`, in order, when no write fails. -/
def markerTargets (values : List Nat) (grid_view : Line) : List Nat :=
  ((section_ranges grid_view).map (sectionTargets values (GridView.size grid_view))).flatten

/-- The number of maximal runs of `Marked` cells in a list of cells: the
number of `Marked` cells that are the last cell or are followed by a cell that
is not `Marked`. -/
def markedRuns : Line → Nat
  | [] => 0
  | [c] => if c = FieldState.Marked then 1 else 0
  | c :: d :: rest =>
    (if c = FieldState.Marked ∧ d ≠ FieldState.Marked then 1 else 0) + markedRuns (d :: rest)

/-- The start of the open run as the specification describes it: one past the
index of the nearest `Empty` cell before index `u`, and `0` when there is no
`Empty` cell before `u`. -/
def openRunStart (l : Line) : Nat → Nat
  | 0 => 0
  | i + 1 => if GridView.at_ l i = FieldState.Empty then i + 1 else openRunStart l i

/-- The lines of a text that are not entirely whitespace, in order. -/
def nonBlankLines (lines : List String) : List String :=
  lines.filter (fun line => !Puzzle.isBlank line)

/-- The text `cs` is a line of whitespace-separated non-negative decimal
integers whose values are, in order, `vals`: optional whitespace, then a
non-empty run of digits that ends at the end of the line or at a whitespace
character, and so on. -/
inductive IntLine : List Char → List Nat → Prop
  | blank (ws : List Char) : (∀ c ∈ ws, Puzzle.isspace c = true) → IntLine ws []
  | token (ws digits rest : List Char) (vals : List Nat) :
      (∀ c ∈ ws, Puzzle.isspace c = true) → digits ≠ [] →
      (∀ c ∈ digits, c.isDigit = true) → (∀ c ∈ rest.head?, Puzzle.isspace c = true) →
      IntLine rest vals → IntLine (ws ++ digits ++ rest) (Puzzle.decimalValue digits :: vals)

/-- A text whose only row clue is the integer `3000000000`, which does not fit
an `int32_t`. -/
def bigClueText : List String := ["1 1", "3000000000", "1"]

/-- A text with blank lines between the dimension line, two row clue lines and
one column clue line. -/
def sampleText : List String := ["", "2 1", "  ", "1", "0", "", "2"]

/-- A line of the puzzle: a row or a column, by index. -/
inductive LineId where
  | row (i : Nat)
  | column (j : Nat)
deriving DecidableEq, Repr

/-- One call of `rule` on the view of the given line. -/
def ruleOnLine (rule : List Nat → Line → Outcome Line) : LineId → Puzzle → Outcome Puzzle
  | LineId.row i => PuzzleSolver.ruleOnRow rule i
  | LineId.column j => PuzzleSolver.ruleOnColumn rule j

/-- The rule applied to the lines in the listed order. -/
def applyInOrder (rule : List Nat → Line → Outcome Line) (order : List LineId) (p : Puzzle) :
    Outcome Puzzle :=
  runAll (ruleOnLine rule) order p

/-- The reference order of `apply_rule`: all rows in index order, then all
columns in index order. -/
def referenceOrder (p : Puzzle) : List LineId :=
  (List.range p.m_rows.length).map LineId.row ++
    (List.range p.m_columns.length).map LineId.column

/-- A 2×2 puzzle state with one `Marked` cell in the corner, for which the
Close-Side pass depends on whether rows or columns go first. -/
def closeSidePuzzle : Puzzle :=
  { m_rows := [[2], [0]]
    m_columns := [[1], [1]]
    m_grid := [[FieldState.Marked, FieldState.Unknown],
      [FieldState.Unknown, FieldState.Unknown]] }

/-- The cells `ZeroValueRule` writes `Empty` to: all of them for the clues
`[0]`, none otherwise. -/
def zeroTargets (values : List Nat) (grid_view : Line) : List Nat :=
  if (decide (values.length = 1) && decide (values.getD 0 0 = 0)) = true then
    List.range (GridView.size grid_view)
  else []

/-- Every listed cell of the line exists and is `Unknown` or already `s`: the
writes of `s` to these cells all succeed. -/
def Paintable (s : FieldState) (targets : List Nat) (l : Line) : Prop :=
  ∀ j ∈ targets, j < l.length ∧
    (GridView.at_ l j = FieldState.Unknown ∨ GridView.at_ l j = s)

/-- The line `b` is the line `a` with some `Unknown` cells turned to `s`. -/
def Painted (s : FieldState) (a b : Line) : Prop :=
  b.length = a.length ∧
    ∀ k, GridView.at_ b k = GridView.at_ a k ∨
      (GridView.at_ a k = FieldState.Unknown ∧ GridView.at_ b k = s)

/-- The rule writes the one state `s` to the cells `targets values l`, and these
cells are the same for a line that differs by cells turned from `Unknown` to
`s`. -/
def PaintsWith (rule : List Nat → Line → Outcome Line) (s : FieldState)
    (targets : List Nat → Line → List Nat) : Prop :=
  s ≠ FieldState.Unknown ∧
  (∀ values l, rule values l =
    runAll (fun j w => GridView.set w j s) (targets values l) l) ∧
  (∀ values a b, Painted s a b → targets values b = targets values a)

/-- A 3×3 puzzle with the clue `[2]` on every line: the overlaps of the rows
and of the columns cross in the middle cell. -/
def crossPuzzle : Puzzle :=
  { m_rows := [[2], [2], [2]]
    m_columns := [[2], [2], [2]]
    m_grid := Puzzle.unknownGrid 3 3 }

/-- The lengths of the maximal runs of `Marked` cells of `cells`, in order,
when `n` `Marked` cells directly precede `cells` (they count for its first
run). -/
def runsFrom : Nat → Line → List Nat
  | n, [] => if n = 0 then [] else [n]
  | n, c :: rest =>
    if c = FieldState.Marked then runsFrom (n + 1) rest
    else if n = 0 then runsFrom 0 rest
    else n :: runsFrom 0 rest

/-- The lengths of the maximal runs of `Marked` cells of a line, in order. -/
def runLengths (cells : Line) : List Nat := runsFrom 0 cells

/-- The cells a list of runs needs when each run comes with one separating
cell: the sum of `v + 1` over the runs. -/
def span (runs : List Nat) : Nat := (runs.map (fun v => v + 1)).sum

/-- A solution of the line `l` for the clues `values`: an assignment of
`Marked`/`Empty` to all cells whose maximal `Marked` runs have, in order,
exactly the clue lengths, and which agrees with every cell of `l` that is
already `Marked` or `Empty`. -/
def IsSolution (values : List Nat) (l solution : Line) : Prop :=
  solution.length = l.length ∧
  (∀ c ∈ solution, c = FieldState.Marked ∨ c = FieldState.Empty) ∧
  runLengths solution = values ∧
  ∀ i, GridView.at_ l i ≠ FieldState.Unknown → GridView.at_ solution i = GridView.at_ l i

/-- A section range as the first block of `MarkerRule` means it: a non-empty
range of cells inside the line, bounded on each side by the end of the line or
by an `Empty` cell. -/
def GoodSection (l : Line) (sr : SectionRange) : Prop :=
  sr.begin_ < sr.end_ ∧ sr.end_ ≤ l.length ∧
  (sr.begin_ = 0 ∨ GridView.at_ l (sr.begin_ - 1) = FieldState.Empty) ∧
  (sr.end_ = l.length ∨ GridView.at_ l sr.end_ = FieldState.Empty)

/-- A partially filled line of eight cells with one `Empty` cell, for the
clues `[3, 2]`. -/
def partialLine : Line :=
  [FieldState.Unknown, FieldState.Unknown, FieldState.Unknown, FieldState.Unknown,
    FieldState.Empty, FieldState.Unknown, FieldState.Unknown, FieldState.Unknown]

/-- One of the solutions of `partialLine` for the clues `[3, 2]`. -/
def partialLineSolution : Line :=
  [FieldState.Marked, FieldState.Marked, FieldState.Marked, FieldState.Empty,
    FieldState.Empty, FieldState.Marked, FieldState.Marked, FieldState.Empty]

/-- A 3×4 puzzle that `Validate` accepts and that has no solution: the column
clues force two separate `Marked` cells into the middle row, whose only clue
is `[1]`. -/
def overreadPuzzle : Puzzle :=
  { m_rows := [[1], [1], [1]]
    m_columns := [[2], [0], [2], [1]]
    m_grid := Puzzle.unknownGrid 3 4 }

/-- A 2×1 puzzle state with row clues `[0]`, `[0]` whose first row is already
`Marked`: the Zero-Value rule fails on row 0 and succeeds on row 1. -/
def markedCornerPuzzle : Puzzle :=
  { m_rows := [[0], [0]]
    m_columns := [[1]]
    m_grid := [[FieldState.Marked], [FieldState.Unknown]] }

/-- The largest element count any `std::vector` can have on a 64-bit target:
`max_size()` is at most `PTRDIFF_MAX = 2^63 - 1`. -/
def ptrdiffMax : Nat := 9223372036854775807

/-- A text whose row count does not fit `size_t`: the extraction stores the
largest `size_t` value. -/
def hugeCountText : List String := ["99999999999999999999 1"]

/-- A line of `2^31 + 2` cells: `2^31 - 1` `Unknown` cells, one `Empty` cell and
two more `Unknown` cells. -/
def wideLine : Line :=
  List.replicate 2147483647 FieldState.Unknown ++
    [FieldState.Empty, FieldState.Unknown, FieldState.Unknown]

/-- A solution of `wideLine` for the clues `[2147483647, 1]`: the long run
fills the cells before the `Empty` cell and the short run is the cell right
after it. -/
def wideLineSolution : Line :=
  List.replicate 2147483647 FieldState.Marked ++
    [FieldState.Empty, FieldState.Marked, FieldState.Empty]

end Nonogram
-- END OF DEFINITIONS


/-! # Theorems -/

namespace Nonogram

open PuzzleSolver

/-! ## Loops and outcomes -/

theorem runAll_nil {α σ : Type} (f : α → σ → Outcome σ) (s : σ) :
    runAll f [] s = Outcome.done s := rfl

theorem runAll_cons {α σ : Type} (f : α → σ → Outcome σ) (a : α) (rest : List α) (s : σ) :
    runAll f (a :: rest) s = (f a s).andThen (runAll f rest) := by
  cases h : f a s <;> simp [runAll, Outcome.andThen, h]

theorem runAll_append {α σ : Type} (f : α → σ → Outcome σ) (xs ys : List α) (s : σ) :
    runAll f (xs ++ ys) s = (runAll f xs s).andThen (runAll f ys) := by
  induction xs generalizing s with
  | nil => rfl
  | cons a rest ih =>
    rw [List.cons_append, runAll_cons, runAll_cons]
    cases h : f a s with
    | done t => simp only [Outcome.andThen]; exact ih t
    | fault t => rfl
    | undefined t => rfl

theorem runAll_map {α β σ : Type} (f : β → σ → Outcome σ) (g : α → β) (xs : List α) (s : σ) :
    runAll f (xs.map g) s = runAll (fun a => f (g a)) xs s := by
  induction xs generalizing s with
  | nil => rfl
  | cons a rest ih =>
    rw [List.map_cons, runAll_cons, runAll_cons]
    cases h : f (g a) s with
    | done t => simp only [Outcome.andThen]; exact ih t
    | fault t => rfl
    | undefined t => rfl

theorem andThen_assoc {σ : Type} (o : Outcome σ) (f g : σ → Outcome σ) :
    (o.andThen f).andThen g = o.andThen (fun s => (f s).andThen g) := by
  cases o <;> rfl

theorem andThen_done {σ : Type} (s : σ) (f : σ → Outcome σ) :
    (Outcome.done s).andThen f = f s := rfl

/-- A relation that is reflexive, transitive and kept by every turn of the
body is kept by the whole loop, whether the loop returns or faults. -/
theorem runAll_state_rel {α σ : Type} (R : σ → σ → Prop) (hrefl : ∀ s, R s s)
    (htrans : ∀ a b c, R a b → R b c → R a c) (f : α → σ → Outcome σ)
    (hf : ∀ a s, R s (f a s).state) (xs : List α) (s : σ) :
    R s (runAll f xs s).state := by
  induction xs generalizing s with
  | nil => exact hrefl s
  | cons a rest ih =>
    have h1 := hf a s
    rw [runAll_cons]
    cases h : f a s with
    | done t =>
      rw [h] at h1
      exact htrans _ _ _ h1 (ih t)
    | fault t =>
      rw [h] at h1
      exact h1
    | undefined t =>
      rw [h] at h1
      exact h1

theorem andThen_state_rel {σ : Type} (R : σ → σ → Prop)
    (htrans : ∀ a b c, R a b → R b c → R a c) (o : Outcome σ) (f : σ → Outcome σ) (s : σ)
    (ho : R s o.state) (hf : ∀ t, R t (f t).state) : R s (o.andThen f).state := by
  cases o with
  | done t => exact htrans _ _ _ ho (hf t)
  | fault t => exact ho
  | undefined t => exact ho

/-! ## Reading and writing cells -/

theorem at_nil (i : Nat) : GridView.at_ [] i = FieldState.Unknown := rfl

theorem at_cons_zero (c : FieldState) (l : Line) : GridView.at_ (c :: l) 0 = c := rfl

theorem at_cons_succ (c : FieldState) (l : Line) (i : Nat) :
    GridView.at_ (c :: l) (i + 1) = GridView.at_ l i := rfl

theorem at_of_length_le (l : Line) (i : Nat) (h : l.length ≤ i) :
    GridView.at_ l i = FieldState.Unknown := by
  induction l generalizing i with
  | nil => rfl
  | cons c l ih =>
    cases i with
    | zero => simp at h
    | succ i => exact ih i (by simpa using h)

theorem at_set (l : Line) (i j : Nat) (s : FieldState) :
    GridView.at_ (List.set l i s) j = if i = j ∧ i < l.length then s else GridView.at_ l j := by
  induction l generalizing i j with
  | nil => simp [at_nil]
  | cons c l ih =>
    cases i with
    | zero =>
      cases j with
      | zero => simp [at_cons_zero]
      | succ j => simp [at_cons_succ]
    | succ i =>
      cases j with
      | zero => simp [at_cons_zero]
      | succ j => simp [at_cons_succ, ih]

theorem at_append_left (a b : Line) (i : Nat) (h : i < a.length) :
    GridView.at_ (a ++ b) i = GridView.at_ a i := by
  induction a generalizing i with
  | nil => simp at h
  | cons c a ih =>
    cases i with
    | zero => rfl
    | succ i => exact ih i (by simpa using h)

theorem at_append_right (a b : Line) (i : Nat) :
    GridView.at_ (a ++ b) (a.length + i) = GridView.at_ b i := by
  induction a with
  | nil => simp
  | cons c a ih =>
    rw [List.length_cons, List.cons_append, show a.length + 1 + i = (a.length + i) + 1 by omega,
      at_cons_succ]
    exact ih

theorem at_replicate (n i : Nat) (c : FieldState) (h : i < n) :
    GridView.at_ (List.replicate n c) i = c := by
  induction n generalizing i with
  | zero => omega
  | succ n ih =>
    cases i with
    | zero => rfl
    | succ i => exact ih i (by omega)

/-- Two lines of the same length with the same cells are equal. -/
theorem line_ext (a b : Line) (hlen : a.length = b.length)
    (h : ∀ i, i < a.length → GridView.at_ a i = GridView.at_ b i) : a = b := by
  induction a generalizing b with
  | nil =>
    cases b with
    | nil => rfl
    | cons c b => simp at hlen
  | cons x a ih =>
    cases b with
    | nil => simp at hlen
    | cons y b =>
      have h0 : x = y := h 0 (by simp)
      have ht : a = b := ih b (by simpa using hlen) (fun i hi => h (i + 1) (by simpa using hi))
      rw [h0, ht]

/-- A write of a determined state to a cell inside the line that is `Unknown`
or already holds that state succeeds. -/
theorem set_done (l : Line) (i : Nat) (s : FieldState) (hs : s ≠ FieldState.Unknown)
    (hi : i < l.length) (hc : GridView.at_ l i = FieldState.Unknown ∨ GridView.at_ l i = s) :
    GridView.set l i s = Outcome.done (List.set l i s) := by
  simp [GridView.set, hs, hi, hc]

theorem paint_length (idxs : List Nat) (s : FieldState) (l : Line) :
    (paint idxs s l).length = l.length := by
  induction idxs generalizing l with
  | nil => rfl
  | cons i rest ih => simp [paint, List.foldl_cons] at ih ⊢; rw [ih]; simp

theorem at_paint (idxs : List Nat) (s : FieldState) (l : Line) (j : Nat) :
    GridView.at_ (paint idxs s l) j = if j ∈ idxs ∧ j < l.length then s else GridView.at_ l j := by
  induction idxs generalizing l with
  | nil => simp [paint]
  | cons i rest ih =>
    have h := ih (List.set l i s)
    simp only [paint, List.foldl_cons] at h ⊢
    rw [h, at_set, List.length_set]
    by_cases hj : j ∈ rest
    · by_cases hl : j < l.length
      · simp [hj, hl]
      · simp only [hj, hl, and_false, if_false, List.mem_cons, or_true]
        have : ¬ (i = j ∧ i < l.length) := fun ⟨e, h2⟩ => hl (e ▸ h2)
        simp [this]
    · by_cases hij : i = j
      · subst hij; simp [hj]
      · have : ¬ j = i := fun e => hij e.symm
        simp [hj, hij, this]

/-- A loop of writes of one determined state succeeds when every target is
inside the line and is `Unknown` or already in that state. -/
theorem runAll_set_done (g : Nat → Nat) (s : FieldState) (hs : s ≠ FieldState.Unknown)
    (idxs : List Nat) (l : Line)
    (h : ∀ i ∈ idxs, g i < l.length ∧
      (GridView.at_ l (g i) = FieldState.Unknown ∨ GridView.at_ l (g i) = s)) :
    runAll (fun i v => GridView.set v (g i) s) idxs l = Outcome.done (paint (idxs.map g) s l) := by
  induction idxs generalizing l with
  | nil => rfl
  | cons i rest ih =>
    have hi := h i (List.mem_cons_self i rest)
    rw [runAll_cons, set_done l (g i) s hs hi.1 hi.2, andThen_done]
    rw [ih (List.set l (g i) s)]
    · rfl
    · intro k hk
      have hk2 := h k (List.mem_cons_of_mem i hk)
      rw [List.length_set, at_set]
      refine ⟨hk2.1, ?_⟩
      by_cases e : g i = g k ∧ g i < l.length
      · rw [if_pos e]; exact Or.inr rfl
      · rw [if_neg e]; exact hk2.2

/-! ## C1, C4: the right scan of `MarkerRule` on a run that fills its line -/

/-- C1 (evaluation at the failing input): for a line of 5 `Unknown` cells and
the clues `[5]` the capacity bound `5 + 0 <= 5` holds and every cell `0..4` lies
in the overlap of the leftmost and the rightmost placement, yet `MarkerRule`
returns the line with all five cells still `Unknown`. -/
theorem markerRule_full_line_clue_marks_nothing :
    [5].sum + ([5].length - 1) ≤ 5 ∧
      (∀ j, j < 5 → inOverlap [5] 5 j = true) ∧
      MarkerRule [5] (List.replicate 5 FieldState.Unknown) =
        Outcome.done (List.replicate 5 FieldState.Unknown) := by
  decide

/-- C4 (evaluation at the failing input): on the 5x5 puzzle with row and column
clues `[[5],[1,1],[5],[1,1],[5]]` and an all-`Unknown` grid, `Solve` leaves its
loop in the first turn with the grid unchanged: it converges with iteration
count `0` and all 25 cells still `Unknown`. -/
theorem solve_ladder_stays_unknown :
    (∀ fuel, Solve (fuel + 1) ladderPuzzle = SolveResult.converged ladderPuzzle 0) ∧
      Puzzle.unknownCount ladderPuzzle.m_grid = 25 := by
  refine ⟨fun fuel => ?_, by decide⟩
  have h : iteration ladderPuzzle = Outcome.done ladderPuzzle := by decide
  simp [Solve, solveLoop, h, Puzzle.IsGridEqual]

/-! ## C2: `ZeroValueRule` -/

theorem at_mem (l : Line) (i : Nat) (h : i < l.length) : GridView.at_ l i ∈ l := by
  induction l generalizing i with
  | nil => simp at h
  | cons c l ih =>
    cases i with
    | zero => simp [at_cons_zero]
    | succ i =>
      rw [at_cons_succ]
      exact List.mem_cons_of_mem c (ih i (by simpa using h))

theorem zero_value_flag (values : List Nat) :
    (decide (values.length = 1) && decide (values.getD 0 0 = 0)) = decide (values = [0]) := by
  cases values with
  | nil => rfl
  | cons v rest =>
    cases rest with
    | nil => simp
    | cons w rest => simp

/-- C2: with clues exactly `[0]`, `ZeroValueRule` returns the line with every
cell `Empty`, for every line without a `Marked` cell; with any other clues it
returns the line unchanged. -/
theorem zeroValueRule_spec (values : List Nat) (l : Line) :
    (values = [0] → (∀ c ∈ l, c ≠ FieldState.Marked) →
        ZeroValueRule values l = Outcome.done (List.replicate l.length FieldState.Empty)) ∧
      (values ≠ [0] → ZeroValueRule values l = Outcome.done l) := by
  constructor
  · intro hv hl
    have hrun := runAll_set_done (fun i => i) FieldState.Empty (by decide)
      (List.range l.length) l (by
        intro i hi
        have hi2 : i < l.length := List.mem_range.mp hi
        refine ⟨hi2, ?_⟩
        have hm := hl _ (at_mem l i hi2)
        cases hc : GridView.at_ l i with
        | Unknown => exact Or.inl rfl
        | Marked => exact absurd hc hm
        | Empty => exact Or.inr rfl)
    simp only [ZeroValueRule, zero_value_flag, hv, GridView.size, decide_True, Bool.not_true]
    rw [if_neg (by simp)]
    rw [hrun]
    congr 1
    apply line_ext
    · simp [paint_length]
    · intro i hi
      rw [paint_length] at hi
      rw [at_paint, at_replicate _ _ _ hi]
      simp [hi]
  · intro hv
    simp only [ZeroValueRule, zero_value_flag]
    simp [hv]

/-- Witness for C2: the line `? E ?` with clues `[0]` becomes `E E E`; the same
line with clues `[0, 1]` is returned as it is. -/
theorem zeroValueRule_spec_witness :
    ZeroValueRule [0] [FieldState.Unknown, FieldState.Empty, FieldState.Unknown] =
        Outcome.done [FieldState.Empty, FieldState.Empty, FieldState.Empty] ∧
      ZeroValueRule [0, 1] [FieldState.Unknown, FieldState.Empty, FieldState.Unknown] =
        Outcome.done [FieldState.Unknown, FieldState.Empty, FieldState.Unknown] :=
  ⟨(zeroValueRule_spec [0] [FieldState.Unknown, FieldState.Empty, FieldState.Unknown]).1 rfl
      (by decide),
    (zeroValueRule_spec [0, 1] [FieldState.Unknown, FieldState.Empty, FieldState.Unknown]).2
      (by decide)⟩

/-! ## C3: `CloseSideRule` on a line that starts with an open run -/

theorem at_replicate_unknown (n i : Nat) :
    GridView.at_ (List.replicate n FieldState.Unknown) i = FieldState.Unknown := by
  by_cases h : i < n
  · exact at_replicate n i _ h
  · exact at_of_length_le _ _ (by simpa using h)

/-- The cells of a line of `m` `Marked` cells followed by `Unknown` cells. -/
theorem at_marked_unknown (m q j : Nat) :
    GridView.at_ (List.replicate m FieldState.Marked ++ List.replicate q FieldState.Unknown) j =
      if j < m then FieldState.Marked else FieldState.Unknown := by
  by_cases h : j < m
  · rw [if_pos h, at_append_left _ _ _ (by simpa using h), at_replicate _ _ _ h]
  · rw [if_neg h]
    obtain ⟨k, rfl⟩ : ∃ k, j = (List.replicate m FieldState.Marked).length + k :=
      ⟨j - m, by simp; omega⟩
    rw [at_append_right, at_replicate_unknown]

theorem firstUnknownFrom_marked (m : Nat) (rest : Line) (i : Nat) :
    firstUnknownFrom (List.replicate m FieldState.Marked ++ FieldState.Unknown :: rest) i =
      i + m := by
  induction m generalizing i with
  | zero => simp [firstUnknownFrom]
  | succ m ih =>
    rw [List.replicate_succ, List.cons_append, firstUnknownFrom, if_neg (by decide), ih]
    omega

theorem firstUnknownFrom_none (l : Line) (i : Nat) (h : ∀ c ∈ l, c ≠ FieldState.Unknown) :
    firstUnknownFrom l i = 0 := by
  induction l generalizing i with
  | nil => rfl
  | cons c l ih =>
    rw [firstUnknownFrom, if_neg (h c (List.mem_cons_self c l))]
    exact ih (i + 1) (fun d hd => h d (List.mem_cons_of_mem c hd))

theorem sideBeginFrom_zero (l : Line) (n : Nat)
    (h : ∀ i, i < n → GridView.at_ l i ≠ FieldState.Empty) : sideBeginFrom l n = 0 := by
  induction n with
  | zero => rfl
  | succ n ih =>
    rw [sideBeginFrom]
    split
    · rw [if_neg (h n (by omega))]
      exact ih (fun i hi => h i (by omega))
    · rfl

theorem value_id_zero (l : Line) (n : Nat)
    (h : ∀ i, i < n → GridView.at_ l (i + 1) ≠ FieldState.Empty) : value_id l n = 0 := by
  unfold value_id
  rw [List.countP_eq_zero]
  intro i hi
  have := h i (List.mem_range.mp hi)
  simp [this]

/-- The cells of a line of `c` `Marked` cells, one `Empty` cell and `Unknown`
cells. -/
theorem at_marked_empty_unknown (c q j : Nat) :
    GridView.at_ (List.replicate c FieldState.Marked ++
        FieldState.Empty :: List.replicate q FieldState.Unknown) j =
      if j < c then FieldState.Marked else if j = c then FieldState.Empty
      else FieldState.Unknown := by
  by_cases h : j < c
  · rw [if_pos h, at_append_left _ _ _ (by simpa using h), at_replicate _ _ _ h]
  · rw [if_neg h]
    obtain ⟨k, rfl⟩ : ∃ k, j = (List.replicate c FieldState.Marked).length + k :=
      ⟨j - c, by simp; omega⟩
    rw [at_append_right]
    cases k with
    | zero => simp [at_cons_zero]
    | succ k =>
      rw [at_cons_succ, at_replicate_unknown, if_neg (by simp)]

/-- The rule `CloseSideRule` returns at once when the first loop leaves
`first_unknown_id` at `0`. -/
theorem closeSideRule_of_first_zero (values : List Nat) (l : Line)
    (h : first_unknown_id l = 0) : CloseSideRule values l = Outcome.done l := by
  unfold CloseSideRule
  dsimp only
  rw [h]
  split
  · rfl
  · rw [if_pos rfl]

/-- The rule `CloseSideRule` past its three early returns. -/
theorem closeSideRule_active (values : List Nat) (l : Line) (fu value : Nat)
    (h1 : first_unknown_id l = fu) (h2 : fu ≠ l.length) (h3 : fu ≠ 0)
    (h4 : GridView.at_ l (fu - 1) = FieldState.Marked)
    (h5 : values.get? (value_id l fu) = some value) :
    CloseSideRule values l =
      (runAll (fun i v => GridView.set v (sideBeginFrom l fu + i) FieldState.Marked)
        (List.range value) l).andThen
        (fun v => if sideBeginFrom l fu + value < v.length then
          GridView.set v (sideBeginFrom l fu + value) FieldState.Empty else Outcome.done v) := by
  unfold CloseSideRule
  dsimp only
  rw [h1, GridView.size, if_neg h2, if_neg h3, if_neg (by rw [h4]; simp), h5]
  rfl

/-- C3: on a line of length `L` whose first `m >= 1` cells are `Marked` and
whose other cells are `Unknown`, with clues whose first value `c` satisfies
`m <= c <= L`, `CloseSideRule` returns the line whose cells `0..c-1` are
`Marked`, whose cell `c` is `Empty` when `c < L`, and whose other cells are
still `Unknown`. -/
theorem closeSideRule_open_run_at_start (m L c : Nat) (rest : List Nat)
    (hm : 1 ≤ m) (hmc : m ≤ c) (hcL : c ≤ L) :
    CloseSideRule (c :: rest)
        (List.replicate m FieldState.Marked ++ List.replicate (L - m) FieldState.Unknown) =
      Outcome.done (List.replicate c FieldState.Marked ++
        (if c < L then FieldState.Empty :: List.replicate (L - c - 1) FieldState.Unknown
         else [])) := by
  have hlen : (List.replicate m FieldState.Marked ++
      List.replicate (L - m) FieldState.Unknown).length = L := by simp; omega
  by_cases hmL : m = L
  · -- the line is all `Marked`: there is no `Unknown` cell
    have hc : c = m := by omega
    have hLm : L - m = 0 := by omega
    have hfu : first_unknown_id (List.replicate m FieldState.Marked ++
        List.replicate (L - m) FieldState.Unknown) = 0 := by
      apply firstUnknownFrom_none
      intro d hd
      rw [hLm] at hd
      simp at hd
      rw [hd.2]
      decide
    rw [closeSideRule_of_first_zero _ _ hfu, if_neg (by omega), hLm, hc]
    simp
  · have hq : L - m = (L - m - 1) + 1 := by omega
    have hfu : first_unknown_id (List.replicate m FieldState.Marked ++
        List.replicate (L - m) FieldState.Unknown) = m := by
      rw [hq, List.replicate_succ]
      unfold first_unknown_id
      rw [firstUnknownFrom_marked]
      omega
    have hvid : value_id (List.replicate m FieldState.Marked ++
        List.replicate (L - m) FieldState.Unknown) m = 0 := by
      apply value_id_zero
      intro i _
      rw [at_marked_unknown]
      split <;> decide
    have hsb : sideBeginFrom (List.replicate m FieldState.Marked ++
        List.replicate (L - m) FieldState.Unknown) m = 0 := by
      apply sideBeginFrom_zero
      intro i _
      rw [at_marked_unknown]
      split <;> decide
    have hprev : GridView.at_ (List.replicate m FieldState.Marked ++
        List.replicate (L - m) FieldState.Unknown) (m - 1) = FieldState.Marked := by
      rw [at_marked_unknown, if_pos (by omega)]
    have hrun := runAll_set_done (fun i => 0 + i) FieldState.Marked (by decide) (List.range c)
      (List.replicate m FieldState.Marked ++ List.replicate (L - m) FieldState.Unknown) (by
        intro i hi
        have hi2 : i < c := List.mem_range.mp hi
        beta_reduce
        rw [hlen, at_marked_unknown]
        refine ⟨by omega, ?_⟩
        split
        · exact Or.inr rfl
        · exact Or.inl rfl)
    have hmemb : ∀ j, j ∈ List.map (fun i => 0 + i) (List.range c) ↔ j < c := by
      intro j
      simp only [List.mem_map, List.mem_range]
      constructor
      · rintro ⟨k, hk, rfl⟩; omega
      · intro h; exact ⟨j, h, by omega⟩
    rw [closeSideRule_active (c :: rest) _ m c hfu (by rw [hlen]; omega) (by omega) hprev
      (by rw [hvid]; rfl), hsb, hrun, andThen_done, paint_length, hlen]
    by_cases hc : c < L
    · rw [if_pos (by omega), if_pos hc]
      rw [set_done _ _ _ (by decide) (by rw [paint_length, hlen]; omega) (by
        left
        rw [at_paint, at_marked_unknown]
        simp only [hmemb, hlen]
        split_ifs <;> first | rfl | (exfalso; omega))]
      congr 1
      apply line_ext
      · simp [paint_length]; omega
      · intro j hj
        simp only [List.length_set, paint_length, hlen] at hj
        rw [at_set, at_paint, at_marked_unknown, at_marked_empty_unknown, paint_length, hlen]
        simp only [hmemb]
        split_ifs <;> first | rfl | (exfalso; omega)
    · have hcL2 : c = L := by omega
      rw [if_neg (by omega), if_neg hc]
      congr 1
      apply line_ext
      · simp [paint_length]; omega
      · intro j hj
        rw [paint_length, hlen] at hj
        rw [at_paint, List.append_nil, at_replicate _ _ _ (by omega), hlen]
        simp only [hmemb]
        rw [if_pos ⟨by omega, hj⟩]

/-- Witness for C3: the line `M M ? ? ?` with clues `[2, 1]` becomes
`M M E ? ?`. -/
theorem closeSideRule_open_run_at_start_witness :
    CloseSideRule [2, 1]
        [FieldState.Marked, FieldState.Marked, FieldState.Unknown, FieldState.Unknown,
          FieldState.Unknown] =
      Outcome.done [FieldState.Marked, FieldState.Marked, FieldState.Empty, FieldState.Unknown,
        FieldState.Unknown] :=
  closeSideRule_open_run_at_start 2 5 2 [1] (by decide) (by decide) (by decide)

/-! ## C5, C6: `Puzzle::Validate` -/

theorem u32_eq : u32 = 4294967296 := rfl

theorem u32_eq_pow : u32 = 2 ^ 32 := by decide

theorem u64_eq_pow : u64 = 2 ^ 64 := by decide

theorem foldl_add_mod (values : List Nat) (acc : Nat) :
    values.foldl (fun s v => (s + v) % u32) (acc % u32) = (acc + values.sum) % u32 := by
  induction values generalizing acc with
  | nil => simp
  | cons v rest ih =>
    rw [List.foldl_cons, List.sum_cons, ← Nat.mod_mod_of_dvd (acc % u32 + v) (dvd_refl u32),
      Nat.mod_mod_of_dvd _ (dvd_refl u32), ih]
    rw [u32_eq]
    omega

/-- What `values_valid` computes: the sum plus the count minus one, modulo
`2^32`. -/
theorem values_valid_eq_mod (values : List Nat) (grid_size : Nat) :
    Puzzle.values_valid values grid_size =
      decide ((values.sum + values.length + (u32 - 1)) % u32 ≤ grid_size) := by
  have h := foldl_add_mod values 0
  rw [Nat.zero_mod, Nat.zero_add] at h
  unfold Puzzle.values_valid
  show decide ((List.foldl (fun s v => (s + v) % u32) 0 values +
    subWrap u32 (values.length % u32) 1) % u32 ≤ grid_size) = _
  rw [h, decide_eq_decide, subWrap, u32_eq]
  split <;> omega

/-- Inside 32-bit arithmetic `values_valid` is the capacity invariant. -/
theorem values_valid_eq_fits (values : List Nat) (grid_size : Nat) (hne : values ≠ [])
    (hb : values.sum + (values.length - 1) < u32) :
    Puzzle.values_valid values grid_size = fits values grid_size := by
  have hlen : 1 ≤ values.length := by
    cases values with
    | nil => exact absurd rfl hne
    | cons v rest => simp
  rw [values_valid_eq_mod, fits, decide_eq_decide]
  rw [u32_eq] at hb ⊢
  omega

theorem join_nil : String.join [] = "" := rfl

theorem join_cons (a : String) (l : List String) : String.join (a :: l) = a ++ String.join l := by
  apply String.ext
  simp [String.join_eq]

theorem join_append (l1 l2 : List String) :
    String.join (l1 ++ l2) = String.join l1 ++ String.join l2 := by
  apply String.ext
  simp [String.join_eq]

theorem join_eq_empty (l : List String) (h : ∀ s ∈ l, s ≠ "") : String.join l = "" ↔ l = [] := by
  cases l with
  | nil => simp [String.join]
  | cons a rest =>
    simp only [reduceCtorEq, iff_false]
    intro hj
    rw [join_cons, String.ext_iff, String.data_append] at hj
    have ha : a.data = [] := (List.append_eq_nil.mp hj).1
    exact h a (List.mem_cons_self a rest) (String.ext ha)

theorem entry_ne_empty (label : String) (n : Nat) :
    label ++ toString n ++ " is invalid" ++ "\n" ≠ "" := by
  intro h
  rw [String.ext_iff, String.data_append] at h
  have := (List.append_eq_nil.mp h).2
  exact absurd this (by decide)

theorem entriesOf_ne_empty (label : String) (bad : List Nat → Bool) (lines : List (List Nat))
    (i : Nat) : ∀ s ∈ entriesOf label bad lines i, s ≠ "" := by
  intro s hs
  simp only [entriesOf, List.mem_map] at hs
  obtain ⟨ic, _, rfl⟩ := hs
  exact entry_ne_empty label (ic.1 + 1)

theorem entriesOf_nil (label : String) (bad : List Nat → Bool) (i : Nat) :
    entriesOf label bad [] i = [] := rfl

theorem entriesOf_cons (label : String) (bad : List Nat → Bool) (values : List Nat)
    (rest : List (List Nat)) (i : Nat) :
    entriesOf label bad (values :: rest) i =
      (if bad values then [label ++ toString (i + 1) ++ " is invalid" ++ "\n"] else []) ++
        entriesOf label bad rest (i + 1) := by
  simp only [entriesOf, List.enumFrom_cons, List.filter_cons]
  split <;> simp

/-- One loop of `Validate`: the flag stays `true` exactly when every line
passes `values_valid`, and the text grows by one entry per failing line. -/
theorem validateLines_eq (label : String) (grid_size : Nat) (lines : List (List Nat)) (i : Nat)
    (st : Bool × String) :
    Puzzle.validateLines label grid_size lines i st =
      (st.1 && lines.all (fun values => Puzzle.values_valid values grid_size),
        st.2 ++ String.join
          (entriesOf label (fun values => !Puzzle.values_valid values grid_size) lines i)) := by
  induction lines generalizing i st with
  | nil =>
    rw [Puzzle.validateLines, entriesOf_nil, join_nil, String.append_empty, List.all_nil,
      Bool.and_true]
  | cons values rest ih =>
    rw [Puzzle.validateLines, ih, entriesOf_cons, List.all_cons]
    cases hv : Puzzle.values_valid values grid_size
    · rw [Bool.not_false, if_pos rfl, if_pos rfl, Bool.false_and,
        Bool.and_false, join_append, join_cons, join_nil, String.append_empty]
      show (false, st.2 ++ label ++ toString (i + 1) ++ " is invalid" ++ "\n" ++ _) = _
      simp only [String.append_assoc]
    · rw [Bool.not_true, if_neg (by decide), if_neg (by decide), List.nil_append, Bool.true_and]

theorem entriesOf_congr (label : String) (bad1 bad2 : List Nat → Bool) (lines : List (List Nat))
    (i : Nat) (h : ∀ values ∈ lines, bad1 values = bad2 values) :
    entriesOf label bad1 lines i = entriesOf label bad2 lines i := by
  induction lines generalizing i with
  | nil => rfl
  | cons values rest ih =>
    rw [entriesOf_cons, entriesOf_cons, h values (List.mem_cons_self values rest),
      ih (i + 1) (fun v hv => h v (List.mem_cons_of_mem values hv))]

/-- The two results of `Validate` in closed form. -/
theorem validate_eq (p : Puzzle) :
    Puzzle.Validate p =
      ((p.m_rows.all (fun values => Puzzle.values_valid values (p.m_columns.length % u32)) &&
          p.m_columns.all (fun values => Puzzle.values_valid values (p.m_rows.length % u32))),
        String.join
          (entriesOf "Row "
              (fun values => !Puzzle.values_valid values (p.m_columns.length % u32)) p.m_rows 0 ++
            entriesOf "Column "
              (fun values => !Puzzle.values_valid values (p.m_rows.length % u32))
              p.m_columns 0)) := by
  unfold Puzzle.Validate
  dsimp only
  rw [validateLines_eq, validateLines_eq]
  simp [join_append]

/-- C5 (as amended): for every puzzle inside 32-bit arithmetic (fewer than
`2^32` rows and columns, every clue sequence non-empty with
`sum + (count - 1) < 2^32`), `Validate` returns `true` if and only if every row
satisfies `sum(clues) + (count(clues) - 1) <= column count` and every column
satisfies `sum(clues) + (count(clues) - 1) <= row count`; and a line with clues
`[0]` passes the check for every line length. -/
theorem validate_true_iff_capacity (p : Puzzle) (h : InRange32 p) :
    ((Puzzle.Validate p).1 = true ↔
        (∀ clues ∈ p.m_rows, fits clues p.m_columns.length = true) ∧
          (∀ clues ∈ p.m_columns, fits clues p.m_rows.length = true)) ∧
      (∀ n, Puzzle.values_valid [0] n = true) := by
  obtain ⟨hr, hc, hall⟩ := h
  refine ⟨?_, fun n => by rw [values_valid_eq_mod, decide_eq_true_eq]; exact Nat.zero_le n⟩
  rw [validate_eq]
  simp only [Bool.and_eq_true, List.all_eq_true, Nat.mod_eq_of_lt hr, Nat.mod_eq_of_lt hc]
  constructor
  · rintro ⟨h1, h2⟩
    refine ⟨fun clues hm => ?_, fun clues hm => ?_⟩
    · have := hall clues (List.mem_append_left _ hm)
      rw [← values_valid_eq_fits clues _ this.1 this.2]
      exact h1 clues hm
    · have := hall clues (List.mem_append_right _ hm)
      rw [← values_valid_eq_fits clues _ this.1 this.2]
      exact h2 clues hm
  · rintro ⟨h1, h2⟩
    refine ⟨fun clues hm => ?_, fun clues hm => ?_⟩
    · have := hall clues (List.mem_append_left _ hm)
      rw [values_valid_eq_fits clues _ this.1 this.2]
      exact h1 clues hm
    · have := hall clues (List.mem_append_right _ hm)
      rw [values_valid_eq_fits clues _ this.1 this.2]
      exact h2 clues hm

theorem inRange32_tooLongRowPuzzle : InRange32 tooLongRowPuzzle := by
  refine ⟨by decide, by decide, ?_⟩
  intro clues hm
  simp only [tooLongRowPuzzle, List.cons_append, List.nil_append, List.mem_cons,
    List.mem_singleton, List.not_mem_nil, or_false] at hm
  rcases hm with rfl | rfl | rfl | rfl | rfl | rfl | rfl <;> decide

/-- Witness for C5: the row clue `[6]` in a grid with 5 columns does not fit,
and `Validate` returns `false`. -/
theorem validate_true_iff_capacity_witness :
    fits [6] 5 = false ∧ (Puzzle.Validate tooLongRowPuzzle).1 = false := by
  refine ⟨by decide, ?_⟩
  have h := (validate_true_iff_capacity tooLongRowPuzzle inRange32_tooLongRowPuzzle).1
  cases hv : (Puzzle.Validate tooLongRowPuzzle).1
  · rfl
  · have h2 := (h.mp hv).1 [6] (by simp [tooLongRowPuzzle])
    exact absurd h2 (by decide)

/-- Counterexample to C5 as stated: the row clues `[2147483647, 2147483647, 1]`
are non-empty, non-negative and sum to `2^32 - 1 < 2^32`; with their two
separators they need `2^32 + 1` cells and do not fit the single column, yet
`Validate` returns `true`, since the 32-bit sum wraps to `1`. -/
theorem validate_accepts_wrapped_sum :
    (∀ clues ∈ wrappedSumPuzzle.m_rows ++ wrappedSumPuzzle.m_columns,
        clues ≠ [] ∧ clues.sum < 2 ^ 32) ∧
      fits [2147483647, 2147483647, 1] wrappedSumPuzzle.m_columns.length = false ∧
      (Puzzle.Validate wrappedSumPuzzle).1 = true := by
  refine ⟨?_, by decide, by decide⟩
  intro clues hm
  simp only [wrappedSumPuzzle, List.cons_append, List.nil_append, List.mem_cons,
    List.not_mem_nil, or_false] at hm
  rcases hm with rfl | rfl <;> decide

/-- C6 (as amended): for every puzzle inside 32-bit arithmetic the issues text
of `Validate` is exactly the text of the specification: one entry
`Row <i+1> is invalid` per row that violates the capacity invariant, in
increasing `i`, then one entry `Column <j+1> is invalid` per violating column,
in increasing `j`, and nothing else; and for every puzzle the text is empty if
and only if `Validate` returns `true`. -/
theorem validate_issues_spec (p : Puzzle) :
    (InRange32 p → (Puzzle.Validate p).2 = expectedIssues p) ∧
      ((Puzzle.Validate p).2 = "" ↔ (Puzzle.Validate p).1 = true) := by
  constructor
  · rintro ⟨hr, hc, hall⟩
    rw [validate_eq, expectedIssues]
    simp only [Nat.mod_eq_of_lt hr, Nat.mod_eq_of_lt hc]
    rw [entriesOf_congr "Row " _ (fun clues => !fits clues p.m_columns.length) p.m_rows 0,
      entriesOf_congr "Column " _ (fun clues => !fits clues p.m_rows.length) p.m_columns 0]
    · intro clues hm
      have := hall clues (List.mem_append_right _ hm)
      rw [values_valid_eq_fits clues _ this.1 this.2]
    · intro clues hm
      have := hall clues (List.mem_append_left _ hm)
      rw [values_valid_eq_fits clues _ this.1 this.2]
  · rw [validate_eq]
    dsimp only
    rw [join_eq_empty _ (by
      intro s hs
      rcases List.mem_append.mp hs with h | h
      · exact entriesOf_ne_empty _ _ _ _ s h
      · exact entriesOf_ne_empty _ _ _ _ s h)]
    simp only [List.append_eq_nil, Bool.and_eq_true, List.all_eq_true]
    simp only [entriesOf, List.map_eq_nil_iff, List.filter_eq_nil_iff]
    constructor
    · rintro ⟨h1, h2⟩
      refine ⟨fun clues hm => ?_, fun clues hm => ?_⟩
      · obtain ⟨k, hk⟩ := List.mem_iff_get.mp hm
        have := h1 (k.1 + 0, clues) (by
          rw [List.mk_mem_enumFrom_iff_le_and_getElem?_sub]
          simp [← hk])
        simpa using this
      · obtain ⟨k, hk⟩ := List.mem_iff_get.mp hm
        have := h2 (k.1 + 0, clues) (by
          rw [List.mk_mem_enumFrom_iff_le_and_getElem?_sub]
          simp [← hk])
        simpa using this
    · rintro ⟨h1, h2⟩
      refine ⟨fun ic hm => ?_, fun ic hm => ?_⟩
      · have := h1 ic.2 (by
          obtain ⟨a, b⟩ := ic
          exact List.snd_mem_of_mem_enumFrom hm)
        simp [this]
      · have := h2 ic.2 (by
          obtain ⟨a, b⟩ := ic
          exact List.snd_mem_of_mem_enumFrom hm)
        simp [this]

/-- Witness for C6: for the puzzle with row clue `[6]` on 5 columns the issues
text is `Row 1 is invalid`, the text of the specification. -/
theorem validate_issues_spec_witness :
    (Puzzle.Validate tooLongRowPuzzle).2 = expectedIssues tooLongRowPuzzle ∧
      expectedIssues tooLongRowPuzzle = "Row 1 is invalid\n" :=
  ⟨(validate_issues_spec tooLongRowPuzzle).1 inRange32_tooLongRowPuzzle, by decide⟩

/-- Counterexample to C6 as stated: a row with an empty clue sequence does not
violate the capacity invariant (`0 + (0 - 1) <= 1`), so the text of the
specification is empty, but `Validate` writes `Row 1 is invalid`. -/
theorem validate_reports_empty_clue_row :
    fits [] emptyCluePuzzle.m_columns.length = true ∧
      expectedIssues emptyCluePuzzle = "" ∧
      (Puzzle.Validate emptyCluePuzzle).2 = "Row 1 is invalid\n" := by
  decide

/-! ## C7: the order of the passes in one turn of the `Solve` loop -/

theorem sameClues_refl (p : Puzzle) : SameClues p p := ⟨rfl, rfl⟩

theorem sameClues_trans (a b c : Puzzle) (h1 : SameClues a b) (h2 : SameClues b c) :
    SameClues a c := ⟨h2.1.trans h1.1, h2.2.trans h1.2⟩

theorem map_state {σ τ : Type} (f : σ → τ) (o : Outcome σ) : (o.map f).state = f o.state := by
  cases o <;> rfl

theorem ruleOnRow_sameClues (rule : List Nat → Line → Outcome Line) (i : Nat) (p : Puzzle) :
    SameClues p (ruleOnRow rule i p).state := by
  rw [ruleOnRow, map_state]
  exact ⟨rfl, rfl⟩

theorem ruleOnColumn_sameClues (rule : List Nat → Line → Outcome Line) (i : Nat) (p : Puzzle) :
    SameClues p (ruleOnColumn rule i p).state := by
  rw [ruleOnColumn, map_state]
  exact ⟨rfl, rfl⟩

/-- When the second piece of code is only ever entered in states related to
the start, it may be replaced by any code that agrees with it there. -/
theorem andThen_congr_rel {σ : Type} (R : σ → σ → Prop) (o : Outcome σ) (f g : σ → Outcome σ)
    (s : σ) (ho : R s o.state) (h : ∀ t, R s t → f t = g t) : o.andThen f = o.andThen g := by
  cases o with
  | done t => exact h t ho
  | fault t => rfl
  | undefined t => rfl

/-- One pass of a rule, for the row and column counts of `p`, started in `q`. -/
theorem runAll_passSteps (rule : List Nat → Line → Outcome Line) (p q : Puzzle) :
    runAll (fun step r => step r) (passSteps rule p) q =
      (runAll (ruleOnRow rule) (List.range p.m_rows.length) q).andThen
        (runAll (ruleOnColumn rule) (List.range p.m_columns.length)) := by
  rw [passSteps, runAll_append, runAll_map]
  congr 1
  funext r
  rw [runAll_map]

theorem apply_rule_eq_passSteps (rule : List Nat → Line → Outcome Line) (p q : Puzzle)
    (h : SameClues p q) : apply_rule rule q = runAll (fun step r => step r) (passSteps rule p) q := by
  rw [runAll_passSteps, apply_rule, h.1]
  apply andThen_congr_rel SameClues _ _ _ q
  · exact runAll_state_rel SameClues sameClues_refl sameClues_trans _
      (ruleOnRow_sameClues rule) _ q
  · intro t ht
    rw [ht.2, h.2]

theorem apply_rule_sameClues (rule : List Nat → Line → Outcome Line) (p : Puzzle) :
    SameClues p (apply_rule rule p).state := by
  rw [apply_rule]
  apply andThen_state_rel SameClues sameClues_trans
  · exact runAll_state_rel SameClues sameClues_refl sameClues_trans _
      (ruleOnRow_sameClues rule) _ p
  · intro t
    exact runAll_state_rel SameClues sameClues_refl sameClues_trans _
      (ruleOnColumn_sameClues rule) _ t

theorem iteration_sameClues (p : Puzzle) : SameClues p (iteration p).state := by
  rw [iteration]
  apply andThen_state_rel SameClues sameClues_trans
  · apply andThen_state_rel SameClues sameClues_trans
    · exact apply_rule_sameClues MarkerRule p
    · exact apply_rule_sameClues ZeroValueRule
  · exact apply_rule_sameClues CloseSideRule

/-- C7 (as amended): one turn of the `Solve` loop transforms the grid exactly as
the sequence of line applications: `MarkerRule` on rows `0..R-1` then columns
`0..C-1`, then `ZeroValueRule` on all rows then all columns, then
`CloseSideRule` on all rows then all columns (Marker pass first, Zero-Value
pass second, Close-Side pass third). -/
theorem iteration_eq_marker_zero_close (p : Puzzle) :
    iteration p = passSequence [MarkerRule, ZeroValueRule, CloseSideRule] p := by
  rw [passSequence]
  simp only [List.map_cons, List.map_nil, List.flatten_cons, List.flatten_nil, List.append_nil]
  have h2 : runAll (fun step q => step q)
      (passSteps ZeroValueRule p ++ passSteps CloseSideRule p) =
      fun s => (runAll (fun step q => step q) (passSteps ZeroValueRule p) s).andThen
        (runAll (fun step q => step q) (passSteps CloseSideRule p)) :=
    funext (fun s => runAll_append _ _ _ s)
  rw [runAll_append, h2, ← andThen_assoc, iteration,
    ← apply_rule_eq_passSteps MarkerRule p p (sameClues_refl p)]
  have h1 : ((apply_rule MarkerRule p).andThen (apply_rule ZeroValueRule)) =
      ((apply_rule MarkerRule p).andThen
        (runAll (fun step r => step r) (passSteps ZeroValueRule p))) := by
    apply andThen_congr_rel SameClues _ _ _ p (apply_rule_sameClues MarkerRule p)
    intro t ht
    exact apply_rule_eq_passSteps ZeroValueRule p t ht
  rw [← h1]
  apply andThen_congr_rel SameClues _ _ _ p
  · apply andThen_state_rel SameClues sameClues_trans
    · exact apply_rule_sameClues MarkerRule p
    · exact apply_rule_sameClues ZeroValueRule
  · intro t ht
    exact apply_rule_eq_passSteps CloseSideRule p t ht

/-- Counterexample to C7 as stated: with row clues `[[0],[1]]`, column clues
`[[1]]` and an all-`Unknown` 2x1 grid, one turn of the loop yields the grid
`E / ?`, while the Zero-Value pass first, the Marker pass second and the
Close-Side pass third yield `E / M`. -/
theorem iteration_differs_from_spec_order :
    iteration orderPuzzle =
        Outcome.done { orderPuzzle with m_grid := [[FieldState.Empty], [FieldState.Unknown]] } ∧
      specIteration orderPuzzle =
        Outcome.done { orderPuzzle with m_grid := [[FieldState.Empty], [FieldState.Marked]] } ∧
      iteration orderPuzzle ≠ specIteration orderPuzzle := by
  decide

/-! ## C8: determined cells are kept -/

theorem cellKept_refl (x : FieldState) : CellKept x x := fun _ => rfl

theorem cellKept_trans (x y z : FieldState) (h1 : CellKept x y) (h2 : CellKept y z) :
    CellKept x z := by
  intro hx
  have hy : y = x := h1 hx
  have hz : z = y := h2 (by rw [hy]; exact hx)
  rw [hz, hy]

theorem narrows_refl (a : Line) : Narrows a a := by
  induction a with
  | nil => exact List.Forall₂.nil
  | cons x a ih => exact List.Forall₂.cons (cellKept_refl x) ih

theorem narrows_trans (a b c : Line) (h1 : Narrows a b) (h2 : Narrows b c) : Narrows a c := by
  induction h1 generalizing c with
  | nil =>
    cases h2
    exact List.Forall₂.nil
  | cons hxy _ ih =>
    cases h2 with
    | cons hyz h2 => exact List.Forall₂.cons (cellKept_trans _ _ _ hxy hyz) (ih _ h2)

theorem narrows_length (a b : Line) (h : Narrows a b) : b.length = a.length := by
  induction h with
  | nil => rfl
  | cons _ _ ih => simp [ih]

theorem narrows_at (a b : Line) (h : Narrows a b) (i : Nat)
    (hi : GridView.at_ a i ≠ FieldState.Unknown) : GridView.at_ b i = GridView.at_ a i := by
  induction h generalizing i with
  | nil => exact absurd (at_nil i) hi
  | cons hxy _ ih =>
    cases i with
    | zero => exact hxy hi
    | succ i => exact ih i hi

theorem narrows_listSet (l : Line) (i : Nat) (s : FieldState)
    (h : GridView.at_ l i = FieldState.Unknown ∨ GridView.at_ l i = s) :
    Narrows l (List.set l i s) := by
  induction l generalizing i with
  | nil => exact List.Forall₂.nil
  | cons c l ih =>
    cases i with
    | zero =>
      refine List.Forall₂.cons ?_ (narrows_refl l)
      intro hc
      rcases h with h | h
      · exact absurd h hc
      · exact h.symm
    | succ i => exact List.Forall₂.cons (cellKept_refl c) (ih i h)

/-- Whatever `GridView::set` does, it keeps the determined cells. -/
theorem set_narrows (l : Line) (i : Nat) (s : FieldState) :
    Narrows l (GridView.set l i s).state := by
  unfold GridView.set
  split
  · exact narrows_refl l
  · split
    · split
      · rename_i h
        exact narrows_listSet l i s h
      · exact narrows_refl l
    · exact narrows_refl l

theorem zeroValueRule_narrows (values : List Nat) (l : Line) :
    Narrows l (ZeroValueRule values l).state := by
  unfold ZeroValueRule
  dsimp only
  split
  · exact narrows_refl l
  · exact runAll_state_rel Narrows narrows_refl narrows_trans _
      (fun i v => set_narrows v i FieldState.Empty) _ l

theorem closeSideRule_narrows (values : List Nat) (l : Line) :
    Narrows l (CloseSideRule values l).state := by
  unfold CloseSideRule
  dsimp only
  split
  · exact narrows_refl l
  · split
    · exact narrows_refl l
    · split
      · exact narrows_refl l
      · split
        · exact narrows_refl l
        · apply andThen_state_rel Narrows narrows_trans
          · exact runAll_state_rel Narrows narrows_refl narrows_trans _
              (fun i v => set_narrows v _ FieldState.Marked) _ l
          · intro t
            split
            · exact set_narrows t _ FieldState.Empty
            · exact narrows_refl t

theorem markSection_narrows (values : List Nat) (grid_size : Nat) (sr : SectionRange) (l : Line) :
    Narrows l (markSection values grid_size sr l).state := by
  unfold markSection
  dsimp only
  split
  · exact narrows_refl l
  · apply runAll_state_rel Narrows narrows_refl narrows_trans
    intro i v
    exact runAll_state_rel Narrows narrows_refl narrows_trans _
      (fun j w => set_narrows w _ FieldState.Marked) _ v

theorem markerRule_narrows (values : List Nat) (l : Line) :
    Narrows l (MarkerRule values l).state := by
  unfold MarkerRule
  exact runAll_state_rel Narrows narrows_refl narrows_trans _
    (fun sr v => markSection_narrows values _ sr v) _ l

theorem gridNarrows_refl (g : List (List FieldState)) : GridNarrows g g := by
  induction g with
  | nil => exact List.Forall₂.nil
  | cons x g ih => exact List.Forall₂.cons (narrows_refl x) ih

theorem gridNarrows_trans (a b c : List (List FieldState)) (h1 : GridNarrows a b)
    (h2 : GridNarrows b c) : GridNarrows a c := by
  induction h1 generalizing c with
  | nil =>
    cases h2
    exact List.Forall₂.nil
  | cons hxy _ ih =>
    cases h2 with
    | cons hyz h2 => exact List.Forall₂.cons (narrows_trans _ _ _ hxy hyz) (ih _ h2)

theorem gridNarrows_cell (g h : List (List FieldState)) (hn : GridNarrows g h) (r c : Nat)
    (hc : cell g r c ≠ FieldState.Unknown) : cell h r c = cell g r c := by
  induction hn generalizing r with
  | nil => exact absurd (at_nil c) hc
  | cons hxy _ ih =>
    cases r with
    | zero => exact narrows_at _ _ hxy c hc
    | succ r => exact ih r hc

theorem putRow_narrows (g : List (List FieldState)) (r : Nat) (l : Line)
    (h : Narrows (Puzzle.GetRowView g r) l) : GridNarrows g (Puzzle.putRow g r l) := by
  induction g generalizing r with
  | nil => exact List.Forall₂.nil
  | cons row g ih =>
    cases r with
    | zero => exact List.Forall₂.cons h (gridNarrows_refl g)
    | succ r => exact List.Forall₂.cons (narrows_refl row) (ih r h)

theorem putColumn_narrows (g : List (List FieldState)) (c : Nat) (l : Line)
    (h : Narrows (Puzzle.GetColumnView g c) l) : GridNarrows g (Puzzle.putColumn g c l) := by
  induction g generalizing l with
  | nil => exact List.Forall₂.nil
  | cons row g ih =>
    cases h with
    | cons hxy h =>
      rename_i y ys
      refine List.Forall₂.cons ?_ (ih ys h)
      apply narrows_listSet
      by_cases hu : GridView.at_ row c = FieldState.Unknown
      · exact Or.inl hu
      · exact Or.inr (hxy hu).symm

theorem puzzleNarrows_refl (p : Puzzle) : PuzzleNarrows p p :=
  ⟨sameClues_refl p, gridNarrows_refl p.m_grid⟩

theorem puzzleNarrows_trans (a b c : Puzzle) (h1 : PuzzleNarrows a b) (h2 : PuzzleNarrows b c) :
    PuzzleNarrows a c :=
  ⟨sameClues_trans _ _ _ h1.1 h2.1, gridNarrows_trans _ _ _ h1.2 h2.2⟩

theorem ruleOnRow_narrows (rule : List Nat → Line → Outcome Line)
    (hrule : ∀ values l, Narrows l (rule values l).state) (i : Nat) (p : Puzzle) :
    PuzzleNarrows p (ruleOnRow rule i p).state := by
  rw [ruleOnRow, map_state]
  exact ⟨⟨rfl, rfl⟩, putRow_narrows _ _ _ (hrule _ _)⟩

theorem ruleOnColumn_narrows (rule : List Nat → Line → Outcome Line)
    (hrule : ∀ values l, Narrows l (rule values l).state) (i : Nat) (p : Puzzle) :
    PuzzleNarrows p (ruleOnColumn rule i p).state := by
  rw [ruleOnColumn, map_state]
  exact ⟨⟨rfl, rfl⟩, putColumn_narrows _ _ _ (hrule _ _)⟩

theorem apply_rule_narrows (rule : List Nat → Line → Outcome Line)
    (hrule : ∀ values l, Narrows l (rule values l).state) (p : Puzzle) :
    PuzzleNarrows p (apply_rule rule p).state := by
  rw [apply_rule]
  apply andThen_state_rel PuzzleNarrows puzzleNarrows_trans
  · exact runAll_state_rel PuzzleNarrows puzzleNarrows_refl puzzleNarrows_trans _
      (ruleOnRow_narrows rule hrule) _ p
  · intro t
    exact runAll_state_rel PuzzleNarrows puzzleNarrows_refl puzzleNarrows_trans _
      (ruleOnColumn_narrows rule hrule) _ t

theorem iteration_narrows (p : Puzzle) : PuzzleNarrows p (iteration p).state := by
  rw [iteration]
  apply andThen_state_rel PuzzleNarrows puzzleNarrows_trans
  · apply andThen_state_rel PuzzleNarrows puzzleNarrows_trans
    · exact apply_rule_narrows MarkerRule markerRule_narrows p
    · exact apply_rule_narrows ZeroValueRule zeroValueRule_narrows
  · exact apply_rule_narrows CloseSideRule closeSideRule_narrows

theorem run_narrows (k : Nat) (p : Puzzle) : PuzzleNarrows p (run k p).state := by
  induction k with
  | zero => exact puzzleNarrows_refl p
  | succ k ih =>
    rw [run]
    exact andThen_state_rel PuzzleNarrows puzzleNarrows_trans _ _ p ih iteration_narrows

theorem solveLoop_narrows (fuel : Nat) (p q : Puzzle) (m n : Nat)
    (h : solveLoop fuel p m = SolveResult.converged q n ∨
      solveLoop fuel p m = SolveResult.aborted q n) : PuzzleNarrows p q := by
  induction fuel generalizing p m with
  | zero =>
    rw [solveLoop] at h
    rcases h with h | h <;> exact absurd h (by simp)
  | succ fuel ih =>
    have hit := iteration_narrows p
    rw [solveLoop] at h
    cases hi : iteration p with
    | fault t =>
      rw [hi] at h hit
      simp only [reduceCtorEq, SolveResult.aborted.injEq, false_or] at h
      rw [← h.1]
      exact hit
    | undefined t =>
      rw [hi] at h
      simp only [reduceCtorEq, or_self] at h
    | done t =>
      rw [hi] at h hit
      simp only at h
      split at h
      · simp only [SolveResult.converged.injEq, reduceCtorEq, or_false] at h
        rw [← h.1]
        exact hit
      · exact puzzleNarrows_trans _ _ _ hit (ih t (m + 1) h)

/-- C8: each of the three rules, applied to any line, keeps every cell that is
`Marked` or `Empty` (whether the rule returns or stops at a fault); so does
every application to a row or a column of a grid; hence after any number of
turns of the `Solve` loop, and at the end of `Solve`, every cell that was
determined before still has the same state: it is never changed and never
reverts to `Unknown`. -/
theorem determined_cells_are_kept :
    (∀ (values : List Nat) (l : Line) (i : Nat), GridView.at_ l i ≠ FieldState.Unknown →
        GridView.at_ (ZeroValueRule values l).state i = GridView.at_ l i ∧
        GridView.at_ (MarkerRule values l).state i = GridView.at_ l i ∧
        GridView.at_ (CloseSideRule values l).state i = GridView.at_ l i) ∧
      (∀ rule ∈ [ZeroValueRule, MarkerRule, CloseSideRule],
        ∀ (p : Puzzle) (k r c : Nat), cell p.m_grid r c ≠ FieldState.Unknown →
          cell (ruleOnRow rule k p).state.m_grid r c = cell p.m_grid r c ∧
          cell (ruleOnColumn rule k p).state.m_grid r c = cell p.m_grid r c) ∧
      (∀ (p : Puzzle) (k r c : Nat), cell p.m_grid r c ≠ FieldState.Unknown →
          cell (run k p).state.m_grid r c = cell p.m_grid r c) ∧
      (∀ (fuel : Nat) (p q : Puzzle) (n : Nat),
        (Solve fuel p = SolveResult.converged q n ∨ Solve fuel p = SolveResult.aborted q n) →
          ∀ r c, cell p.m_grid r c ≠ FieldState.Unknown → cell q.m_grid r c = cell p.m_grid r c) := by
  refine ⟨?_, ?_, ?_, ?_⟩
  · intro values l i hi
    exact ⟨narrows_at _ _ (zeroValueRule_narrows values l) i hi,
      narrows_at _ _ (markerRule_narrows values l) i hi,
      narrows_at _ _ (closeSideRule_narrows values l) i hi⟩
  · intro rule hrule p k r c hc
    have hr : ∀ values l, Narrows l (rule values l).state := by
      simp only [List.mem_cons, List.mem_singleton, List.not_mem_nil, or_false] at hrule
      rcases hrule with rfl | rfl | rfl
      · exact zeroValueRule_narrows
      · exact markerRule_narrows
      · exact closeSideRule_narrows
    exact ⟨gridNarrows_cell _ _ (ruleOnRow_narrows rule hr k p).2 r c hc,
      gridNarrows_cell _ _ (ruleOnColumn_narrows rule hr k p).2 r c hc⟩
  · intro p k r c hc
    exact gridNarrows_cell _ _ (run_narrows k p).2 r c hc
  · intro fuel p q n h r c hc
    exact gridNarrows_cell _ _ (solveLoop_narrows fuel p q 0 n h).2 r c hc

/-- Witness for C8: on the 3x3 puzzle with clues `[[3],[1,1],[3]]` both ways,
cell `(0, 1)` is `Marked` after one turn of the loop and is still `Marked`
after one more turn. -/
theorem determined_cells_are_kept_witness :
    cell (run 1 ringPuzzle).state.m_grid 0 1 = FieldState.Marked ∧
      cell (run 1 (run 1 ringPuzzle).state).state.m_grid 0 1 = FieldState.Marked := by
  have h1 : cell (run 1 ringPuzzle).state.m_grid 0 1 = FieldState.Marked := by decide
  refine ⟨h1, ?_⟩
  rw [determined_cells_are_kept.2.2.1 (run 1 ringPuzzle).state 1 0 1 (by rw [h1]; decide)]
  exact h1

/-! ## C9: `Solve` stops at the first turn that changes nothing -/

theorem run_succ_first (k : Nat) (p : Puzzle) :
    run (k + 1) p = (iteration p).andThen (run k) := by
  induction k with
  | zero =>
    rw [run, run, andThen_done]
    cases h : iteration p <;> rfl
  | succ k ih =>
    rw [run, ih, andThen_assoc]
    rfl

/-- An iteration that returns a puzzle with an equal grid returns the puzzle it
started from. -/
theorem iteration_fixed_of_grid_eq (p q : Puzzle) (h : iteration p = Outcome.done q)
    (hg : q.m_grid = p.m_grid) : q = p := by
  have hs := iteration_sameClues p
  rw [h] at hs
  cases p
  cases q
  simp only [Outcome.state, SameClues] at hs hg
  simp only [Puzzle.mk.injEq]
  exact ⟨hs.1, hs.2, hg⟩

/-- The loop of `Solve`, started with `m_iteration_count = m`, ends through
`break` with puzzle `q` and count `n` exactly when, for some `j < fuel` with
`n = m + j`: the first `j` turns each returned a changed grid, they lead to
`q`, and the next turn returns `q` itself. -/
theorem solveLoop_converged_iff (fuel : Nat) (p q : Puzzle) (m n : Nat) :
    solveLoop fuel p m = SolveResult.converged q n ↔
      ∃ j, n = m + j ∧ j < fuel ∧ run j p = Outcome.done q ∧ iteration q = Outcome.done q ∧
        ∀ k, k < j → ∃ a b, run k p = Outcome.done a ∧ iteration a = Outcome.done b ∧
          b.m_grid ≠ a.m_grid := by
  induction fuel generalizing p m n with
  | zero =>
    rw [solveLoop]
    constructor
    · intro h
      exact absurd h (by simp)
    · rintro ⟨j, _, hj, _⟩
      exact absurd hj (Nat.not_lt_zero j)
  | succ fuel ih =>
    rw [solveLoop]
    cases hi : iteration p with
    | fault t =>
      simp only [reduceCtorEq, false_iff]
      rintro ⟨j, _, _, hrun, hfix, hall⟩
      cases j with
      | zero =>
        rw [run] at hrun
        injection hrun with hrun
        rw [← hrun, hi] at hfix
        exact absurd hfix (by simp)
      | succ j =>
        obtain ⟨a, b, ha, hb, _⟩ := hall 0 (Nat.succ_pos j)
        rw [run] at ha
        injection ha with ha
        rw [← ha, hi] at hb
        exact absurd hb (by simp)
    | undefined t =>
      simp only [reduceCtorEq, false_iff]
      rintro ⟨j, _, _, hrun, hfix, hall⟩
      cases j with
      | zero =>
        rw [run] at hrun
        injection hrun with hrun
        rw [← hrun, hi] at hfix
        exact absurd hfix (by simp)
      | succ j =>
        obtain ⟨a, b, ha, hb, _⟩ := hall 0 (Nat.succ_pos j)
        rw [run] at ha
        injection ha with ha
        rw [← ha, hi] at hb
        exact absurd hb (by simp)
    | done t =>
      simp only
      by_cases hg : Puzzle.IsGridEqual t p = true
      · rw [if_pos hg]
        have hgrid : t.m_grid = p.m_grid := by simpa [Puzzle.IsGridEqual] using hg
        have htp : t = p := iteration_fixed_of_grid_eq p t hi hgrid
        constructor
        · intro h
          injection h with h1 h2
          refine ⟨0, by omega, Nat.succ_pos fuel, ?_, ?_, ?_⟩
          · rw [run, ← h1, htp]
          · rw [← h1, htp, ← htp]
            rw [htp] at hi ⊢
            exact hi
          · intro k hk
            exact absurd hk (Nat.not_lt_zero k)
        · rintro ⟨j, hn, _, hrun, _, hall⟩
          cases j with
          | zero =>
            rw [run] at hrun
            injection hrun with hrun
            rw [htp, hrun, hn]
            rfl
          | succ j =>
            obtain ⟨a, b, ha, hb, hne⟩ := hall 0 (Nat.succ_pos j)
            rw [run] at ha
            injection ha with ha
            rw [← ha, hi] at hb
            injection hb with hb
            rw [← ha, ← hb] at hne
            exact absurd hgrid hne
      · rw [if_neg hg]
        have hgrid : t.m_grid ≠ p.m_grid := by simpa [Puzzle.IsGridEqual] using hg
        rw [ih t (m + 1) n]
        constructor
        · rintro ⟨j, hn, hj, hrun, hfix, hall⟩
          refine ⟨j + 1, by omega, by omega, ?_, hfix, ?_⟩
          · rw [run_succ_first, hi]
            exact hrun
          · intro k hk
            cases k with
            | zero => exact ⟨p, t, rfl, hi, hgrid⟩
            | succ k =>
              obtain ⟨a, b, ha, hb, hne⟩ := hall k (by omega)
              refine ⟨a, b, ?_, hb, hne⟩
              rw [run_succ_first, hi]
              exact ha
        · rintro ⟨j, hn, hj, hrun, hfix, hall⟩
          cases j with
          | zero =>
            rw [run] at hrun
            injection hrun with hrun
            rw [← hrun, hi] at hfix
            injection hfix with hfix
            rw [hfix] at hgrid
            exact absurd rfl hgrid
          | succ j =>
            refine ⟨j, by omega, by omega, ?_, hfix, ?_⟩
            · rw [run_succ_first, hi] at hrun
              exact hrun
            · intro k hk
              obtain ⟨a, b, ha, hb, hne⟩ := hall (k + 1) (by omega)
              refine ⟨a, b, ?_, hb, hne⟩
              rw [run_succ_first, hi] at ha
              exact ha

/-- C9: `Solve` ends through `break` with puzzle `q` and iteration count `n`
exactly when `n` is below the number of turns allowed, each of the first `n`
turns returned a grid different from the one it started with (and the count
went up by one each time), these turns lead to `q`, and one more full turn
started from `q` returns `q` itself: `Solve` stops at the first turn that
leaves the grid as it was, and the grid it ends with is a fixed point of the
three rule passes. -/
theorem solve_converged_iff (fuel : Nat) (p q : Puzzle) (n : Nat) :
    Solve fuel p = SolveResult.converged q n ↔
      n < fuel ∧ run n p = Outcome.done q ∧ iteration q = Outcome.done q ∧
        ∀ k, k < n → ∃ a b, run k p = Outcome.done a ∧ iteration a = Outcome.done b ∧
          b.m_grid ≠ a.m_grid := by
  rw [Solve, solveLoop_converged_iff]
  constructor
  · rintro ⟨j, hn, hj, h⟩
    have : n = j := by omega
    subst this
    exact ⟨hj, h⟩
  · rintro ⟨hn, h⟩
    exact ⟨n, by omega, hn, h⟩

/-- Witness for C9: on the 3x3 puzzle with clues `[[3],[1,1],[3]]` both ways
`Solve` converges with iteration count `1`, and the puzzle it ends with is
returned unchanged by one more turn. -/
theorem solve_converged_iff_witness :
    ∃ q, Solve 5 ringPuzzle = SolveResult.converged q 1 ∧ iteration q = Outcome.done q := by
  have h : Solve 5 ringPuzzle = SolveResult.converged (run 1 ringPuzzle).state 1 := by decide
  exact ⟨_, h, ((solve_converged_iff 5 ringPuzzle _ 1).mp h).2.2.1⟩

/-! ## C10: the `Solve` loop is left after finitely many turns -/

theorem narrows_count (a b : Line) (h : Narrows a b) :
    b.count FieldState.Unknown ≤ a.count FieldState.Unknown ∧
      (b ≠ a → b.count FieldState.Unknown < a.count FieldState.Unknown) := by
  induction h with
  | nil => exact ⟨Nat.le_refl _, fun hne => absurd rfl hne⟩
  | cons hxy _ ih =>
    rename_i x y a b _
    by_cases hx : x = FieldState.Unknown
    · subst hx
      by_cases hy : y = FieldState.Unknown
      · subst hy
        simp only [List.count_cons_self]
        refine ⟨by omega, fun hne => ?_⟩
        have : b ≠ a := fun e => hne (by rw [e])
        have := ih.2 this
        omega
      · rw [List.count_cons_self, List.count_cons_of_ne (Ne.symm hy)]
        exact ⟨by omega, fun _ => by omega⟩
    · have hyx : y = x := hxy hx
      subst hyx
      rw [List.count_cons_of_ne (Ne.symm hx), List.count_cons_of_ne (Ne.symm hx)]
      refine ⟨ih.1, fun hne => ?_⟩
      have : b ≠ a := fun e => hne (by rw [e])
      exact ih.2 this

theorem gridNarrows_count (g h : List (List FieldState)) (hn : GridNarrows g h) :
    Puzzle.unknownCount h ≤ Puzzle.unknownCount g ∧
      (h ≠ g → Puzzle.unknownCount h < Puzzle.unknownCount g) := by
  induction hn with
  | nil => exact ⟨Nat.le_refl _, fun hne => absurd rfl hne⟩
  | cons hxy _ ih =>
    rename_i x y a b _
    have hc := narrows_count x y hxy
    simp only [Puzzle.unknownCount, List.map_cons, List.sum_cons] at ih ⊢
    refine ⟨by omega, fun hne => ?_⟩
    by_cases hyx : y = x
    · subst hyx
      have : b ≠ a := fun e => hne (by rw [e])
      have := ih.2 this
      omega
    · have := hc.2 hyx
      omega

/-- A turn of the loop that returns a changed grid has strictly fewer `Unknown`
cells afterwards. -/
theorem iteration_decreases (a b : Puzzle) (h : iteration a = Outcome.done b)
    (hne : b.m_grid ≠ a.m_grid) :
    Puzzle.unknownCount b.m_grid < Puzzle.unknownCount a.m_grid := by
  have hn := iteration_narrows a
  rw [h] at hn
  exact (gridNarrows_count _ _ hn.2).2 hne

theorem solveLoop_terminates (fuel : Nat) (p : Puzzle) (m : Nat)
    (hf : Puzzle.unknownCount p.m_grid < fuel) :
    ∃ q n, n ≤ m + Puzzle.unknownCount p.m_grid ∧
      (solveLoop fuel p m = SolveResult.converged q n ∨
        solveLoop fuel p m = SolveResult.aborted q n ∨
        solveLoop fuel p m = SolveResult.undefinedBehaviour q n) := by
  induction fuel generalizing p m with
  | zero => exact absurd hf (Nat.not_lt_zero _)
  | succ fuel ih =>
    rw [solveLoop]
    cases hi : iteration p with
    | fault t => exact ⟨t, m, by omega, Or.inr (Or.inl rfl)⟩
    | undefined t => exact ⟨t, m, by omega, Or.inr (Or.inr rfl)⟩
    | done t =>
      simp only
      by_cases hg : Puzzle.IsGridEqual t p = true
      · rw [if_pos hg]
        exact ⟨t, m, by omega, Or.inl rfl⟩
      · rw [if_neg hg]
        have hgrid : t.m_grid ≠ p.m_grid := by simpa [Puzzle.IsGridEqual] using hg
        have hdec := iteration_decreases p t hi hgrid
        obtain ⟨q, n, hn, h⟩ := ih t (m + 1) (by omega)
        exact ⟨q, n, by omega, h⟩

theorem unknownCount_unknownGrid (rows columns : Nat) :
    Puzzle.unknownCount (Puzzle.unknownGrid rows columns) = rows * columns := by
  simp [Puzzle.unknownCount, Puzzle.unknownGrid]

/-- C10 (as amended): for every puzzle accepted by `Validate`, starting from
the all-`Unknown` grid of `rows * columns` cells, within `rows * columns + 1`
turns of its loop `Solve` ends in one of three ways, with an iteration count
of at most `rows * columns`: it reaches a turn that leaves the grid unchanged
(`converged`), or an exception (`InvalidStateTransition`) leaves it
(`aborted`), or a rule reaches an access past the end of a vector, a read of
`values[value_id]` in `CloseSideRule` or a write outside a line, from where
the behaviour of the source is undefined and nothing is claimed
(`undefinedBehaviour`); and every turn that returns a changed grid strictly
decreases the number of `Unknown` cells. -/
theorem solve_terminates (p : Puzzle) (_hv : (Puzzle.Validate p).1 = true)
    (hg : p.m_grid = Puzzle.unknownGrid p.m_rows.length p.m_columns.length) (fuel : Nat)
    (hf : p.m_rows.length * p.m_columns.length < fuel) :
    (∃ q n, n ≤ p.m_rows.length * p.m_columns.length ∧
        (Solve fuel p = SolveResult.converged q n ∨ Solve fuel p = SolveResult.aborted q n ∨
          Solve fuel p = SolveResult.undefinedBehaviour q n)) ∧
      (∀ a b, iteration a = Outcome.done b → b.m_grid ≠ a.m_grid →
        Puzzle.unknownCount b.m_grid < Puzzle.unknownCount a.m_grid) := by
  refine ⟨?_, iteration_decreases⟩
  have hu : Puzzle.unknownCount p.m_grid = p.m_rows.length * p.m_columns.length := by
    rw [hg, unknownCount_unknownGrid]
  obtain ⟨q, n, hn, h⟩ := solveLoop_terminates fuel p 0 (by omega)
  exact ⟨q, n, by omega, h⟩

/-- Witness for C10: the 3x3 puzzle with clues `[[3],[1,1],[3]]` both ways is
accepted by `Validate`, starts with 9 `Unknown` cells, and `Solve` with 10
turns allowed ends with an iteration count of at most 9. -/
theorem solve_terminates_witness :
    (Puzzle.Validate ringPuzzle).1 = true ∧
      ∃ q n, n ≤ 9 ∧
        (Solve 10 ringPuzzle = SolveResult.converged q n ∨
          Solve 10 ringPuzzle = SolveResult.aborted q n ∨
          Solve 10 ringPuzzle = SolveResult.undefinedBehaviour q n) :=
  ⟨by decide, (solve_terminates ringPuzzle (by decide) (by decide) 10 (by decide)).1⟩

/-- Counterexample to C10 as stated: the 3x1 puzzle with row clues
`[[0],[0],[0]]` and column clue `[[2]]` is accepted by `Validate` and starts
all-`Unknown`, but `Solve` never reaches a turn that leaves the grid unchanged:
in the first turn `MarkerRule` marks cell `(1, 0)` from the column clue and
`ZeroValueRule` then writes `Empty` to it, which `GridView::set` refuses. -/
theorem solve_aborts_on_contradictory_puzzle :
    (Puzzle.Validate contradictoryPuzzle).1 = true ∧
      contradictoryPuzzle.m_grid = Puzzle.unknownGrid 3 1 ∧
      (∀ fuel, Solve (fuel + 1) contradictoryPuzzle =
        SolveResult.aborted
          { contradictoryPuzzle with
            m_grid := [[FieldState.Empty], [FieldState.Marked], [FieldState.Unknown]] } 0) ∧
      (∀ fuel q n, Solve fuel contradictoryPuzzle ≠ SolveResult.converged q n) := by
  have hit : iteration contradictoryPuzzle =
      Outcome.fault { contradictoryPuzzle with
        m_grid := [[FieldState.Empty], [FieldState.Marked], [FieldState.Unknown]] } := by
    decide
  have hs : ∀ fuel, Solve (fuel + 1) contradictoryPuzzle =
      SolveResult.aborted
        { contradictoryPuzzle with
          m_grid := [[FieldState.Empty], [FieldState.Marked], [FieldState.Unknown]] } 0 := by
    intro fuel
    rw [Solve, solveLoop, hit]
  refine ⟨by decide, by decide, hs, ?_⟩
  intro fuel q n
  cases fuel with
  | zero => simp [Solve, solveLoop]
  | succ fuel => rw [hs fuel]; simp

/-- The third way out of `Solve` occurs: `overreadPuzzle` is accepted by
`Validate` and starts all-`Unknown`; in the first turn the Marker and
Zero-Value passes leave the middle row as `M E M ?`, and `CloseSideRule` on
that row counts one closed run and reads `values[1]` of the one-element clue
vector `[1]`. -/
theorem solve_reads_past_clues :
    (Puzzle.Validate overreadPuzzle).1 = true ∧
      overreadPuzzle.m_grid = Puzzle.unknownGrid 3 4 ∧
      Puzzle.GetRowView
          ((apply_rule MarkerRule overreadPuzzle).andThen (apply_rule ZeroValueRule)).state.m_grid
          1 =
        [FieldState.Marked, FieldState.Empty, FieldState.Marked, FieldState.Unknown] ∧
      value_id [FieldState.Marked, FieldState.Empty, FieldState.Marked, FieldState.Unknown]
          3 = 1 ∧
      CloseSideRule [1]
          [FieldState.Marked, FieldState.Empty, FieldState.Marked, FieldState.Unknown] =
        Outcome.undefined
          [FieldState.Marked, FieldState.Empty, FieldState.Marked, FieldState.Unknown] ∧
      Solve 13 overreadPuzzle =
        SolveResult.undefinedBehaviour
          { overreadPuzzle with
            m_grid :=
              [[FieldState.Unknown, FieldState.Empty, FieldState.Unknown, FieldState.Unknown],
                [FieldState.Marked, FieldState.Empty, FieldState.Marked, FieldState.Unknown],
                [FieldState.Unknown, FieldState.Empty, FieldState.Unknown,
                  FieldState.Unknown]] } 0 := by
  refine ⟨by decide, by decide, by decide, by decide, by decide, ?_⟩
  decide

/-! ## `MarkerRule` on a line of `Unknown` cells

The overlap rule on a line without determined cells: outside the single clue
that fills the line, the cells written are exactly the overlap of the
specification. -/


theorem u64_eq : u64 = 18446744073709551616 := rfl

/-- Nested loops run the inner body over all pairs in order. -/
theorem runAll_nested {α β σ : Type} (g : β → σ → Outcome σ) (J : α → List β) (I : List α)
    (s : σ) :
    runAll (fun i v => runAll g (J i) v) I s = runAll g ((I.map J).flatten) s := by
  induction I generalizing s with
  | nil => rfl
  | cons i rest ih =>
    rw [runAll_cons, List.map_cons, List.flatten_cons, runAll_append]
    congr 1
    funext t
    exact ih t

/-- The section loop on a line without an `Empty` cell, before its last turn. -/
theorem sectionFold_unknown (L n : Nat) (h : n < L) :
    (List.range n).foldl (sectionStep (List.replicate L FieldState.Unknown)) (none, []) =
      (if n = 0 then none else some ⟨0, 0⟩, []) := by
  induction n with
  | zero => rfl
  | succ n ih =>
    rw [List.range_succ, List.foldl_append, ih (by omega)]
    simp only [List.foldl_cons, List.foldl_nil, sectionStep, GridView.size, List.length_replicate,
      at_replicate_unknown]
    by_cases hn : n = 0
    · subst hn
      simp
      omega
    · simp [hn]
      omega

/-- A line of `L >= 1` `Unknown` cells is one section, `[0, L)`. -/
theorem section_ranges_unknown (L : Nat) (h : 1 ≤ L) :
    section_ranges (List.replicate L FieldState.Unknown) = [⟨0, L⟩] := by
  obtain ⟨n, rfl⟩ : ∃ n, L = n + 1 := ⟨L - 1, by omega⟩
  rw [section_ranges, GridView.size, List.length_replicate, List.range_succ, List.foldl_append,
    sectionFold_unknown (n + 1) n (by omega)]
  simp only [List.foldl_cons, List.foldl_nil, sectionStep, GridView.size, List.length_replicate,
    at_replicate_unknown]
  by_cases hn : n = 0
  · subst hn
    simp
  · simp [hn]

theorem section_ranges_nil : section_ranges [] = [] := rfl

theorem scanStep_of_ne (v : Nat) (h : v ≠ 2147483647) : scanStep v = v + 1 := by
  unfold scanStep
  rw [if_neg h]

theorem scanStep_max : scanStep 2147483647 = 18446744071562067968 := rfl

theorem scanStep_bounds (v : Nat) (h : v + 1 < u64) : 0 < scanStep v ∧ scanStep v < u64 := by
  by_cases hv : v = 2147483647
  · subst hv
    rw [scanStep_max, u64_eq]
    omega
  · rw [scanStep_of_ne v hv]
    omega

theorem startScan_zero (values : List Nat) (h : ∀ v ∈ values, v + 1 < u64) :
    start_value_id values ⟨0, 0⟩ = 0 ∧ ∀ e, start_value_id values ⟨0, e⟩ = 0 := by
  have key : ∀ e, start_value_id values ⟨0, e⟩ = 0 := by
    intro e
    cases values with
    | nil => rfl
    | cons v rest =>
      have hv := scanStep_bounds v (h v (List.mem_cons_self v rest))
      rw [start_value_id, startScan]
      simp only [Nat.zero_add]
      rw [Nat.mod_eq_of_lt hv.2, if_pos hv.1]
  exact ⟨key 0, key⟩

theorem endScan_last (init : List Nat) (last L : Nat) (hl : last + 1 ≤ L) (hL : L < u64)
    (hne : last ≠ 2147483647) :
    end_value_id (init ++ [last]) L ⟨0, L⟩ = (init ++ [last]).length := by
  rw [end_value_id, List.reverse_append, List.reverse_singleton, List.singleton_append, endScan]
  simp only
  have hm : (last + 1) % u64 = last + 1 := Nat.mod_eq_of_lt (by omega)
  rw [scanStep_of_ne last hne, hm, subWrap, if_pos hl, if_pos (by omega)]
  simp

theorem endScan_full (L : Nat) (h1 : 1 ≤ L) (hL : L + 1 < u64) :
    end_value_id [L] L ⟨0, L⟩ = 0 := by
  by_cases hv : L = 2147483647
  · subst hv
    decide
  · have hm : (L + 1) % u64 = L + 1 := Nat.mod_eq_of_lt hL
    have h2 : ¬ (L + u64 - (L + 1) < L) := by
      rw [u64_eq] at hL ⊢
      omega
    have h3 : subWrap u64 L ((L + 1) % u64) = L + u64 - (L + 1) := by
      rw [hm, subWrap, if_neg (by omega)]
    simp only [end_value_id, List.reverse_singleton, endScan, scanStep_of_ne L hv, h3]
    rw [if_neg h2]


theorem padding_fold (vs : List Nat) (acc : Nat) :
    vs.foldl (fun a v => (a + (v + 1)) % u32) (acc % u32) = (acc + vs.sum + vs.length) % u32 := by
  induction vs generalizing acc with
  | nil => simp
  | cons v rest ih =>
    rw [List.foldl_cons, List.sum_cons, List.length_cons,
      ← Nat.mod_mod_of_dvd (acc % u32 + (v + 1)) (dvd_refl u32),
      Nat.mod_mod_of_dvd _ (dvd_refl u32), ih]
    rw [u32_eq]
    omega

/-- The `uint32_t` padding of a list of clues: their sum plus one gap each,
modulo `2^32`. -/
theorem padding_eq (vs : List Nat) : padding vs = (vs.sum + vs.length) % u32 := by
  have h := padding_fold vs 0
  rw [Nat.zero_mod, Nat.zero_add] at h
  exact h

theorem sum_drop_eq (values : List Nat) (i : Nat) (hi : i < values.length) :
    (values.drop i).sum = values.getD i 0 + (values.drop (i + 1)).sum := by
  rw [List.drop_eq_getElem_cons hi, List.sum_cons, List.getD_eq_getElem _ _ hi]

theorem sum_take_succ (values : List Nat) (i : Nat) (hi : i < values.length) :
    (values.take (i + 1)).sum = (values.take i).sum + values.getD i 0 := by
  rw [List.take_succ, List.sum_append, List.getD_eq_getElem _ _ hi, List.getElem?_eq_getElem hi]
  simp

/-- Without wrap-around `left_begin` is the start of the rightmost placement. -/
theorem left_begin_eq (values : List Nat) (L i : Nat) (hi : i < values.length)
    (hfit : values.sum + (values.length - 1) ≤ L) (hL : L < u32) :
    left_begin values L i = L - ((values.drop i).sum + (values.length - 1 - i)) := by
  have h1 := sum_drop_eq values i hi
  have h2 := List.sum_take_add_sum_drop values i
  have h3 : (values.drop (i + 1)).length = values.length - (i + 1) := List.length_drop _ _
  have h4 : (padding (values.drop (i + 1)) + values.getD i 0) % u32 =
      (values.drop i).sum + (values.length - 1 - i) := by
    rw [padding_eq, h3]
    rw [u32_eq] at hL ⊢
    omega
  rw [left_begin, h4, subWrap, if_pos (by omega)]

/-- Without wrap-around `right_end` is the end of the leftmost placement. -/
theorem right_end_eq (values : List Nat) (L i : Nat) (hi : i < values.length)
    (hfit : values.sum + (values.length - 1) ≤ L) (hL : L < u32) :
    right_end values i = (values.take (i + 1)).sum + i := by
  have h1 := sum_take_succ values i hi
  have h2 := List.sum_take_add_sum_drop values (i + 1)
  have h3 : (values.take i).length = i := by rw [List.length_take]; omega
  rw [right_end, padding_eq, h3]
  rw [u32_eq] at hL ⊢
  omega

theorem le_sum_of_mem_nat (l : List Nat) (x : Nat) (h : x ∈ l) : x ≤ l.sum := by
  induction l with
  | nil => simp at h
  | cons y l ih =>
    rw [List.sum_cons]
    rcases List.mem_cons.mp h with rfl | h
    · omega
    · have := ih h
      omega

/-- The cells `MarkerRule` writes on a line of `L` `Unknown` cells, listed run
by run. -/
theorem mem_unknown_targets (values : List Nat) (L j : Nat) :
    j ∈ (((List.range values.length).map (fun i =>
        List.range' (left_begin values L i)
          (right_end values i - left_begin values L i))).flatten).map (fun t => 0 + t) ↔
      ∃ i, i < values.length ∧ left_begin values L i ≤ j ∧ j < right_end values i := by
  simp only [List.mem_map, List.mem_flatten, List.mem_range]
  constructor
  · rintro ⟨t, ⟨_, ⟨i, hi, rfl⟩, ht⟩, rfl⟩
    rw [List.mem_range'_1] at ht
    exact ⟨i, hi, by omega, by omega⟩
  · rintro ⟨i, hi, h1, h2⟩
    exact ⟨j, ⟨_, ⟨i, hi, rfl⟩, by rw [List.mem_range'_1]; omega⟩, by omega⟩

/-- The loop body of `MarkerRule` on the single section of a line of `L`
`Unknown` cells, when the scans give all the clues to the section and nothing
wraps: every write succeeds. -/
theorem markSection_unknown (values : List Nat) (L : Nat)
    (hstart : start_value_id values ⟨0, L⟩ = 0)
    (hend : end_value_id values L ⟨0, L⟩ = values.length)
    (hfit : values.sum + (values.length - 1) ≤ L) (hL : L < u32) :
    markSection values L ⟨0, L⟩ (List.replicate L FieldState.Unknown) =
      Outcome.done (paint
        ((((List.range values.length).map (fun i =>
          List.range' (left_begin values L i)
            (right_end values i - left_begin values L i))).flatten).map (fun t => 0 + t))
        FieldState.Marked (List.replicate L FieldState.Unknown)) := by
  unfold markSection
  simp only [hstart, hend, Nat.not_lt_zero, if_false, List.drop_zero, Nat.sub_zero,
    List.take_length]
  rw [runAll_nested]
  apply runAll_set_done (fun t => 0 + t) FieldState.Marked (by decide)
  intro t ht
  simp only [List.mem_flatten, List.mem_map, List.mem_range] at ht
  obtain ⟨_, ⟨i, hi, rfl⟩, ht⟩ := ht
  rw [List.mem_range'_1] at ht
  have hre := right_end_eq values L i hi hfit hL
  have hs := List.sum_take_add_sum_drop values (i + 1)
  rw [List.length_replicate, at_replicate_unknown]
  exact ⟨by omega, Or.inl rfl⟩

theorem inOverlap_iff (values : List Nat) (L j : Nat)
    (hfit : values.sum + (values.length - 1) ≤ L) (hL : L < u32) :
    inOverlap values L j = true ↔
      ∃ i, i < values.length ∧ left_begin values L i ≤ j ∧ j < right_end values i := by
  simp only [inOverlap, List.any_eq_true, List.mem_range, Bool.and_eq_true, decide_eq_true_eq]
  constructor
  · rintro ⟨i, hi, h1, h2⟩
    refine ⟨i, hi, ?_, ?_⟩
    · rw [left_begin_eq values L i hi hfit hL]; exact h1
    · rw [right_end_eq values L i hi hfit hL]; exact h2
  · rintro ⟨i, hi, h1, h2⟩
    refine ⟨i, hi, ?_, ?_⟩
    · rw [left_begin_eq values L i hi hfit hL] at h1; exact h1
    · rw [right_end_eq values L i hi hfit hL] at h2; exact h2

/-- On a line of `L < 2^31 - 1` `Unknown` cells and clues with
`sum + (count - 1) <= L`, other than the single clue `[L]`, `MarkerRule`
returns the line in which exactly the cells of the overlap of some run are
`Marked` and all others are still `Unknown`. -/
theorem markerRule_unknown_line (clues : List Nat) (L : Nat)
    (hfit : clues.sum + (clues.length - 1) ≤ L) (hL31 : L < 2147483647)
    (hfull : clues ≠ [L]) :
    ∃ r, MarkerRule clues (List.replicate L FieldState.Unknown) = Outcome.done r ∧
      r.length = L ∧
      ∀ j, j < L → GridView.at_ r j =
        if inOverlap clues L j = true then FieldState.Marked else FieldState.Unknown := by
  by_cases h0 : L = 0
  · subst h0
    exact ⟨[], rfl, rfl, fun j hj => absurd hj (Nat.not_lt_zero j)⟩
  · have hL : L < u32 := by rw [u32_eq]; omega
    have hL64 : L < u64 := by rw [u32_eq] at hL; rw [u64_eq]; omega
    have hstart : start_value_id clues ⟨0, L⟩ = 0 := by
      apply (startScan_zero clues _).2
      intro v hv
      have := le_sum_of_mem_nat clues v hv
      rw [u32_eq] at hL
      rw [u64_eq]
      omega
    have hend : end_value_id clues L ⟨0, L⟩ = clues.length := by
      rcases List.eq_nil_or_concat clues with rfl | ⟨init, last, rfl⟩
      · rfl
      · rw [List.concat_eq_append] at hfit hfull ⊢
        rw [List.sum_append, List.length_append] at hfit
        simp only [List.sum_cons, List.sum_nil, List.length_cons, List.length_nil] at hfit
        have hlast : last + 1 ≤ L := by
          cases init with
          | nil =>
            have : last ≠ L := fun e => hfull (by rw [e]; rfl)
            simp at hfit
            omega
          | cons a init =>
            simp at hfit
            omega
        exact endScan_last init last L hlast hL64 (by omega)
    refine ⟨paint
      ((((List.range clues.length).map (fun i =>
        List.range' (left_begin clues L i)
          (right_end clues i - left_begin clues L i))).flatten).map (fun t => 0 + t))
      FieldState.Marked (List.replicate L FieldState.Unknown), ?_, ?_, ?_⟩
    · rw [MarkerRule, section_ranges_unknown L (by omega), GridView.size, List.length_replicate,
        runAll_cons, markSection_unknown clues L hstart hend hfit hL]
      rfl
    · rw [paint_length, List.length_replicate]
    · intro j hj
      rw [at_paint, at_replicate_unknown, List.length_replicate]
      simp only [mem_unknown_targets, inOverlap_iff clues L j hfit hL, hj, and_true]

/-- The two examples of the specification: on 10 `Unknown` cells the clue `[5]`
marks nothing and the clue `[8]` marks exactly cells `2..7`. -/
theorem markerRule_examples :
    MarkerRule [5] (List.replicate 10 FieldState.Unknown) =
        Outcome.done (List.replicate 10 FieldState.Unknown) ∧
      MarkerRule [8] (List.replicate 10 FieldState.Unknown) =
        Outcome.done (List.replicate 2 FieldState.Unknown ++
          List.replicate 6 FieldState.Marked ++ List.replicate 2 FieldState.Unknown) := by
  decide

/-! ## C11: the early returns of `CloseSideRule` -/

theorem firstUnknownFrom_append (pre suf : Line) (i : Nat)
    (h : ∀ c ∈ pre, c ≠ FieldState.Unknown) :
    firstUnknownFrom (pre ++ FieldState.Unknown :: suf) i = i + pre.length := by
  induction pre generalizing i with
  | nil => simp [firstUnknownFrom]
  | cons c pre ih =>
    rw [List.cons_append, firstUnknownFrom, if_neg (h c (List.mem_cons_self c pre)),
      ih (i + 1) (fun d hd => h d (List.mem_cons_of_mem c hd)), List.length_cons]
    omega

/-- The index of the first `Unknown` cell, when there is one. -/
theorem first_unknown_id_append (pre suf : Line) (h : ∀ c ∈ pre, c ≠ FieldState.Unknown) :
    first_unknown_id (pre ++ FieldState.Unknown :: suf) = pre.length := by
  rw [first_unknown_id, firstUnknownFrom_append pre suf 0 h, Nat.zero_add]

/-- The rule `CloseSideRule` returns at once when the cell before
`first_unknown_id` is not `Marked`. -/
theorem closeSideRule_of_prev_not_marked (values : List Nat) (l : Line)
    (h : GridView.at_ l (first_unknown_id l - 1) ≠ FieldState.Marked) :
    CloseSideRule values l = Outcome.done l := by
  unfold CloseSideRule
  dsimp only
  split
  · rfl
  · split
    · rfl
    · rfl

/-- C11: `CloseSideRule` returns the line unchanged when the line has no
`Unknown` cell (the empty line and a fully determined line included), when its
first `Unknown` cell is at index `0`, and when the cell immediately before its
first `Unknown` cell is not `Marked`. -/
theorem closeSideRule_noop (values : List Nat) (l : Line) :
    ((∀ c ∈ l, c ≠ FieldState.Unknown) → CloseSideRule values l = Outcome.done l) ∧
      (∀ suf, l = FieldState.Unknown :: suf → CloseSideRule values l = Outcome.done l) ∧
      (∀ pre suf, l = pre ++ FieldState.Unknown :: suf → (∀ c ∈ pre, c ≠ FieldState.Unknown) →
        GridView.at_ l (pre.length - 1) ≠ FieldState.Marked →
        CloseSideRule values l = Outcome.done l) := by
  refine ⟨fun h => ?_, fun suf h => ?_, fun pre suf h hpre hprev => ?_⟩
  · exact closeSideRule_of_first_zero values l (firstUnknownFrom_none l 0 h)
  · subst h
    exact closeSideRule_of_first_zero values _ rfl
  · subst h
    apply closeSideRule_of_prev_not_marked
    rw [first_unknown_id_append pre suf hpre]
    exact hprev

/-- Witness for C11: the lines `M E M` (no `Unknown` cell), `? M` (first
`Unknown` cell at index `0`) and `M E ? ?` (an `Empty` cell before the first
`Unknown` cell) are returned unchanged, and so is the empty line. -/
theorem closeSideRule_noop_witness :
    CloseSideRule [1, 1] [FieldState.Marked, FieldState.Empty, FieldState.Marked] =
        Outcome.done [FieldState.Marked, FieldState.Empty, FieldState.Marked] ∧
      CloseSideRule [1] [FieldState.Unknown, FieldState.Marked] =
        Outcome.done [FieldState.Unknown, FieldState.Marked] ∧
      CloseSideRule [1, 1]
          [FieldState.Marked, FieldState.Empty, FieldState.Unknown, FieldState.Unknown] =
        Outcome.done
          [FieldState.Marked, FieldState.Empty, FieldState.Unknown, FieldState.Unknown] ∧
      CloseSideRule [2] [] = Outcome.done [] :=
  ⟨(closeSideRule_noop [1, 1] [FieldState.Marked, FieldState.Empty, FieldState.Marked]).1
      (by decide),
    (closeSideRule_noop [1] [FieldState.Unknown, FieldState.Marked]).2.1
      [FieldState.Marked] rfl,
    (closeSideRule_noop [1, 1]
      [FieldState.Marked, FieldState.Empty, FieldState.Unknown, FieldState.Unknown]).2.2
      [FieldState.Marked, FieldState.Empty] [FieldState.Unknown] rfl (by decide) (by decide),
    (closeSideRule_noop [2] []).1 (by decide)⟩

/-! ## C19: `MarkerRule` on a line filled by one run -/

theorem runAll_flatten_map {α β γ σ : Type} (f : γ → σ → Outcome σ) (g : β → γ)
    (J : α → List β) (I : List α) (s : σ) :
    runAll f ((I.map (fun i => (J i).map g)).flatten) s =
      runAll (fun j => f (g j)) ((I.map J).flatten) s := by
  induction I generalizing s with
  | nil => rfl
  | cons i rest ih =>
    rw [List.map_cons, List.flatten_cons, runAll_append, List.map_cons, List.flatten_cons,
      runAll_append, runAll_map]
    congr 1
    funext t
    exact ih t

/-- The loop body of `MarkerRule` is a loop of writes of `Marked` over the
targets of the section. -/
theorem markSection_eq_targets (values : List Nat) (grid_size : Nat) (sr : SectionRange)
    (l : Line) :
    markSection values grid_size sr l =
      runAll (fun j w => GridView.set w j FieldState.Marked)
        (sectionTargets values grid_size sr) l := by
  unfold markSection sectionTargets
  dsimp only
  split
  · rfl
  · rw [runAll_nested, runAll_flatten_map]

/-- The rule `MarkerRule` is a loop of writes of `Marked` over its targets. -/
theorem markerRule_eq_targets (values : List Nat) (l : Line) :
    MarkerRule values l =
      runAll (fun j w => GridView.set w j FieldState.Marked) (markerTargets values l) l := by
  unfold MarkerRule markerTargets
  rw [← runAll_nested]
  congr 1
  funext sr v
  exact markSection_eq_targets values _ sr v

/-- C19: for every line length `L >= 1` (below `2^64 - 1`), on a line of `L`
`Unknown` cells with the single clue `[L]` the right scan of `MarkerRule` runs
out without stopping (`end_value_id = 0`, because `L - (L + 1)` wraps in
`size_t`), the section gets no run, no cell is written and the line is
returned all `Unknown`. -/
theorem markerRule_full_line_writes_nothing (L : Nat) (h1 : 1 ≤ L) (hL : L + 1 < u64) :
    subWrap u64 L ((L + 1) % u64) = L + u64 - (L + 1) ∧
      end_value_id [L] L ⟨0, L⟩ = 0 ∧
      markerTargets [L] (List.replicate L FieldState.Unknown) = [] ∧
      MarkerRule [L] (List.replicate L FieldState.Unknown) =
        Outcome.done (List.replicate L FieldState.Unknown) := by
  have hm : (L + 1) % u64 = L + 1 := Nat.mod_eq_of_lt hL
  have hw : subWrap u64 L ((L + 1) % u64) = L + u64 - (L + 1) := by
    rw [hm, subWrap, if_neg (by omega)]
  have he := endScan_full L h1 hL
  have hs : start_value_id [L] ⟨0, L⟩ = 0 := (startScan_zero [L] (by
    intro v hv
    rw [List.mem_singleton] at hv
    rw [hv]
    exact hL)).2 L
  have ht : markerTargets [L] (List.replicate L FieldState.Unknown) = [] := by
    rw [markerTargets, section_ranges_unknown L h1, GridView.size, List.length_replicate]
    simp only [List.map_cons, List.map_nil, List.flatten_cons, List.flatten_nil,
      List.append_nil, sectionTargets, he, hs, Nat.lt_irrefl, if_false, List.drop_zero,
      Nat.sub_zero, List.take_zero, List.length_nil, List.range_zero]
  refine ⟨hw, he, ht, ?_⟩
  rw [markerRule_eq_targets, ht]
  rfl

/-- Witness for C19: with `L = 3` the clue `[3]` leaves `? ? ?` as it is. -/
theorem markerRule_full_line_writes_nothing_witness :
    MarkerRule [3] [FieldState.Unknown, FieldState.Unknown, FieldState.Unknown] =
      Outcome.done [FieldState.Unknown, FieldState.Unknown, FieldState.Unknown] :=
  (markerRule_full_line_writes_nothing 3 (by decide) (by decide)).2.2.2

/-! ## C20: `Validate` on an empty clue sequence -/

theorem values_valid_nil (n : Nat) :
    Puzzle.values_valid [] n = decide (4294967295 ≤ n) := by
  rw [values_valid_eq_mod, decide_eq_decide, u32_eq]
  simp

theorem join_mem_split (l : List String) (e : String) (h : e ∈ l) :
    ∃ pre post, String.join l = pre ++ e ++ post := by
  obtain ⟨a, b, rfl⟩ := List.append_of_mem h
  exact ⟨String.join a, String.join b, by rw [join_append, join_cons, String.append_assoc]⟩

theorem entriesOf_mem (label : String) (bad : List Nat → Bool) (lines : List (List Nat))
    (i : Nat) (values : List Nat) (hi : lines.get? i = some values) (hb : bad values = true) :
    label ++ toString (i + 1) ++ " is invalid" ++ "\n" ∈ entriesOf label bad lines 0 := by
  rw [entriesOf, List.mem_map]
  refine ⟨(i, values), ?_, rfl⟩
  rw [List.mem_filter]
  refine ⟨?_, hb⟩
  rw [List.mk_mem_enumFrom_iff_le_and_getElem?_sub]
  refine ⟨Nat.zero_le i, ?_⟩
  rw [Nat.sub_zero, ← List.get?_eq_getElem?]
  exact hi

theorem all_false_of_get (lines : List (List Nat)) (ok : List Nat → Bool) (i : Nat)
    (values : List Nat) (hi : lines.get? i = some values) (hb : ok values = false) :
    lines.all ok = false := by
  rw [List.all_eq_false]
  exact ⟨values, List.get?_mem hi, by rw [hb]; decide⟩

/-- C20: when a row (a column) has an empty clue sequence and the lines of that
direction have fewer than `2^32 - 1` cells, `Validate` returns `false` and its
issues text contains the entry for that line; the reason is that `values_valid`
compares `2^32 - 1`, the wrapped value of `0 + 0 - 1`, with the line length. -/
theorem validate_rejects_empty_clues (p : Puzzle) :
    (∀ i, p.m_rows.get? i = some [] → p.m_columns.length + 1 < u32 →
        (Puzzle.Validate p).1 = false ∧
          ∃ pre post, (Puzzle.Validate p).2 =
            pre ++ ("Row " ++ toString (i + 1) ++ " is invalid" ++ "\n") ++ post) ∧
      (∀ j, p.m_columns.get? j = some [] → p.m_rows.length + 1 < u32 →
        (Puzzle.Validate p).1 = false ∧
          ∃ pre post, (Puzzle.Validate p).2 =
            pre ++ ("Column " ++ toString (j + 1) ++ " is invalid" ++ "\n") ++ post) ∧
      (∀ n, Puzzle.values_valid [] n = decide (4294967295 ≤ n)) := by
  refine ⟨fun i hi hlen => ?_, fun j hj hlen => ?_, values_valid_nil⟩
  · have hmod : p.m_columns.length % u32 = p.m_columns.length :=
      Nat.mod_eq_of_lt (by omega)
    have hbad : Puzzle.values_valid [] (p.m_columns.length % u32) = false := by
      rw [values_valid_nil, hmod, decide_eq_false_iff_not]
      rw [u32_eq] at hlen
      omega
    rw [validate_eq]
    refine ⟨?_, ?_⟩
    · show (_ && _) = false
      rw [all_false_of_get p.m_rows _ i [] hi hbad, Bool.false_and]
    · apply join_mem_split
      apply List.mem_append_left
      exact entriesOf_mem "Row " _ p.m_rows i [] hi (by rw [hbad]; rfl)
  · have hmod : p.m_rows.length % u32 = p.m_rows.length :=
      Nat.mod_eq_of_lt (by omega)
    have hbad : Puzzle.values_valid [] (p.m_rows.length % u32) = false := by
      rw [values_valid_nil, hmod, decide_eq_false_iff_not]
      rw [u32_eq] at hlen
      omega
    rw [validate_eq]
    refine ⟨?_, ?_⟩
    · show (_ && _) = false
      rw [all_false_of_get p.m_columns _ j [] hj hbad, Bool.and_false]
    · apply join_mem_split
      apply List.mem_append_right
      exact entriesOf_mem "Column " _ p.m_columns j [] hj (by rw [hbad]; rfl)

/-- Witness for C20: the 1x1 puzzle whose row has no clue is rejected with the
text `Row 1 is invalid`. -/
theorem validate_rejects_empty_clues_witness :
    (Puzzle.Validate emptyCluePuzzle).1 = false ∧
      ∃ pre post, (Puzzle.Validate emptyCluePuzzle).2 =
        pre ++ ("Row " ++ toString (0 + 1) ++ " is invalid" ++ "\n") ++ post :=
  (validate_rejects_empty_clues emptyCluePuzzle).1 0 rfl (by decide)

/-! ## C17: the clue index `CloseSideRule` selects -/

theorem value_id_cons (c : FieldState) (l : Line) (n : Nat) :
    value_id (c :: l) (n + 1) =
      (if c = FieldState.Marked ∧ GridView.at_ l 0 = FieldState.Empty then 1 else 0) +
        value_id l n := by
  unfold value_id
  rw [List.range_succ_eq_map, List.countP_cons, List.countP_map, Nat.add_comm]
  congr 1
  simp only [at_cons_zero, at_cons_succ, Bool.and_eq_true, decide_eq_true_eq]

theorem value_id_zero_len (l : Line) : value_id l 0 = 0 := rfl

/-- Before the first `Unknown` cell, the pairs `Marked, Empty` that
`CloseSideRule` counts are the runs of `Marked` cells other than a run that
ends at the last cell of the prefix. -/
theorem value_id_add_open (pre suf : Line) (h : ∀ c ∈ pre, c ≠ FieldState.Unknown) :
    value_id (pre ++ FieldState.Unknown :: suf) pre.length +
        (if pre.getLast? = some FieldState.Marked then 1 else 0) = markedRuns pre := by
  induction pre with
  | nil => rfl
  | cons c pre ih =>
    cases pre with
    | nil =>
      rw [List.cons_append, List.nil_append, List.length_singleton, value_id_cons,
        value_id_zero_len, at_cons_zero, markedRuns]
      simp only [List.getLast?_singleton, Option.some.injEq]
      by_cases hc : c = FieldState.Marked <;> simp [hc]
    | cons d rest =>
      have hd : d ≠ FieldState.Unknown := h d (by simp)
      have ih' := ih (fun x hx => h x (List.mem_cons_of_mem c hx))
      rw [List.cons_append, List.length_cons, value_id_cons, List.cons_append, at_cons_zero,
        markedRuns, List.getLast?_cons_cons, ← ih', List.cons_append]
      have hiff : (c = FieldState.Marked ∧ d = FieldState.Empty) ↔
          (c = FieldState.Marked ∧ d ≠ FieldState.Marked) := by
        cases d <;> simp at hd ⊢
      simp only [hiff]
      omega

theorem getLast_of_at (pre : Line) (h0 : pre ≠ [])
    (h : GridView.at_ pre (pre.length - 1) = FieldState.Marked) :
    pre.getLast? = some FieldState.Marked := by
  induction pre with
  | nil => exact absurd rfl h0
  | cons c pre ih =>
    cases pre with
    | nil => simpa [at_cons_zero] using h
    | cons d rest =>
      rw [List.getLast?_cons_cons]
      apply ih (by simp)
      simpa [at_cons_succ] using h

/-- C17: on a line whose first `Unknown` cell is at index `u >= 1` with cell
`u - 1` `Marked`, the index `value_id` that `CloseSideRule` uses to select the
clue of the open run is the number of maximal runs of `Marked` cells before
index `u` other than the open run (the run that ends at `u - 1`), whatever
the lengths of these runs. -/
theorem closeSideRule_value_id (pre suf : Line) (hpre : ∀ c ∈ pre, c ≠ FieldState.Unknown)
    (h0 : pre ≠ [])
    (hlast : GridView.at_ (pre ++ FieldState.Unknown :: suf) (pre.length - 1) =
      FieldState.Marked) :
    first_unknown_id (pre ++ FieldState.Unknown :: suf) = pre.length ∧
      value_id (pre ++ FieldState.Unknown :: suf)
          (first_unknown_id (pre ++ FieldState.Unknown :: suf)) + 1 = markedRuns pre := by
  have hfu := first_unknown_id_append pre suf hpre
  have hlen : 0 < pre.length := List.length_pos.mpr h0
  rw [at_append_left _ _ _ (by omega)] at hlast
  have hl := getLast_of_at pre h0 hlast
  have h := value_id_add_open pre suf hpre
  rw [if_pos hl] at h
  rw [hfu]
  exact ⟨rfl, h⟩

/-- Witness for C17: in `M E M E M M ? ?` two runs of length one are closed
before the open run, and `CloseSideRule` selects clue index `2`. -/
theorem closeSideRule_value_id_witness :
    value_id
        [FieldState.Marked, FieldState.Empty, FieldState.Marked, FieldState.Empty,
          FieldState.Marked, FieldState.Marked, FieldState.Unknown, FieldState.Unknown]
        (first_unknown_id
          [FieldState.Marked, FieldState.Empty, FieldState.Marked, FieldState.Empty,
            FieldState.Marked, FieldState.Marked, FieldState.Unknown, FieldState.Unknown]) + 1 =
      3 :=
  (closeSideRule_value_id
    [FieldState.Marked, FieldState.Empty, FieldState.Marked, FieldState.Empty,
      FieldState.Marked, FieldState.Marked] [FieldState.Unknown]
    (by decide) (by decide) (by decide)).2

/-! ## C16: the cells `CloseSideRule` writes -/

/-- The backward scan of `CloseSideRule` finds the start of the open run unless
the nearest `Empty` cell is cell `0`, which the scan never reads. -/
theorem sideBeginFrom_eq_openRunStart (l : Line) (u : Nat) (h : openRunStart l u ≠ 1) :
    sideBeginFrom l u = openRunStart l u := by
  induction u with
  | zero => rfl
  | succ i ih =>
    rw [sideBeginFrom, openRunStart] at *
    by_cases hi : 1 < i + 1
    · rw [if_pos hi]
      by_cases he : GridView.at_ l i = FieldState.Empty
      · rw [if_pos he, if_pos he]
      · rw [if_neg he] at h ⊢
        rw [if_neg he]
        exact ih h
    · have hi0 : i = 0 := by omega
      subst hi0
      rw [if_neg hi]
      by_cases he : GridView.at_ l 0 = FieldState.Empty
      · rw [if_pos he] at h
        exact absurd rfl h
      · rw [if_neg he]
        rfl

theorem sideBeginFrom_of_start_one (l : Line) (u : Nat) (h : openRunStart l u = 1) :
    sideBeginFrom l u = 0 := by
  induction u with
  | zero => rfl
  | succ i ih =>
    rw [sideBeginFrom]
    rw [openRunStart] at h
    by_cases hi : 1 < i + 1
    · rw [if_pos hi]
      by_cases he : GridView.at_ l i = FieldState.Empty
      · rw [if_pos he] at h
        omega
      · rw [if_neg he] at h
        rw [if_neg he]
        exact ih h
    · rw [if_neg hi]

theorem openRunStart_le (l : Line) (u : Nat) : openRunStart l u ≤ u := by
  induction u with
  | zero => exact Nat.le_refl 0
  | succ i ih =>
    rw [openRunStart]
    split <;> omega

theorem openRunStart_not_empty (l : Line) (u j : Nat) (h1 : openRunStart l u ≤ j)
    (h2 : j < u) : GridView.at_ l j ≠ FieldState.Empty := by
  induction u with
  | zero => omega
  | succ i ih =>
    rw [openRunStart] at h1
    by_cases he : GridView.at_ l i = FieldState.Empty
    · rw [if_pos he] at h1
      omega
    · rw [if_neg he] at h1
      by_cases hj : j = i
      · rw [hj]; exact he
      · exact ih h1 (by omega)

theorem at_prefix_unknown (pre suf : Line) :
    GridView.at_ (pre ++ FieldState.Unknown :: suf) pre.length = FieldState.Unknown := by
  have h := at_append_right pre (FieldState.Unknown :: suf) 0
  rw [Nat.add_zero] at h
  rw [h]
  rfl

/-- The rule `CloseSideRule` on a line with an open run before its first
`Unknown` cell, when the nearest `Empty` cell before the open run is not cell
`0` and no write meets a cell determined otherwise: with `b` the start of the
open run and `v` the selected clue value, exactly the cells `b..b+v-1` become
`Marked`, cell `b+v`, when inside the line, becomes `Empty`, and no other cell
changes. -/
theorem closeSideRule_open_run (values : List Nat) (pre suf : Line) (v : Nat)
    (hpre : ∀ c ∈ pre, c ≠ FieldState.Unknown) (h0 : pre ≠ [])
    (hlast : GridView.at_ (pre ++ FieldState.Unknown :: suf) (pre.length - 1) =
      FieldState.Marked)
    (hb : openRunStart (pre ++ FieldState.Unknown :: suf) pre.length ≠ 1)
    (hv : values.get? (value_id (pre ++ FieldState.Unknown :: suf) pre.length) = some v)
    (hfit : openRunStart (pre ++ FieldState.Unknown :: suf) pre.length + v ≤
      (pre ++ FieldState.Unknown :: suf).length)
    (hfree : ∀ j, pre.length ≤ j →
      j < openRunStart (pre ++ FieldState.Unknown :: suf) pre.length + v →
      GridView.at_ (pre ++ FieldState.Unknown :: suf) j ≠ FieldState.Empty)
    (hend : GridView.at_ (pre ++ FieldState.Unknown :: suf)
      (openRunStart (pre ++ FieldState.Unknown :: suf) pre.length + v) ≠ FieldState.Marked) :
    ∃ r, CloseSideRule values (pre ++ FieldState.Unknown :: suf) = Outcome.done r ∧
      r.length = (pre ++ FieldState.Unknown :: suf).length ∧
      ∀ j, GridView.at_ r j =
        if openRunStart (pre ++ FieldState.Unknown :: suf) pre.length ≤ j ∧
            j < openRunStart (pre ++ FieldState.Unknown :: suf) pre.length + v then
          FieldState.Marked
        else if j = openRunStart (pre ++ FieldState.Unknown :: suf) pre.length + v ∧
            j < (pre ++ FieldState.Unknown :: suf).length then FieldState.Empty
        else GridView.at_ (pre ++ FieldState.Unknown :: suf) j := by
  generalize hl : pre ++ FieldState.Unknown :: suf = l at *
  generalize hbdef : openRunStart l pre.length = b at *
  have hfu : first_unknown_id l = pre.length := by
    rw [← hl]; exact first_unknown_id_append pre suf hpre
  have hulen : pre.length < l.length := by
    rw [← hl, List.length_append, List.length_cons]; omega
  have hupos : 0 < pre.length := List.length_pos.mpr h0
  have hsb : sideBeginFrom l pre.length = b := by
    rw [sideBeginFrom_eq_openRunStart l pre.length (by rw [hbdef]; exact hb), hbdef]
  have hble : b ≤ pre.length := by rw [← hbdef]; exact openRunStart_le l pre.length
  have hdet : ∀ j, j < pre.length → GridView.at_ l j ≠ FieldState.Unknown := by
    intro j hj
    rw [← hl, at_append_left _ _ _ hj]
    exact hpre _ (at_mem pre j hj)
  have hcell : ∀ j, b ≤ j → j < b + v →
      GridView.at_ l j = FieldState.Unknown ∨ GridView.at_ l j = FieldState.Marked := by
    intro j h1 h2
    have hne : GridView.at_ l j ≠ FieldState.Empty := by
      by_cases hj : j < pre.length
      · exact openRunStart_not_empty l pre.length j (by rw [hbdef]; exact h1) hj
      · exact hfree j (by omega) h2
    cases hc : GridView.at_ l j with
    | Unknown => exact Or.inl rfl
    | Marked => exact Or.inr rfl
    | Empty => exact absurd hc hne
  have hmemb : ∀ j, j ∈ List.map (fun i => b + i) (List.range v) ↔ b ≤ j ∧ j < b + v := by
    intro j
    simp only [List.mem_map, List.mem_range]
    constructor
    · rintro ⟨k, hk, rfl⟩; omega
    · intro h; exact ⟨j - b, by omega, by omega⟩
  have hrun := runAll_set_done (fun i => b + i) FieldState.Marked (by decide) (List.range v) l (by
    intro i hi
    have hi2 : i < v := List.mem_range.mp hi
    beta_reduce
    exact ⟨by omega, hcell (b + i) (by omega) (by omega)⟩)
  rw [closeSideRule_active values l pre.length v hfu (by omega) (by omega) hlast hv, hsb, hrun,
    andThen_done, paint_length]
  by_cases hin : b + v < l.length
  · rw [if_pos hin]
    have hendcell : GridView.at_ l (b + v) = FieldState.Unknown ∨
        GridView.at_ l (b + v) = FieldState.Empty := by
      cases hc : GridView.at_ l (b + v) with
      | Unknown => exact Or.inl rfl
      | Marked => exact absurd hc hend
      | Empty => exact Or.inr rfl
    rw [set_done _ _ _ (by decide) (by rw [paint_length]; exact hin) (by
      rw [at_paint]
      simp only [hmemb]
      rw [if_neg (by omega)]
      exact hendcell)]
    refine ⟨_, rfl, by rw [List.length_set, paint_length], ?_⟩
    intro j
    rw [at_set, at_paint, paint_length]
    simp only [hmemb]
    split_ifs <;> first | rfl | (exfalso; omega)
  · rw [if_neg hin]
    refine ⟨_, rfl, by rw [paint_length], ?_⟩
    intro j
    rw [at_paint]
    simp only [hmemb]
    split_ifs <;> first | rfl | (exfalso; omega)

/-- C16 (evaluation at the failing input): on the line `E M ? ?` with clues
`[2]` the open run starts at index `1`, one past the `Empty` cell `0`, but the
backward scan of `CloseSideRule`, which stops at `i > 1`, leaves `side_begin`
at `0`; the rule then writes `Marked` to the `Empty` cell `0`, the write
fails, and the line is left as it was instead of becoming `E M M E`. -/
theorem closeSideRule_misses_empty_cell_zero :
    first_unknown_id
        [FieldState.Empty, FieldState.Marked, FieldState.Unknown, FieldState.Unknown] = 2 ∧
      openRunStart
        [FieldState.Empty, FieldState.Marked, FieldState.Unknown, FieldState.Unknown] 2 = 1 ∧
      sideBeginFrom
        [FieldState.Empty, FieldState.Marked, FieldState.Unknown, FieldState.Unknown] 2 = 0 ∧
      CloseSideRule [2]
          [FieldState.Empty, FieldState.Marked, FieldState.Unknown, FieldState.Unknown] =
        Outcome.fault
          [FieldState.Empty, FieldState.Marked, FieldState.Unknown, FieldState.Unknown] := by
  decide

/-- An instance of `closeSideRule_open_run`: in `M E M ? ? ?` with clues
`[1, 2]` the open run starts at index `2` and gets the clue value `2`; the
line becomes `M E M M E ?`. -/
theorem closeSideRule_open_run_example :
    ∃ r, CloseSideRule [1, 2]
        [FieldState.Marked, FieldState.Empty, FieldState.Marked, FieldState.Unknown,
          FieldState.Unknown, FieldState.Unknown] = Outcome.done r ∧
      r.length = 6 ∧ GridView.at_ r 3 = FieldState.Marked ∧
      GridView.at_ r 4 = FieldState.Empty ∧ GridView.at_ r 5 = FieldState.Unknown := by
  obtain ⟨r, h1, h2, h3⟩ := closeSideRule_open_run [1, 2]
    [FieldState.Marked, FieldState.Empty, FieldState.Marked]
    [FieldState.Unknown, FieldState.Unknown] 2 (by decide) (by decide) (by decide) (by decide)
    (by decide) (by decide) (by
      intro j h1 h2
      have h3 : j = 3 := by
        have : openRunStart ([FieldState.Marked, FieldState.Empty, FieldState.Marked] ++
          FieldState.Unknown :: [FieldState.Unknown, FieldState.Unknown])
          [FieldState.Marked, FieldState.Empty, FieldState.Marked].length = 2 := by decide
        rw [this] at h2
        simp only [List.length_cons, List.length_nil] at h1
        omega
      subst h3
      decide) (by decide)
  exact ⟨r, h1, h2, by rw [h3]; decide, by rw [h3]; decide, by rw [h3]; decide⟩

/-! ## C15: applications to two distinct rows, or two distinct columns, commute -/

theorem getD_set_ne {α : Type} (l : List α) (i j : Nat) (a d : α) (h : i ≠ j) :
    (List.set l i a).getD j d = l.getD j d := by
  rw [List.getD_eq_getElem?_getD, List.getD_eq_getElem?_getD, List.getElem?_set_ne h]

/-- Writing one row back leaves the view of every other row as it was. -/
theorem getRowView_putRow_ne (g : List (List FieldState)) (i j : Nat) (l : Line) (h : i ≠ j) :
    Puzzle.GetRowView (Puzzle.putRow g i l) j = Puzzle.GetRowView g j :=
  getD_set_ne g i j l [] h

theorem putRow_comm (g : List (List FieldState)) (i j : Nat) (a b : Line) (h : i ≠ j) :
    Puzzle.putRow (Puzzle.putRow g i a) j b = Puzzle.putRow (Puzzle.putRow g j b) i a :=
  List.set_comm a b g h

/-- Writing one column back leaves the view of every other column as it was,
when the written line has the length of the column. -/
theorem getColumnView_putColumn_ne (g : List (List FieldState)) (i j : Nat) (l : Line)
    (h : i ≠ j) (hlen : l.length = g.length) :
    Puzzle.GetColumnView (Puzzle.putColumn g i l) j = Puzzle.GetColumnView g j := by
  induction g generalizing l with
  | nil => rfl
  | cons row g ih =>
    cases l with
    | nil => simp at hlen
    | cons x l =>
      simp only [Puzzle.GetColumnView, Puzzle.putColumn, List.zipWith_cons_cons, List.map_cons]
      rw [getD_set_ne row i j x FieldState.Unknown h]
      congr 1
      exact ih l (by simpa using hlen)

theorem putColumn_comm (g : List (List FieldState)) (i j : Nat) (a b : Line) (h : i ≠ j)
    (ha : a.length = g.length) (hb : b.length = g.length) :
    Puzzle.putColumn (Puzzle.putColumn g i a) j b =
      Puzzle.putColumn (Puzzle.putColumn g j b) i a := by
  induction g generalizing a b with
  | nil => rfl
  | cons row g ih =>
    cases a with
    | nil => simp at ha
    | cons x a =>
      cases b with
      | nil => simp at hb
      | cons y b =>
        simp only [Puzzle.putColumn, List.zipWith_cons_cons]
        rw [List.set_comm x y row h]
        congr 1
        exact ih a b (by simpa using ha) (by simpa using hb)

theorem getColumnView_length (g : List (List FieldState)) (c : Nat) :
    (Puzzle.GetColumnView g c).length = g.length := by
  simp [Puzzle.GetColumnView]

theorem ruleOnRow_of_done (rule : List Nat → Line → Outcome Line) (i : Nat) (p : Puzzle)
    (a : Line) (h : rule (p.m_rows.getD i []) (Puzzle.GetRowView p.m_grid i) = Outcome.done a) :
    ruleOnRow rule i p = Outcome.done { p with m_grid := Puzzle.putRow p.m_grid i a } := by
  rw [ruleOnRow, h]
  rfl

theorem ruleOnRow_of_fault (rule : List Nat → Line → Outcome Line) (i : Nat) (p : Puzzle)
    (a : Line) (h : rule (p.m_rows.getD i []) (Puzzle.GetRowView p.m_grid i) = Outcome.fault a) :
    ruleOnRow rule i p = Outcome.fault { p with m_grid := Puzzle.putRow p.m_grid i a } := by
  rw [ruleOnRow, h]
  rfl

theorem ruleOnColumn_of_done (rule : List Nat → Line → Outcome Line) (i : Nat) (p : Puzzle)
    (a : Line)
    (h : rule (p.m_columns.getD i []) (Puzzle.GetColumnView p.m_grid i) = Outcome.done a) :
    ruleOnColumn rule i p = Outcome.done { p with m_grid := Puzzle.putColumn p.m_grid i a } := by
  rw [ruleOnColumn, h]
  rfl

theorem ruleOnRow_of_undefined (rule : List Nat → Line → Outcome Line) (i : Nat) (p : Puzzle)
    (a : Line)
    (h : rule (p.m_rows.getD i []) (Puzzle.GetRowView p.m_grid i) = Outcome.undefined a) :
    ruleOnRow rule i p = Outcome.undefined { p with m_grid := Puzzle.putRow p.m_grid i a } := by
  rw [ruleOnRow, h]
  rfl

theorem ruleOnColumn_of_undefined (rule : List Nat → Line → Outcome Line) (i : Nat) (p : Puzzle)
    (a : Line)
    (h : rule (p.m_columns.getD i []) (Puzzle.GetColumnView p.m_grid i) =
      Outcome.undefined a) :
    ruleOnColumn rule i p =
      Outcome.undefined { p with m_grid := Puzzle.putColumn p.m_grid i a } := by
  rw [ruleOnColumn, h]
  rfl

theorem ruleOnColumn_of_fault (rule : List Nat → Line → Outcome Line) (i : Nat) (p : Puzzle)
    (a : Line)
    (h : rule (p.m_columns.getD i []) (Puzzle.GetColumnView p.m_grid i) = Outcome.fault a) :
    ruleOnColumn rule i p = Outcome.fault { p with m_grid := Puzzle.putColumn p.m_grid i a } := by
  rw [ruleOnColumn, h]
  rfl

theorem andThen_fault {σ : Type} (s : σ) (f : σ → Outcome σ) :
    (Outcome.fault s).andThen f = Outcome.fault s := rfl

theorem andThen_undefined {σ : Type} (s : σ) (f : σ → Outcome σ) :
    (Outcome.undefined s).andThen f = Outcome.undefined s := rfl

/-- Two applications of a rule to distinct rows return in one order exactly
when they return in the other, with the same puzzle. -/
theorem ruleOnRow_comm (rule : List Nat → Line → Outcome Line) (p : Puzzle) (i j : Nat)
    (h : i ≠ j) (q : Puzzle) :
    (ruleOnRow rule i p).andThen (ruleOnRow rule j) = Outcome.done q ↔
      (ruleOnRow rule j p).andThen (ruleOnRow rule i) = Outcome.done q := by
  cases hi : rule (p.m_rows.getD i []) (Puzzle.GetRowView p.m_grid i) with
  | done a =>
    rw [ruleOnRow_of_done rule i p a hi, andThen_done]
    cases hj : rule (p.m_rows.getD j []) (Puzzle.GetRowView p.m_grid j) with
    | done b =>
      rw [ruleOnRow_of_done rule j p b hj, andThen_done,
        ruleOnRow_of_done rule j _ b (by
          show rule (p.m_rows.getD j []) (Puzzle.GetRowView (Puzzle.putRow p.m_grid i a) j) = _
          rw [getRowView_putRow_ne _ _ _ _ h]; exact hj),
        ruleOnRow_of_done rule i _ a (by
          show rule (p.m_rows.getD i []) (Puzzle.GetRowView (Puzzle.putRow p.m_grid j b) i) = _
          rw [getRowView_putRow_ne _ _ _ _ (Ne.symm h)]; exact hi)]
      show Outcome.done { p with m_grid := Puzzle.putRow (Puzzle.putRow p.m_grid i a) j b } = _ ↔
        Outcome.done { p with m_grid := Puzzle.putRow (Puzzle.putRow p.m_grid j b) i a } = _
      rw [putRow_comm _ _ _ a b h]
    | fault b =>
      rw [ruleOnRow_of_fault rule j p b hj, andThen_fault,
        ruleOnRow_of_fault rule j _ b (by
          show rule (p.m_rows.getD j []) (Puzzle.GetRowView (Puzzle.putRow p.m_grid i a) j) = _
          rw [getRowView_putRow_ne _ _ _ _ h]; exact hj)]
      simp only [reduceCtorEq]
    | undefined b =>
      rw [ruleOnRow_of_undefined rule j p b hj, andThen_undefined,
        ruleOnRow_of_undefined rule j _ b (by
          show rule (p.m_rows.getD j []) (Puzzle.GetRowView (Puzzle.putRow p.m_grid i a) j) = _
          rw [getRowView_putRow_ne _ _ _ _ h]; exact hj)]
      simp only [reduceCtorEq]
  | fault a =>
    rw [ruleOnRow_of_fault rule i p a hi, andThen_fault]
    cases hj : rule (p.m_rows.getD j []) (Puzzle.GetRowView p.m_grid j) with
    | done b =>
      rw [ruleOnRow_of_done rule j p b hj, andThen_done,
        ruleOnRow_of_fault rule i _ a (by
          show rule (p.m_rows.getD i []) (Puzzle.GetRowView (Puzzle.putRow p.m_grid j b) i) = _
          rw [getRowView_putRow_ne _ _ _ _ (Ne.symm h)]; exact hi)]
      simp only [reduceCtorEq]
    | fault b =>
      rw [ruleOnRow_of_fault rule j p b hj, andThen_fault]
      simp only [reduceCtorEq]
    | undefined b =>
      rw [ruleOnRow_of_undefined rule j p b hj, andThen_undefined]
      simp only [reduceCtorEq]
  | undefined a =>
    rw [ruleOnRow_of_undefined rule i p a hi, andThen_undefined]
    cases hj : rule (p.m_rows.getD j []) (Puzzle.GetRowView p.m_grid j) with
    | done b =>
      rw [ruleOnRow_of_done rule j p b hj, andThen_done,
        ruleOnRow_of_undefined rule i _ a (by
          show rule (p.m_rows.getD i []) (Puzzle.GetRowView (Puzzle.putRow p.m_grid j b) i) = _
          rw [getRowView_putRow_ne _ _ _ _ (Ne.symm h)]; exact hi)]
      simp only [reduceCtorEq]
    | fault b =>
      rw [ruleOnRow_of_fault rule j p b hj, andThen_fault]
      simp only [reduceCtorEq]
    | undefined b =>
      rw [ruleOnRow_of_undefined rule j p b hj, andThen_undefined]
      simp only [reduceCtorEq]

/-- Two applications of a length-preserving rule to distinct columns return in
one order exactly when they return in the other, with the same puzzle. -/
theorem ruleOnColumn_comm (rule : List Nat → Line → Outcome Line)
    (hlen : ∀ values l, (rule values l).state.length = l.length) (p : Puzzle) (i j : Nat)
    (h : i ≠ j) (q : Puzzle) :
    (ruleOnColumn rule i p).andThen (ruleOnColumn rule j) = Outcome.done q ↔
      (ruleOnColumn rule j p).andThen (ruleOnColumn rule i) = Outcome.done q := by
  have hli := hlen (p.m_columns.getD i []) (Puzzle.GetColumnView p.m_grid i)
  have hlj := hlen (p.m_columns.getD j []) (Puzzle.GetColumnView p.m_grid j)
  rw [getColumnView_length] at hli hlj
  cases hi : rule (p.m_columns.getD i []) (Puzzle.GetColumnView p.m_grid i) with
  | done a =>
    rw [hi, Outcome.state] at hli
    rw [ruleOnColumn_of_done rule i p a hi, andThen_done]
    cases hj : rule (p.m_columns.getD j []) (Puzzle.GetColumnView p.m_grid j) with
    | done b =>
      rw [hj, Outcome.state] at hlj
      rw [ruleOnColumn_of_done rule j p b hj, andThen_done,
        ruleOnColumn_of_done rule j _ b (by
          show rule (p.m_columns.getD j [])
            (Puzzle.GetColumnView (Puzzle.putColumn p.m_grid i a) j) = _
          rw [getColumnView_putColumn_ne _ _ _ _ h hli]; exact hj),
        ruleOnColumn_of_done rule i _ a (by
          show rule (p.m_columns.getD i [])
            (Puzzle.GetColumnView (Puzzle.putColumn p.m_grid j b) i) = _
          rw [getColumnView_putColumn_ne _ _ _ _ (Ne.symm h) hlj]; exact hi)]
      show Outcome.done
          { p with m_grid := Puzzle.putColumn (Puzzle.putColumn p.m_grid i a) j b } = _ ↔
        Outcome.done
          { p with m_grid := Puzzle.putColumn (Puzzle.putColumn p.m_grid j b) i a } = _
      rw [putColumn_comm _ _ _ a b h hli hlj]
    | fault b =>
      rw [ruleOnColumn_of_fault rule j p b hj, andThen_fault,
        ruleOnColumn_of_fault rule j _ b (by
          show rule (p.m_columns.getD j [])
            (Puzzle.GetColumnView (Puzzle.putColumn p.m_grid i a) j) = _
          rw [getColumnView_putColumn_ne _ _ _ _ h hli]; exact hj)]
      simp only [reduceCtorEq]
    | undefined b =>
      rw [ruleOnColumn_of_undefined rule j p b hj, andThen_undefined,
        ruleOnColumn_of_undefined rule j _ b (by
          show rule (p.m_columns.getD j [])
            (Puzzle.GetColumnView (Puzzle.putColumn p.m_grid i a) j) = _
          rw [getColumnView_putColumn_ne _ _ _ _ h hli]; exact hj)]
      simp only [reduceCtorEq]
  | fault a =>
    rw [ruleOnColumn_of_fault rule i p a hi, andThen_fault]
    cases hj : rule (p.m_columns.getD j []) (Puzzle.GetColumnView p.m_grid j) with
    | done b =>
      rw [hj, Outcome.state] at hlj
      rw [ruleOnColumn_of_done rule j p b hj, andThen_done,
        ruleOnColumn_of_fault rule i _ a (by
          show rule (p.m_columns.getD i [])
            (Puzzle.GetColumnView (Puzzle.putColumn p.m_grid j b) i) = _
          rw [getColumnView_putColumn_ne _ _ _ _ (Ne.symm h) hlj]; exact hi)]
      simp only [reduceCtorEq]
    | fault b =>
      rw [ruleOnColumn_of_fault rule j p b hj, andThen_fault]
      simp only [reduceCtorEq]
    | undefined b =>
      rw [ruleOnColumn_of_undefined rule j p b hj, andThen_undefined]
      simp only [reduceCtorEq]
  | undefined a =>
    rw [ruleOnColumn_of_undefined rule i p a hi, andThen_undefined]
    cases hj : rule (p.m_columns.getD j []) (Puzzle.GetColumnView p.m_grid j) with
    | done b =>
      rw [hj, Outcome.state] at hlj
      rw [ruleOnColumn_of_done rule j p b hj, andThen_done,
        ruleOnColumn_of_undefined rule i _ a (by
          show rule (p.m_columns.getD i [])
            (Puzzle.GetColumnView (Puzzle.putColumn p.m_grid j b) i) = _
          rw [getColumnView_putColumn_ne _ _ _ _ (Ne.symm h) hlj]; exact hi)]
      simp only [reduceCtorEq]
    | fault b =>
      rw [ruleOnColumn_of_fault rule j p b hj, andThen_fault]
      simp only [reduceCtorEq]
    | undefined b =>
      rw [ruleOnColumn_of_undefined rule j p b hj, andThen_undefined]
      simp only [reduceCtorEq]

theorem rule_length_of_narrows (rule : List Nat → Line → Outcome Line)
    (hrule : ∀ values l, Narrows l (rule values l).state) (values : List Nat) (l : Line) :
    (rule values l).state.length = l.length :=
  narrows_length _ _ (hrule values l)

/-- C15 (amended): for each of the three rules, every puzzle state and any two
distinct rows `i` and `j`, applying the rule to row `i` and then to row `j`
returns normally exactly when applying it to row `j` and then to row `i` does,
and then both orders give the same grid; likewise for two distinct columns.
(When a write fails neither order returns, and the grids they leave behind may
differ.)  The reason is the frame of one application: applied to row `i`
(column `i`) it is computed from the view of that line alone and leaves the
view of every other row (column) as it was. -/
theorem rule_on_distinct_lines_commutes :
    ∀ rule ∈ [ZeroValueRule, MarkerRule, CloseSideRule], ∀ (p : Puzzle) (i j : Nat), i ≠ j →
      (∀ q, (ruleOnRow rule i p).andThen (ruleOnRow rule j) = Outcome.done q ↔
        (ruleOnRow rule j p).andThen (ruleOnRow rule i) = Outcome.done q) ∧
      (∀ q, (ruleOnColumn rule i p).andThen (ruleOnColumn rule j) = Outcome.done q ↔
        (ruleOnColumn rule j p).andThen (ruleOnColumn rule i) = Outcome.done q) ∧
      Puzzle.GetRowView (ruleOnRow rule i p).state.m_grid j = Puzzle.GetRowView p.m_grid j ∧
      Puzzle.GetColumnView (ruleOnColumn rule i p).state.m_grid j =
        Puzzle.GetColumnView p.m_grid j := by
  intro rule hrule p i j hij
  have hr : ∀ values l, Narrows l (rule values l).state := by
    simp only [List.mem_cons, List.mem_singleton, List.not_mem_nil, or_false] at hrule
    rcases hrule with rfl | rfl | rfl
    · exact zeroValueRule_narrows
    · exact markerRule_narrows
    · exact closeSideRule_narrows
  have hlen := rule_length_of_narrows rule hr
  refine ⟨ruleOnRow_comm rule p i j hij, ruleOnColumn_comm rule hlen p i j hij, ?_, ?_⟩
  · rw [ruleOnRow, map_state]
    exact getRowView_putRow_ne _ _ _ _ hij
  · rw [ruleOnColumn, map_state]
    apply getColumnView_putColumn_ne _ _ _ _ hij
    rw [hlen, getColumnView_length]

/-- Witness for C15: on the 3x3 puzzle `crossPuzzle`, `MarkerRule` on row `2`
and then row `0` gives the grid that row `0` and then row `2` give, with the
middle cell of both rows `Marked`. -/
theorem rule_on_distinct_lines_commutes_witness :
    (ruleOnRow MarkerRule 2 crossPuzzle).andThen (ruleOnRow MarkerRule 0) =
      Outcome.done { crossPuzzle with
        m_grid := [[FieldState.Unknown, FieldState.Marked, FieldState.Unknown],
          [FieldState.Unknown, FieldState.Unknown, FieldState.Unknown],
          [FieldState.Unknown, FieldState.Marked, FieldState.Unknown]] } :=
  ((rule_on_distinct_lines_commutes MarkerRule (by simp) crossPuzzle 0 2 (by decide)).1 _).mp
    (by decide)

/-- C15, counterexample: on `markedCornerPuzzle` the Zero-Value rule on row 0
fails (the cell is `Marked`).  Applied to row 0 first, the exception leaves
the grid `M / ?`; applied to row 1 first, row 1 is written before the
exception and the grid left behind is `M / E`. -/
theorem rows_in_other_order_leave_other_grid :
    (ruleOnRow ZeroValueRule 0 markedCornerPuzzle).andThen (ruleOnRow ZeroValueRule 1) =
      Outcome.fault { markedCornerPuzzle with
        m_grid := [[FieldState.Marked], [FieldState.Unknown]] } ∧
    (ruleOnRow ZeroValueRule 1 markedCornerPuzzle).andThen (ruleOnRow ZeroValueRule 0) =
      Outcome.fault { markedCornerPuzzle with
        m_grid := [[FieldState.Marked], [FieldState.Empty]] } := by
  decide

/-! ## C12, C13: `LoadFromFile` -/

theorem get_non_empty_line_spec (lines : List String) :
    (Puzzle.get_non_empty_line lines = none ∧ nonBlankLines lines = []) ∨
    ∃ line rest, Puzzle.get_non_empty_line lines = some (line, rest) ∧
      nonBlankLines lines = line :: nonBlankLines rest := by
  induction lines with
  | nil => left; exact ⟨rfl, rfl⟩
  | cons l ls ih =>
    by_cases hb : Puzzle.isBlank l = true
    · have h1 : Puzzle.get_non_empty_line (l :: ls) = Puzzle.get_non_empty_line ls := by
        simp [Puzzle.get_non_empty_line, hb]
      have h2 : nonBlankLines (l :: ls) = nonBlankLines ls := by
        simp [nonBlankLines, hb]
      rw [h1, h2]; exact ih
    · right
      refine ⟨l, ls, ?_, ?_⟩
      · simp [Puzzle.get_non_empty_line, hb]
      · simp [nonBlankLines, hb]

theorem read_values_ok (clues : String → List Nat) :
    ∀ (count : Nat) (stream : List String), count ≤ (nonBlankLines stream).length →
      ∃ left, Puzzle.read_values clues count stream =
          Except.ok (((nonBlankLines stream).take count).map clues, left) ∧
        nonBlankLines left = (nonBlankLines stream).drop count := by
  intro count
  induction count with
  | zero => intro stream _; exact ⟨stream, rfl, rfl⟩
  | succ n ih =>
    intro stream h
    rcases get_non_empty_line_spec stream with ⟨_, h2⟩ | ⟨line, rest, h1, h2⟩
    · rw [h2] at h; simp at h
    · rw [h2] at h
      obtain ⟨left, e1, e2⟩ := ih rest (by simpa using h)
      refine ⟨left, ?_, ?_⟩
      · simp only [Puzzle.read_values, h1, e1, h2, List.take_succ_cons, List.map_cons]
      · rw [h2, e2]; rfl

theorem read_values_error (clues : String → List Nat) :
    ∀ (count : Nat) (stream : List String), (nonBlankLines stream).length < count →
      Puzzle.read_values clues count stream = Except.error "Invalid input" := by
  intro count
  induction count with
  | zero => intro stream h; omega
  | succ n ih =>
    intro stream h
    rcases get_non_empty_line_spec stream with ⟨h1, _⟩ | ⟨line, rest, h1, h2⟩
    · simp only [Puzzle.read_values, h1]
    · rw [h2] at h
      have e1 := ih rest (by simpa using h)
      simp only [Puzzle.read_values, h1, e1]

theorem loadFromFileWith_ok (dims : String → Nat × Nat) (clues : String → List Nat)
    (lines : List String) (d : String) (body : List String)
    (hl : nonBlankLines lines = d :: body) (h : (dims d).1 + (dims d).2 ≤ body.length) :
    Puzzle.LoadFromFileWith dims clues lines = Except.ok
      { m_rows := (body.take (dims d).1).map clues
        m_columns := ((body.drop (dims d).1).take (dims d).2).map clues
        m_grid := Puzzle.unknownGrid (dims d).1 (dims d).2 } := by
  rcases get_non_empty_line_spec lines with ⟨_, h2⟩ | ⟨line, rest, h1, h2⟩
  · rw [h2] at hl; cases hl
  · rw [h2] at hl
    injection hl with hd hb
    subst hd
    obtain ⟨left, e1, e2⟩ := read_values_ok clues (dims line).1 rest (by rw [hb]; omega)
    obtain ⟨left2, e3, e4⟩ := read_values_ok clues (dims line).2 left
      (by rw [e2, hb, List.length_drop]; omega)
    simp only [Puzzle.LoadFromFileWith, h1, e1, e3, e2, hb, Puzzle.unknownGrid,
      List.length_map, List.length_take, List.length_drop]
    rw [Nat.min_eq_left (by omega), Nat.min_eq_left (by omega)]

theorem loadFromFileWith_error (dims : String → Nat × Nat) (clues : String → List Nat)
    (lines : List String)
    (h : ∀ d ∈ (nonBlankLines lines).head?,
      (nonBlankLines lines).length < 1 + (dims d).1 + (dims d).2) :
    Puzzle.LoadFromFileWith dims clues lines = Except.error "Invalid input" := by
  rcases get_non_empty_line_spec lines with ⟨h1, _⟩ | ⟨line, rest, h1, h2⟩
  · simp only [Puzzle.LoadFromFileWith, h1]
  · rw [h2] at h
    have h3 := h line (by simp)
    simp only [List.length_cons] at h3
    by_cases hr : (nonBlankLines rest).length < (dims line).1
    · simp only [Puzzle.LoadFromFileWith, h1, read_values_error clues _ rest hr]
    · obtain ⟨left, e1, e2⟩ := read_values_ok clues (dims line).1 rest (by omega)
      have e3 := read_values_error clues (dims line).2 left
        (by rw [e2, List.length_drop]; omega)
      simp only [Puzzle.LoadFromFileWith, h1, e1, e3]

theorem loadFromFileWith_error_iff (dims : String → Nat × Nat) (clues : String → List Nat)
    (lines : List String) :
    (Puzzle.LoadFromFileWith dims clues lines = Except.error "Invalid input" ↔
      ∀ d ∈ (nonBlankLines lines).head?,
        (nonBlankLines lines).length < 1 + (dims d).1 + (dims d).2) := by
  by_cases h : ∀ d ∈ (nonBlankLines lines).head?,
      (nonBlankLines lines).length < 1 + (dims d).1 + (dims d).2
  · exact ⟨fun _ => h, fun _ => loadFromFileWith_error dims clues lines h⟩
  · have h0 := h
    push_neg at h
    obtain ⟨d, hd, hlen⟩ := h
    cases hnb : nonBlankLines lines with
    | nil => rw [hnb] at hd; simp at hd
    | cons d2 body =>
      rw [hnb] at hd hlen h0
      simp only [List.head?_cons, Option.mem_def, Option.some.injEq] at hd
      subst hd
      simp only [List.length_cons] at hlen
      have hok := loadFromFileWith_ok dims clues lines d2 body hnb (by omega)
      refine ⟨fun he => ?_, fun hh => absurd hh h0⟩
      rw [hok] at he
      cases he

/-- The function with the failure of `resize` is the check of the two counts
followed by the function without it. -/
theorem loadFromFileSized_eq (max_count : Nat) (dims : String → Nat × Nat)
    (clues : String → List Nat) (lines : List String) :
    Puzzle.LoadFromFileSized max_count dims clues lines =
      match Puzzle.get_non_empty_line lines with
      | none => Puzzle.LoadResult.invalidInput
      | some (line, _) =>
        if max_count < (dims line).1 ∨ max_count < (dims line).2 then
          Puzzle.LoadResult.resizeFailed
        else
          match Puzzle.LoadFromFileWith dims clues lines with
          | Except.ok p => Puzzle.LoadResult.loaded p
          | Except.error _ => Puzzle.LoadResult.invalidInput := by
  unfold Puzzle.LoadFromFileSized Puzzle.LoadFromFileWith
  cases h : Puzzle.get_non_empty_line lines with
  | none => rfl
  | some lr =>
    obtain ⟨line, rest⟩ := lr
    simp only
    by_cases h1 : max_count < (dims line).1
    · simp [h1]
    · by_cases h2 : max_count < (dims line).2
      · simp [h1, h2]
      · simp only [h1, h2, if_false, or_self]
        cases h3 : Puzzle.read_values clues (dims line).1 rest with
        | error e => rfl
        | ok v =>
          obtain ⟨rows, rest2⟩ := v
          simp only
          cases h4 : Puzzle.read_values clues (dims line).2 rest2 with
          | error e => rfl
          | ok w => rfl

/-- C12 (amended): viewed on the list of lines of the input, with `max_count`
the largest count `resize` provides and whatever the two extraction functions
are: `LoadFromFile` throws "Invalid input" exactly when the text has no line
that is not entirely whitespace, or the two counts read from the first such
line are both at most `max_count` and the text has fewer than `1 + row_count +
column_count` such lines; it is left by the exception of `resize` exactly when
one of the two counts exceeds `max_count`, whatever the number of lines; in
every other case it returns the puzzle that the function without the failure
of `resize` returns. -/
theorem loadFromFile_fails_iff (max_count : Nat) (dims : String → Nat × Nat)
    (clues : String → List Nat) (lines : List String) :
    (Puzzle.LoadFromFileSized max_count dims clues lines = Puzzle.LoadResult.invalidInput ↔
      ∀ d ∈ (nonBlankLines lines).head?,
        (dims d).1 ≤ max_count ∧ (dims d).2 ≤ max_count ∧
          (nonBlankLines lines).length < 1 + (dims d).1 + (dims d).2) ∧
    (Puzzle.LoadFromFileSized max_count dims clues lines = Puzzle.LoadResult.resizeFailed ↔
      ∃ d ∈ (nonBlankLines lines).head?,
        max_count < (dims d).1 ∨ max_count < (dims d).2) ∧
    (∀ p, Puzzle.LoadFromFileSized max_count dims clues lines = Puzzle.LoadResult.loaded p ↔
      (∃ d ∈ (nonBlankLines lines).head?,
        (dims d).1 ≤ max_count ∧ (dims d).2 ≤ max_count ∧
          1 + (dims d).1 + (dims d).2 ≤ (nonBlankLines lines).length) ∧
        Puzzle.LoadFromFileWith dims clues lines = Except.ok p) := by
  have hiff := loadFromFileWith_error_iff dims clues lines
  rw [loadFromFileSized_eq]
  rcases get_non_empty_line_spec lines with ⟨h1, h2⟩ | ⟨line, rest, h1, h2⟩
  · rw [h1]
    simp only [h2, List.head?_nil, Option.mem_def, reduceCtorEq, false_and, exists_false,
      IsEmpty.forall_iff, implies_true, iff_false, not_false_eq_true, and_self, true_and,
      exists_const]
  · rw [h1]
    rw [h2] at hiff ⊢
    simp only [List.head?_cons, Option.mem_def, Option.some.injEq, forall_eq', exists_eq_left']
      at hiff ⊢
    by_cases hm : max_count < (dims line).1 ∨ max_count < (dims line).2
    · rw [if_pos hm]
      refine ⟨⟨fun h => (by cases h), fun h => ?_⟩, ⟨fun _ => hm, fun _ => rfl⟩,
        fun p => ⟨fun h => (by cases h), fun h => ?_⟩⟩
      · obtain ⟨a, b, _⟩ := h
        omega
      · obtain ⟨⟨a, b, _⟩, _⟩ := h
        omega
    · rw [if_neg hm]
      have hm1 : (dims line).1 ≤ max_count := by omega
      have hm2 : (dims line).2 ≤ max_count := by omega
      cases hw : Puzzle.LoadFromFileWith dims clues lines with
      | error e =>
        have he : e = "Invalid input" := by
          by_cases hlt : (nonBlankLines rest).length + 1 < 1 + (dims line).1 + (dims line).2
          · have h3 := hiff.2 (by simpa using hlt)
            rw [hw] at h3
            injection h3
          · have hok := loadFromFileWith_ok dims clues lines line (nonBlankLines rest) h2
              (by omega)
            rw [hw] at hok
            cases hok
        subst he
        have hlt := hiff.1 hw
        refine ⟨⟨fun _ => ⟨hm1, hm2, hlt⟩, fun _ => rfl⟩, ⟨fun h => (by cases h), fun h => ?_⟩,
          fun p => ⟨fun h => (by cases h), fun h => (by cases h.2)⟩⟩
        exact absurd h hm
      | ok q =>
        have hnlt : ¬ (line :: nonBlankLines rest).length < 1 + (dims line).1 + (dims line).2 := by
          intro hlt
          have h3 := hiff.2 hlt
          rw [hw] at h3
          cases h3
        refine ⟨⟨fun h => (by cases h), fun h => absurd h.2.2 hnlt⟩,
          ⟨fun h => (by cases h), fun h => absurd h hm⟩, fun p => ⟨fun h => ?_, fun h => ?_⟩⟩
        · injection h with h
          exact ⟨⟨hm1, hm2, by omega⟩, by rw [h]⟩
        · rw [h.2]

/-- Witness for C12: a text of blank lines only is refused with "Invalid
input", and the text `sampleText`, with a dimension line and three clue lines
between blank lines, is loaded. -/
theorem loadFromFile_fails_iff_witness :
    nonBlankLines ["", "  "] = [] ∧
    Puzzle.LoadFromFileSized ptrdiffMax Puzzle.readDimensions Puzzle.readValues ["", "  "] =
      Puzzle.LoadResult.invalidInput ∧
    Puzzle.LoadFromFileSized ptrdiffMax Puzzle.readDimensions Puzzle.readValues sampleText ≠
      Puzzle.LoadResult.invalidInput := by
  have hnb : nonBlankLines ["", "  "] = [] := by decide
  have hs : nonBlankLines sampleText = ["2 1", "1", "0", "2"] := by decide
  refine ⟨hnb, ?_, ?_⟩
  · apply (loadFromFile_fails_iff ptrdiffMax Puzzle.readDimensions Puzzle.readValues
      ["", "  "]).1.2
    intro d hd
    rw [hnb] at hd
    cases hd
  · intro h
    have h2 := (loadFromFile_fails_iff ptrdiffMax Puzzle.readDimensions Puzzle.readValues
      sampleText).1.1 h "2 1" (by rw [hs]; rfl)
    rw [hs] at h2
    exact absurd h2.2.2 (by decide)

/-- C12, counterexample: the text `99999999999999999999 1` has one non-blank
line, fewer than `1 + row_count + column_count`, but `LoadFromFile` does not
throw "Invalid input": the row count saturates to `2^64 - 1`, and
`m_rows.resize` throws for it even with the largest `max_size()` a vector can
have. -/
theorem loadFromFile_huge_count_fails_in_resize :
    Puzzle.readDimensions "99999999999999999999 1" = (18446744073709551615, 0) ∧
    (nonBlankLines hugeCountText).length <
      1 + (Puzzle.readDimensions "99999999999999999999 1").1 +
        (Puzzle.readDimensions "99999999999999999999 1").2 ∧
    Puzzle.LoadFromFileSized ptrdiffMax Puzzle.readDimensions Puzzle.readValues hugeCountText =
      Puzzle.LoadResult.resizeFailed := by
  refine ⟨by decide, by decide, by decide⟩

theorem isDigit_not_isspace (c : Char) (h : c.isDigit = true) : Puzzle.isspace c = false := by
  cases hs : Puzzle.isspace c with
  | false => rfl
  | true =>
    exfalso
    simp only [Puzzle.isspace, Bool.or_eq_true, decide_eq_true_eq] at hs
    rcases hs with ((((hs | hs) | hs) | hs) | hs) | hs <;> subst hs <;> revert h <;> decide

theorem isspace_not_isDigit (c : Char) (h : Puzzle.isspace c = true) : c.isDigit = false := by
  cases hd : c.isDigit with
  | false => rfl
  | true => rw [isDigit_not_isspace c hd] at h; cases h

theorem dropWhile_append_all {α : Type} (p : α → Bool) (ws rest : List α)
    (h : ∀ c ∈ ws, p c = true) : (ws ++ rest).dropWhile p = rest.dropWhile p := by
  induction ws with
  | nil => rfl
  | cons w ws ih =>
    rw [List.cons_append, List.dropWhile_cons, if_pos (h w (List.mem_cons_self _ _))]
    exact ih (fun c hc => h c (List.mem_cons_of_mem _ hc))

theorem takeWhile_append_all {α : Type} (p : α → Bool) (ws rest : List α)
    (h : ∀ c ∈ ws, p c = true) : (ws ++ rest).takeWhile p = ws ++ rest.takeWhile p := by
  induction ws with
  | nil => rfl
  | cons w ws ih =>
    rw [List.cons_append, List.takeWhile_cons, if_pos (h w (List.mem_cons_self _ _)),
      ih (fun c hc => h c (List.mem_cons_of_mem _ hc)), List.cons_append]

theorem dropWhile_head_false {α : Type} (p : α → Bool) (rest : List α)
    (h : ∀ c ∈ rest.head?, p c = false) : rest.dropWhile p = rest := by
  cases rest with
  | nil => rfl
  | cons c r =>
    have hc := h c (by simp)
    rw [List.dropWhile_cons, hc]; rfl

theorem takeWhile_head_false {α : Type} (p : α → Bool) (rest : List α)
    (h : ∀ c ∈ rest.head?, p c = false) : rest.takeWhile p = [] := by
  cases rest with
  | nil => rfl
  | cons c r =>
    have hc := h c (by simp)
    rw [List.takeWhile_cons, hc]; rfl

theorem extractUnsigned_blank (bound : Nat) (ws : List Char)
    (h : ∀ c ∈ ws, Puzzle.isspace c = true) :
    Puzzle.extractUnsigned bound ws = Puzzle.Extracted.noDigits := by
  have h1 : ws.dropWhile Puzzle.isspace = [] := by
    have := dropWhile_append_all Puzzle.isspace ws [] h
    simpa using this
  simp only [Puzzle.extractUnsigned, h1, List.takeWhile_nil, if_true]

theorem extractUnsigned_token (bound : Nat) (ws digits rest : List Char)
    (hws : ∀ c ∈ ws, Puzzle.isspace c = true) (hne : digits ≠ [])
    (hd : ∀ c ∈ digits, c.isDigit = true) (hr : ∀ c ∈ rest.head?, Puzzle.isspace c = true)
    (hv : Puzzle.decimalValue digits < bound) :
    Puzzle.extractUnsigned bound (ws ++ digits ++ rest) =
      Puzzle.Extracted.ok (Puzzle.decimalValue digits) rest := by
  have hr2 : ∀ c ∈ rest.head?, c.isDigit = false :=
    fun c hc => isspace_not_isDigit c (hr c hc)
  have hhead : ∀ c ∈ (digits ++ rest).head?, Puzzle.isspace c = false := by
    cases digits with
    | nil => exact absurd rfl hne
    | cons x xs =>
      intro c hc
      simp only [List.cons_append, List.head?_cons, Option.mem_def, Option.some.injEq] at hc
      subst hc
      exact isDigit_not_isspace _ (hd _ (List.mem_cons_self _ _))
  have h1 : (ws ++ digits ++ rest).dropWhile Puzzle.isspace = digits ++ rest := by
    rw [List.append_assoc, dropWhile_append_all _ _ _ hws, dropWhile_head_false _ _ hhead]
  have h2 : (digits ++ rest).takeWhile Char.isDigit = digits := by
    rw [takeWhile_append_all _ _ _ hd, takeWhile_head_false _ _ hr2, List.append_nil]
  have h3 : (digits ++ rest).dropWhile Char.isDigit = rest := by
    rw [dropWhile_append_all _ _ _ hd, dropWhile_head_false _ _ hr2]
  simp only [Puzzle.extractUnsigned, h1, h2, h3, if_neg hne, if_pos hv]

theorem intLine_length {cs : List Char} {vals : List Nat} (h : IntLine cs vals) :
    vals.length ≤ cs.length := by
  induction h with
  | blank ws _ => simp
  | token ws digits rest vals _ hne _ _ _ ih =>
    have : 1 ≤ digits.length := by
      cases digits with
      | nil => exact absurd rfl hne
      | cons x xs => simp
    simp only [List.length_cons, List.length_append]
    omega

theorem readValuesFrom_intLine {cs : List Char} {vals : List Nat} (h : IntLine cs vals) :
    (∀ v ∈ vals, v < 2147483648) → ∀ fuel, vals.length ≤ fuel →
      Puzzle.readValuesFrom fuel cs = vals := by
  induction h with
  | blank ws hws =>
    intro _ fuel _
    cases fuel with
    | zero => rfl
    | succ f => simp only [Puzzle.readValuesFrom, extractUnsigned_blank _ ws hws]
  | token ws digits rest vals hws hne hd hr _ ih =>
    intro hv fuel hf
    cases fuel with
    | zero => simp at hf
    | succ f =>
      have hb := hv _ (List.mem_cons_self _ _)
      simp only [Puzzle.readValuesFrom, extractUnsigned_token _ ws digits rest hws hne hd hr hb]
      rw [ih (fun v hm => hv v (List.mem_cons_of_mem _ hm)) f (by simpa using hf)]

theorem readValues_intLine (line : String) (vals : List Nat) (h : IntLine line.data vals)
    (hv : ∀ v ∈ vals, v < 2147483648) : Puzzle.readValues line = vals :=
  readValuesFrom_intLine h hv _ (intLine_length h)

theorem readDimensions_intLine (line : String) (r c : Nat) (h : IntLine line.data [r, c])
    (hr : r < u64) (hc : c < u64) : Puzzle.readDimensions line = (r, c) := by
  unfold Puzzle.readDimensions
  generalize line.data = cs at h
  cases h with
  | token ws digits rest vals hws hne hd hrest h2 =>
    rw [extractUnsigned_token _ ws digits rest hws hne hd hrest hr]
    cases h2 with
    | token ws2 digits2 rest2 vals2 hws2 hne2 hd2 hrest2 h3 =>
      simp only
      rw [extractUnsigned_token _ ws2 digits2 rest2 hws2 hne2 hd2 hrest2 hc]

theorem map_eq_of_forall₂ {α β : Type} (f : α → β) (R : α → β → Prop)
    (hR : ∀ a b, R a b → f a = b) :
    ∀ (l : List α) (m : List β), List.Forall₂ R l m → l.map f = m := by
  intro l m h
  induction h with
  | nil => rfl
  | cons hab _ ih => rw [List.map_cons, hR _ _ hab, ih]

/-- C13 (amended): when the first non-blank line is `r c` with both numbers
below `2 ^ 64`, at least `r + c` non-blank lines follow, and the first `r + c`
of them are whitespace-separated non-negative integers below `2 ^ 31`, then
`LoadFromFile` returns the puzzle whose i-th row clue sequence is the integer
list of the (i+1)-th of these lines, whose j-th column clue sequence is that
of the (r+j+1)-th, and whose grid is `r` rows of `c` `Unknown` cells. -/
theorem loadFromFile_reads_puzzle (lines : List String) (d : String) (body : List String)
    (r c : Nat) (rows columns : List (List Nat))
    (hlines : nonBlankLines lines = d :: body)
    (hd : IntLine d.data [r, c]) (hr : r < u64) (hc : c < u64)
    (hrows : List.Forall₂ (fun line vals => IntLine line.data vals) (body.take r) rows)
    (hrl : rows.length = r)
    (hcols : List.Forall₂ (fun line vals => IntLine line.data vals)
      ((body.drop r).take c) columns)
    (hcl : columns.length = c)
    (hv : ∀ vals ∈ rows ++ columns, ∀ v ∈ vals, v < 2147483648) :
    Puzzle.LoadFromFile lines =
      Except.ok { m_rows := rows, m_columns := columns, m_grid := Puzzle.unknownGrid r c } ∧
    (∀ i, i < r → ∃ line, body.get? i = some line ∧ ∃ vals, rows.get? i = some vals ∧
      IntLine line.data vals) ∧
    (∀ j, j < c → ∃ line, body.get? (r + j) = some line ∧ ∃ vals,
      columns.get? j = some vals ∧ IntLine line.data vals) := by
  have hdims := readDimensions_intLine d r c hd hr hc
  have hlr := hrows.length_eq
  have hlc := hcols.length_eq
  rw [List.length_take, hrl] at hlr
  rw [List.length_take, List.length_drop, hcl] at hlc
  have hlen : r + c ≤ body.length := by omega
  have hvr : ∀ line vals, IntLine line.data vals → (∀ v ∈ vals, v < 2147483648) →
      Puzzle.readValues line = vals := readValues_intLine
  have hmapr : (body.take r).map Puzzle.readValues = rows := by
    have h2 : List.Forall₂ (fun line vals => IntLine line.data vals ∧
        ∀ v ∈ vals, v < 2147483648) (body.take r) rows := by
      rw [List.forall₂_iff_get] at hrows ⊢
      refine ⟨hrows.1, fun i h1 h2 => ⟨hrows.2 i h1 h2, ?_⟩⟩
      exact hv _ (List.mem_append_left _ (List.get_mem _ _ _))
    exact map_eq_of_forall₂ _ _ (fun a b hab => hvr a b hab.1 hab.2) _ _ h2
  have hmapc : ((body.drop r).take c).map Puzzle.readValues = columns := by
    have h2 : List.Forall₂ (fun line vals => IntLine line.data vals ∧
        ∀ v ∈ vals, v < 2147483648) ((body.drop r).take c) columns := by
      rw [List.forall₂_iff_get] at hcols ⊢
      refine ⟨hcols.1, fun i h1 h2 => ⟨hcols.2 i h1 h2, ?_⟩⟩
      exact hv _ (List.mem_append_right _ (List.get_mem _ _ _))
    exact map_eq_of_forall₂ _ _ (fun a b hab => hvr a b hab.1 hab.2) _ _ h2
  refine ⟨?_, ?_, ?_⟩
  · have hok := loadFromFileWith_ok Puzzle.readDimensions Puzzle.readValues lines d body
      hlines (by rw [hdims]; exact hlen)
    rw [hdims] at hok
    simp only at hok
    rw [hmapr, hmapc] at hok
    exact hok
  · intro i hi
    rw [List.forall₂_iff_get] at hrows
    have h1 : i < (body.take r).length := by rw [List.length_take]; omega
    have h2 : i < rows.length := by omega
    have h3 := hrows.2 i h1 h2
    refine ⟨(body.take r).get ⟨i, h1⟩, ?_, rows.get ⟨i, h2⟩, ?_, h3⟩
    · rw [← List.get?_eq_get h1, List.get?_eq_getElem?, List.get?_eq_getElem?,
        List.getElem?_take_of_lt hi]
    · rw [List.get?_eq_get h2]
  · intro j hj
    rw [List.forall₂_iff_get] at hcols
    have h1 : j < ((body.drop r).take c).length := by
      rw [List.length_take, List.length_drop]; omega
    have h2 : j < columns.length := by omega
    have h3 := hcols.2 j h1 h2
    refine ⟨((body.drop r).take c).get ⟨j, h1⟩, ?_, columns.get ⟨j, h2⟩, ?_, h3⟩
    · rw [← List.get?_eq_get h1, List.get?_eq_getElem?, List.get?_eq_getElem?,
        List.getElem?_take_of_lt hj, List.getElem?_drop]
    · rw [List.get?_eq_get h2]

theorem intLine_one (digits : List Char) (hne : digits ≠ [])
    (hd : ∀ c ∈ digits, c.isDigit = true) : IntLine digits [Puzzle.decimalValue digits] := by
  have h := IntLine.token [] digits [] [] (by simp) hne hd (by simp) (IntLine.blank [] (by simp))
  simpa using h

theorem intLine_two (d1 d2 : List Char) (h1 : d1 ≠ []) (h2 : d2 ≠ [])
    (hd1 : ∀ c ∈ d1, c.isDigit = true) (hd2 : ∀ c ∈ d2, c.isDigit = true) :
    IntLine (d1 ++ ' ' :: d2) [Puzzle.decimalValue d1, Puzzle.decimalValue d2] := by
  have h0 : IntLine (' ' :: d2) [Puzzle.decimalValue d2] := by
    have h := IntLine.token [' '] d2 [] [] (by simp [Puzzle.isspace]) h2 hd2 (by simp)
      (IntLine.blank [] (by simp))
    simpa using h
  have h := IntLine.token [] d1 (' ' :: d2) [Puzzle.decimalValue d2] (by simp) h1 hd1
    (by simp [Puzzle.isspace]) h0
  simpa using h

/-- Witness for C13: the text `sampleText` is loaded as the puzzle with row
clues `[1]`, `[0]` and column clues `[2]`. -/
theorem loadFromFile_reads_puzzle_witness :
    nonBlankLines sampleText = ["2 1", "1", "0", "2"] ∧
    IntLine "2 1".data [2, 1] ∧
    Puzzle.LoadFromFile sampleText =
      Except.ok { m_rows := [[1], [0]], m_columns := [[2]], m_grid := Puzzle.unknownGrid 2 1 } :=
  ⟨by decide, intLine_two ['2'] ['1'] (by decide) (by decide) (by decide) (by decide),
    (loadFromFile_reads_puzzle sampleText "2 1" ["1", "0", "2"] 2 1 [[1], [0]] [[2]]
      (by decide) (intLine_two ['2'] ['1'] (by decide) (by decide) (by decide) (by decide))
      (by decide) (by decide)
      (List.Forall₂.cons (intLine_one ['1'] (by decide) (by decide))
        (List.Forall₂.cons (intLine_one ['0'] (by decide) (by decide)) List.Forall₂.nil))
      rfl
      (List.Forall₂.cons (intLine_one ['2'] (by decide) (by decide)) List.Forall₂.nil)
      rfl (by decide)).1⟩

/-- C13, counterexample: every line of `bigClueText` is a line of
non-negative integers, but the clue `3000000000` does not fit an `int32_t`,
the extraction fails, and the row is loaded with no clue at all. -/
theorem loadFromFile_drops_big_clue :
    nonBlankLines bigClueText = ["1 1", "3000000000", "1"] ∧
    IntLine "1 1".data [1, 1] ∧ IntLine "3000000000".data [3000000000] ∧
    IntLine "1".data [1] ∧
    Puzzle.LoadFromFile bigClueText =
      Except.ok { m_rows := [[]], m_columns := [[1]], m_grid := Puzzle.unknownGrid 1 1 } :=
  ⟨by decide, intLine_two ['1'] ['1'] (by decide) (by decide) (by decide) (by decide),
    intLine_one "3000000000".data (by decide) (by decide),
    intLine_one ['1'] (by decide) (by decide), rfl⟩

/-! ## C14: the order of the lines inside one pass -/

/-- A loop whose turns commute pairwise (on the states of an invariant that
the turns keep) returns the same state for every order of its items. -/
theorem runAll_perm_done {α σ : Type} (f : α → σ → Outcome σ) (Inv : σ → Prop)
    (hpres : ∀ a s t, Inv s → f a s = Outcome.done t → Inv t)
    (hcomm : ∀ a b s q, Inv s → a ≠ b →
      ((f a s).andThen (f b) = Outcome.done q ↔ (f b s).andThen (f a) = Outcome.done q))
    (l1 l2 : List α) (h : l1.Perm l2) :
    ∀ s q, Inv s → (runAll f l1 s = Outcome.done q ↔ runAll f l2 s = Outcome.done q) := by
  induction h with
  | nil => intro s q _; exact Iff.rfl
  | cons a _ ih =>
    intro s q hs
    rw [runAll_cons, runAll_cons]
    cases hfa : f a s with
    | done t => rw [andThen_done, andThen_done]; exact ih t q (hpres a s t hs hfa)
    | fault t => exact Iff.rfl
    | undefined t => exact Iff.rfl
  | swap a b l =>
    intro s q hs
    have e1 : runAll f (b :: a :: l) s = ((f b s).andThen (f a)).andThen (runAll f l) := by
      rw [runAll_cons]
      cases f b s with
      | done t => rw [andThen_done, andThen_done, runAll_cons]
      | fault t => rfl
      | undefined t => rfl
    have e2 : runAll f (a :: b :: l) s = ((f a s).andThen (f b)).andThen (runAll f l) := by
      rw [runAll_cons]
      cases f a s with
      | done t => rw [andThen_done, andThen_done, runAll_cons]
      | fault t => rfl
      | undefined t => rfl
    rw [e1, e2]
    by_cases hab : a = b
    · subst hab; exact Iff.rfl
    · have hc := fun q => hcomm a b s q hs hab
      cases h1 : (f b s).andThen (f a) with
      | done t =>
        rw [(hc t).2 h1]
      | fault t =>
        cases h2 : (f a s).andThen (f b) with
        | done u => rw [(hc u).1 h2] at h1; cases h1
        | fault u => simp only [andThen_fault, andThen_undefined]; constructor <;> intro h <;> cases h
        | undefined u =>
          simp only [andThen_fault, andThen_undefined]; constructor <;> intro h <;> cases h
      | undefined t =>
        cases h2 : (f a s).andThen (f b) with
        | done u => rw [(hc u).1 h2] at h1; cases h1
        | fault u => simp only [andThen_fault, andThen_undefined]; constructor <;> intro h <;> cases h
        | undefined u =>
          simp only [andThen_fault, andThen_undefined]; constructor <;> intro h <;> cases h
  | trans _ _ ih1 ih2 =>
    intro s q hs
    exact (ih1 s q hs).trans (ih2 s q hs)

theorem apply_rule_eq_applyInOrder (rule : List Nat → Line → Outcome Line) (p : Puzzle) :
    apply_rule rule p = applyInOrder rule (referenceOrder p) p := by
  unfold apply_rule applyInOrder referenceOrder
  rw [runAll_append, runAll_map]
  have hs := (runAll_state_rel SameClues sameClues_refl sameClues_trans (ruleOnRow rule)
    (ruleOnRow_sameClues rule) (List.range p.m_rows.length) p).2
  have e : (fun a => ruleOnLine rule (LineId.row a)) = ruleOnRow rule := rfl
  rw [e]
  cases h : runAll (ruleOnRow rule) (List.range p.m_rows.length) p with
  | done t =>
    rw [h] at hs
    simp only [Outcome.state] at hs
    rw [andThen_done, andThen_done, runAll_map, hs]
    rfl
  | fault t => rfl
  | undefined t => rfl

theorem andThen_done_iff_congr {σ : Type} (x1 x2 : Outcome σ) (f1 f2 : σ → Outcome σ)
    (hx : ∀ t, x1 = Outcome.done t ↔ x2 = Outcome.done t)
    (hf : ∀ t q, f1 t = Outcome.done q ↔ f2 t = Outcome.done q) (q : σ) :
    x1.andThen f1 = Outcome.done q ↔ x2.andThen f2 = Outcome.done q := by
  cases h1 : x1 with
  | done t =>
    rw [(hx t).1 h1, andThen_done, andThen_done]
    exact hf t q
  | fault t =>
    cases h2 : x2 with
    | done u => rw [(hx u).2 h2] at h1; cases h1
    | fault u => simp only [andThen_fault, andThen_undefined]; constructor <;> intro h <;> cases h
    | undefined u =>
      simp only [andThen_fault, andThen_undefined]; constructor <;> intro h <;> cases h
  | undefined t =>
    cases h2 : x2 with
    | done u => rw [(hx u).2 h2] at h1; cases h1
    | fault u => simp only [andThen_fault, andThen_undefined]; constructor <;> intro h <;> cases h
    | undefined u =>
      simp only [andThen_fault, andThen_undefined]; constructor <;> intro h <;> cases h

theorem applyInOrder_append (rule : List Nat → Line → Outcome Line) (o1 o2 : List LineId)
    (p : Puzzle) :
    applyInOrder rule (o1 ++ o2) p = (applyInOrder rule o1 p).andThen (applyInOrder rule o2) := by
  unfold applyInOrder
  rw [runAll_append]

theorem applyInOrder_rows (rule : List Nat → Line → Outcome Line) (o : List Nat) (p : Puzzle) :
    applyInOrder rule (o.map LineId.row) p = runAll (ruleOnRow rule) o p := by
  unfold applyInOrder
  rw [runAll_map]
  rfl

theorem applyInOrder_columns (rule : List Nat → Line → Outcome Line) (o : List Nat)
    (p : Puzzle) :
    applyInOrder rule (o.map LineId.column) p = runAll (ruleOnColumn rule) o p := by
  unfold applyInOrder
  rw [runAll_map]
  rfl

theorem rows_perm_done (rule : List Nat → Line → Outcome Line) (o1 o2 : List Nat)
    (h : o1.Perm o2) (p q : Puzzle) :
    runAll (ruleOnRow rule) o1 p = Outcome.done q ↔
      runAll (ruleOnRow rule) o2 p = Outcome.done q :=
  runAll_perm_done (ruleOnRow rule) (fun _ => True) (fun _ _ _ _ _ => trivial)
    (fun a b s q _ hab => ruleOnRow_comm rule s a b hab q) o1 o2 h p q trivial

theorem columns_perm_done (rule : List Nat → Line → Outcome Line)
    (hlen : ∀ values l, (rule values l).state.length = l.length) (o1 o2 : List Nat)
    (h : o1.Perm o2) (p q : Puzzle) :
    runAll (ruleOnColumn rule) o1 p = Outcome.done q ↔
      runAll (ruleOnColumn rule) o2 p = Outcome.done q :=
  runAll_perm_done (ruleOnColumn rule) (fun _ => True) (fun _ _ _ _ _ => trivial)
    (fun a b s q _ hab => ruleOnColumn_comm rule hlen s a b hab q) o1 o2 h p q trivial

/-- Inside a pass the order of the rows among themselves and of the columns
among themselves does not matter, for any rule that keeps the length of its
line. -/
theorem applyInOrder_blocks (rule : List Nat → Line → Outcome Line)
    (hlen : ∀ values l, (rule values l).state.length = l.length)
    (r1 r2 c1 c2 : List Nat) (hr : r1.Perm r2) (hc : c1.Perm c2) (p q : Puzzle) :
    (applyInOrder rule (r1.map LineId.row ++ c1.map LineId.column) p = Outcome.done q ↔
      applyInOrder rule (r2.map LineId.row ++ c2.map LineId.column) p = Outcome.done q) ∧
    (applyInOrder rule (c1.map LineId.column ++ r1.map LineId.row) p = Outcome.done q ↔
      applyInOrder rule (c2.map LineId.column ++ r2.map LineId.row) p = Outcome.done q) := by
  constructor
  · rw [applyInOrder_append, applyInOrder_append]
    apply andThen_done_iff_congr
    · intro t
      rw [applyInOrder_rows, applyInOrder_rows]
      exact rows_perm_done rule r1 r2 hr p t
    · intro t u
      rw [applyInOrder_columns, applyInOrder_columns]
      exact columns_perm_done rule hlen c1 c2 hc t u
  · rw [applyInOrder_append, applyInOrder_append]
    apply andThen_done_iff_congr
    · intro t
      rw [applyInOrder_columns, applyInOrder_columns]
      exact columns_perm_done rule hlen c1 c2 hc p t
    · intro t u
      rw [applyInOrder_rows, applyInOrder_rows]
      exact rows_perm_done rule r1 r2 hr t u

/-- C14, counterexample: on `closeSidePuzzle` the Close-Side pass in the
reference order closes both columns (`M M / E E`), while with all columns
before all rows the second column is still all `Unknown` when it is processed
and cell `(1, 1)` stays `Unknown` (`M M / E ?`); every application returns. -/
theorem closeSideRule_columns_first_differs :
    apply_rule CloseSideRule closeSidePuzzle =
      Outcome.done { closeSidePuzzle with
        m_grid := [[FieldState.Marked, FieldState.Marked],
          [FieldState.Empty, FieldState.Empty]] } ∧
    applyInOrder CloseSideRule
        [LineId.column 0, LineId.column 1, LineId.row 0, LineId.row 1] closeSidePuzzle =
      Outcome.done { closeSidePuzzle with
        m_grid := [[FieldState.Marked, FieldState.Marked],
          [FieldState.Empty, FieldState.Unknown]] } ∧
    List.Perm [LineId.column 0, LineId.column 1, LineId.row 0, LineId.row 1]
      (referenceOrder closeSidePuzzle) := by
  refine ⟨by decide, by decide, ?_⟩
  decide


/-- A loop of writes of `s` does not return when one of its targets lies
outside the line or holds the other determined state. -/
theorem runAll_set_not_done (s : FieldState) (targets : List Nat) (l : Line)
    (h : ¬ Paintable s targets l) (x : Line) :
    runAll (fun j w => GridView.set w j s) targets l ≠ Outcome.done x := by
  induction targets generalizing l with
  | nil => exact absurd (fun j hj => absurd hj (List.not_mem_nil j)) h
  | cons i rest ih =>
    rw [runAll_cons]
    by_cases hs : s = FieldState.Unknown
    · simp [GridView.set, hs, Outcome.andThen]
    by_cases hi : i < l.length ∧
        (GridView.at_ l i = FieldState.Unknown ∨ GridView.at_ l i = s)
    · rw [set_done l i s hs hi.1 hi.2, andThen_done]
      apply ih
      intro hrest
      apply h
      intro j hj
      rcases List.mem_cons.1 hj with rfl | hj
      · exact hi
      · have := hrest j hj
        rw [List.length_set, at_set] at this
        refine ⟨this.1, ?_⟩
        by_cases hij : i = j
        · subst hij; exact hi.2
        · simpa [hij] using this.2
    · unfold GridView.set
      rw [if_neg hs]
      by_cases h1 : i < l.length
      · rw [if_pos h1, if_neg (fun h2 => hi ⟨h1, h2⟩)]
        simp [Outcome.andThen]
      · rw [if_neg h1]
        simp [Outcome.andThen]

theorem runAll_set_done_iff (s : FieldState) (hs : s ≠ FieldState.Unknown)
    (targets : List Nat) (l x : Line) :
    runAll (fun j w => GridView.set w j s) targets l = Outcome.done x ↔
      Paintable s targets l ∧ x = paint targets s l := by
  by_cases h : Paintable s targets l
  · have := runAll_set_done id s hs targets l h
    simp only [id, List.map_id_fun] at this
    rw [this]
    constructor
    · intro e; injection e with e; exact ⟨h, e.symm⟩
    · intro e; rw [e.2]
  · constructor
    · intro e; exact absurd e (runAll_set_not_done s targets l h x)
    · intro e; exact absurd e.1 h

theorem paintable_of_painted (s : FieldState) (targets : List Nat) (a b : Line)
    (h : Painted s a b) : Paintable s targets b ↔ Paintable s targets a := by
  constructor
  · intro hb j hj
    have := hb j hj
    rw [h.1] at this
    refine ⟨this.1, ?_⟩
    rcases h.2 j with e | e
    · rw [← e]; exact this.2
    · exact Or.inl e.1
  · intro ha j hj
    have := ha j hj
    rw [h.1]
    refine ⟨this.1, ?_⟩
    rcases h.2 j with e | e
    · rw [e]; exact this.2
    · exact Or.inr e.2

theorem paintsWith_done_iff (rule : List Nat → Line → Outcome Line) (s : FieldState)
    (targets : List Nat → Line → List Nat) (hp : PaintsWith rule s targets)
    (values : List Nat) (a b x : Line) (h : Painted s a b) :
    rule values b = Outcome.done x ↔
      Paintable s (targets values a) a ∧ x = paint (targets values a) s b := by
  rw [hp.2.1, runAll_set_done_iff s hp.1, hp.2.2 values a b h, paintable_of_painted s _ a b h]

theorem painted_refl (s : FieldState) (a : Line) : Painted s a a :=
  ⟨rfl, fun _ => Or.inl rfl⟩

theorem andThen_eq_done_iff {σ : Type} (x : Outcome σ) (f : σ → Outcome σ) (q : σ) :
    x.andThen f = Outcome.done q ↔ ∃ t, x = Outcome.done t ∧ f t = Outcome.done q := by
  cases x with
  | done t =>
    rw [andThen_done]
    constructor
    · intro h; exact ⟨t, rfl, h⟩
    · rintro ⟨u, hu, h⟩; injection hu with hu; rw [hu]; exact h
  | fault t =>
    rw [andThen_fault]
    constructor
    · intro h; cases h
    · rintro ⟨u, hu, _⟩; cases hu
  | undefined t =>
    rw [andThen_undefined]
    constructor
    · intro h; cases h
    · rintro ⟨u, hu, _⟩; cases hu

theorem map_eq_done_iff {σ τ : Type} (f : σ → τ) (o : Outcome σ) (q : τ) :
    o.map f = Outcome.done q ↔ ∃ t, o = Outcome.done t ∧ q = f t := by
  cases o with
  | done t =>
    constructor
    · intro h; injection h with h; exact ⟨t, rfl, h.symm⟩
    · rintro ⟨u, hu, h⟩; injection hu with hu; rw [h, hu]; rfl
  | fault t =>
    constructor
    · intro h; cases h
    · rintro ⟨u, hu, _⟩; cases hu
  | undefined t =>
    constructor
    · intro h; cases h
    · rintro ⟨u, hu, _⟩; cases hu

theorem getRowView_putRow (g : List (List FieldState)) (i r : Nat) (l : Line) :
    Puzzle.GetRowView (Puzzle.putRow g i l) r =
      if r = i ∧ i < g.length then l else Puzzle.GetRowView g r := by
  unfold Puzzle.GetRowView Puzzle.putRow
  rw [List.getD_eq_getElem?_getD, List.getD_eq_getElem?_getD, List.getElem?_set]
  by_cases hri : i = r
  · subst hri
    by_cases hi : i < g.length
    · simp [hi]
    · simp [hi, List.getElem?_eq_none (Nat.le_of_not_lt hi)]
  · have : ¬ (r = i ∧ i < g.length) := fun h => hri h.1.symm
    simp [hri, this]

theorem getColumnView_putRow (g : List (List FieldState)) (i j : Nat) (l : Line) :
    Puzzle.GetColumnView (Puzzle.putRow g i l) j =
      List.set (Puzzle.GetColumnView g j) i (GridView.at_ l j) := by
  unfold Puzzle.GetColumnView Puzzle.putRow GridView.at_
  rw [List.map_set]

theorem getRowView_putColumn (g : List (List FieldState)) (j r : Nat) (l : Line)
    (hlen : l.length = g.length) :
    Puzzle.GetRowView (Puzzle.putColumn g j l) r =
      List.set (Puzzle.GetRowView g r) j (GridView.at_ l r) := by
  induction g generalizing l r with
  | nil => cases l <;> rfl
  | cons row g ih =>
    cases l with
    | nil => simp at hlen
    | cons x l =>
      cases r with
      | zero => rfl
      | succ r =>
        have := ih r l (by simpa using hlen)
        simpa [Puzzle.GetRowView, Puzzle.putColumn, GridView.at_] using this

theorem putColumn_length (g : List (List FieldState)) (j : Nat) (l : Line)
    (hlen : l.length = g.length) : (Puzzle.putColumn g j l).length = g.length := by
  simp [Puzzle.putColumn, hlen]

theorem putRow_length (g : List (List FieldState)) (i : Nat) (l : Line) :
    (Puzzle.putRow g i l).length = g.length := by
  simp [Puzzle.putRow]

theorem grid_ext (g h : List (List FieldState)) (hlen : g.length = h.length)
    (hrow : ∀ r, r < g.length → Puzzle.GetRowView g r = Puzzle.GetRowView h r) : g = h := by
  apply List.ext_getElem hlen
  intro r h1 h2
  have := hrow r h1
  simp only [Puzzle.GetRowView, List.getD_eq_getElem?_getD, List.getElem?_eq_getElem h1,
    List.getElem?_eq_getElem h2, Option.getD_some] at this
  exact this

theorem at_getColumnView (g : List (List FieldState)) (r c : Nat) :
    GridView.at_ (Puzzle.GetColumnView g c) r = GridView.at_ (Puzzle.GetRowView g r) c := by
  unfold Puzzle.GetColumnView Puzzle.GetRowView GridView.at_
  rw [List.getD_eq_getElem?_getD, List.getD_eq_getElem?_getD, List.getElem?_map]
  cases hr : g[r]? with
  | none => simp [hr]
  | some row => simp [hr]

/-- After a painting of row `i`, the view of column `j` is a painting of what it
was. -/
theorem painted_column_after_row (s : FieldState) (g : List (List FieldState)) (i j : Nat)
    (targets : List Nat)
    (hok : Paintable s targets (Puzzle.GetRowView g i)) :
    Painted s (Puzzle.GetColumnView g j)
      (Puzzle.GetColumnView (Puzzle.putRow g i (paint targets s (Puzzle.GetRowView g i))) j) := by
  rw [getColumnView_putRow]
  refine ⟨List.length_set _ _ _, fun k => ?_⟩
  rw [at_set, at_paint]
  by_cases hk : i = k ∧ i < (Puzzle.GetColumnView g j).length
  · rw [if_pos hk]
    obtain ⟨rfl, _⟩ := hk
    rw [at_getColumnView]
    by_cases hj : j ∈ targets ∧ j < (Puzzle.GetRowView g i).length
    · rw [if_pos hj]
      rcases (hok j hj.1).2 with e | e
      · exact Or.inr ⟨e, rfl⟩
      · exact Or.inl e.symm
    · rw [if_neg hj]; exact Or.inl rfl
  · rw [if_neg hk]; exact Or.inl rfl

/-- After a painting of column `j`, the view of row `i` is a painting of what it
was. -/
theorem painted_row_after_column (s : FieldState) (g : List (List FieldState)) (i j : Nat)
    (targets : List Nat)
    (hok : Paintable s targets (Puzzle.GetColumnView g j)) :
    Painted s (Puzzle.GetRowView g i)
      (Puzzle.GetRowView
        (Puzzle.putColumn g j (paint targets s (Puzzle.GetColumnView g j))) i) := by
  rw [getRowView_putColumn _ _ _ _ (by rw [paint_length, getColumnView_length])]
  refine ⟨List.length_set _ _ _, fun k => ?_⟩
  rw [at_set, at_paint]
  by_cases hk : j = k ∧ j < (Puzzle.GetRowView g i).length
  · rw [if_pos hk]
    obtain ⟨rfl, _⟩ := hk
    rw [at_getColumnView]
    by_cases hi : i ∈ targets ∧ i < (Puzzle.GetColumnView g j).length
    · rw [if_pos hi]
      have := (hok i hi.1).2
      rw [at_getColumnView] at this
      rcases this with e | e
      · exact Or.inr ⟨e, rfl⟩
      · exact Or.inl e.symm
    · rw [if_neg hi]; exact Or.inl rfl
  · rw [if_neg hk]; exact Or.inl rfl

theorem ruleOnRow_done_iff (rule : List Nat → Line → Outcome Line) (i : Nat) (p t : Puzzle) :
    ruleOnRow rule i p = Outcome.done t ↔
      ∃ l, rule (p.m_rows.getD i []) (Puzzle.GetRowView p.m_grid i) = Outcome.done l ∧
        t = { p with m_grid := Puzzle.putRow p.m_grid i l } := by
  unfold ruleOnRow
  exact map_eq_done_iff _ _ _

theorem ruleOnColumn_done_iff (rule : List Nat → Line → Outcome Line) (j : Nat)
    (p t : Puzzle) :
    ruleOnColumn rule j p = Outcome.done t ↔
      ∃ l, rule (p.m_columns.getD j []) (Puzzle.GetColumnView p.m_grid j) = Outcome.done l ∧
        t = { p with m_grid := Puzzle.putColumn p.m_grid j l } := by
  unfold ruleOnColumn
  exact map_eq_done_iff _ _ _

theorem row_then_column_done (rule : List Nat → Line → Outcome Line) (s : FieldState)
    (targets : List Nat → Line → List Nat) (hp : PaintsWith rule s targets)
    (p : Puzzle) (i j : Nat) (q : Puzzle) :
    (ruleOnRow rule i p).andThen (ruleOnColumn rule j) = Outcome.done q ↔
      Paintable s (targets (p.m_rows.getD i []) (Puzzle.GetRowView p.m_grid i))
        (Puzzle.GetRowView p.m_grid i) ∧
      Paintable s (targets (p.m_columns.getD j []) (Puzzle.GetColumnView p.m_grid j))
        (Puzzle.GetColumnView p.m_grid j) ∧
      q = { p with m_grid :=
        (Puzzle.putColumn
          (Puzzle.putRow p.m_grid i
            (paint (targets (p.m_rows.getD i []) (Puzzle.GetRowView p.m_grid i)) s
              (Puzzle.GetRowView p.m_grid i))) j
          (paint (targets (p.m_columns.getD j []) (Puzzle.GetColumnView p.m_grid j)) s
            (Puzzle.GetColumnView
              (Puzzle.putRow p.m_grid i
                (paint (targets (p.m_rows.getD i []) (Puzzle.GetRowView p.m_grid i)) s
                  (Puzzle.GetRowView p.m_grid i))) j))) } := by
  rw [andThen_eq_done_iff]
  constructor
  · rintro ⟨t, ht, hq⟩
    rw [ruleOnRow_done_iff] at ht
    obtain ⟨l, hl, rfl⟩ := ht
    rw [paintsWith_done_iff rule s targets hp _ _ _ _ (painted_refl s _)] at hl
    obtain ⟨okR, rfl⟩ := hl
    rw [ruleOnColumn_done_iff] at hq
    obtain ⟨c, hc, rfl⟩ := hq
    rw [paintsWith_done_iff rule s targets hp _ _ _ _
      (painted_column_after_row s p.m_grid i j _ okR)] at hc
    obtain ⟨okC, rfl⟩ := hc
    exact ⟨okR, okC, rfl⟩
  · rintro ⟨okR, okC, rfl⟩
    refine ⟨_, (ruleOnRow_done_iff rule i p _).2 ⟨_, (paintsWith_done_iff rule s targets hp
      _ _ _ _ (painted_refl s _)).2 ⟨okR, rfl⟩, rfl⟩, ?_⟩
    rw [ruleOnColumn_done_iff]
    exact ⟨_, (paintsWith_done_iff rule s targets hp _ _ _ _
      (painted_column_after_row s p.m_grid i j _ okR)).2 ⟨okC, rfl⟩, rfl⟩

theorem column_then_row_done (rule : List Nat → Line → Outcome Line) (s : FieldState)
    (targets : List Nat → Line → List Nat) (hp : PaintsWith rule s targets)
    (p : Puzzle) (i j : Nat) (q : Puzzle) :
    (ruleOnColumn rule j p).andThen (ruleOnRow rule i) = Outcome.done q ↔
      Paintable s (targets (p.m_rows.getD i []) (Puzzle.GetRowView p.m_grid i))
        (Puzzle.GetRowView p.m_grid i) ∧
      Paintable s (targets (p.m_columns.getD j []) (Puzzle.GetColumnView p.m_grid j))
        (Puzzle.GetColumnView p.m_grid j) ∧
      q = { p with m_grid :=
        (Puzzle.putRow
          (Puzzle.putColumn p.m_grid j
            (paint (targets (p.m_columns.getD j []) (Puzzle.GetColumnView p.m_grid j)) s
              (Puzzle.GetColumnView p.m_grid j))) i
          (paint (targets (p.m_rows.getD i []) (Puzzle.GetRowView p.m_grid i)) s
            (Puzzle.GetRowView
              (Puzzle.putColumn p.m_grid j
                (paint (targets (p.m_columns.getD j []) (Puzzle.GetColumnView p.m_grid j)) s
                  (Puzzle.GetColumnView p.m_grid j))) i))) } := by
  rw [andThen_eq_done_iff]
  constructor
  · rintro ⟨t, ht, hq⟩
    rw [ruleOnColumn_done_iff] at ht
    obtain ⟨l, hl, rfl⟩ := ht
    rw [paintsWith_done_iff rule s targets hp _ _ _ _ (painted_refl s _)] at hl
    obtain ⟨okC, rfl⟩ := hl
    rw [ruleOnRow_done_iff] at hq
    obtain ⟨c, hc, rfl⟩ := hq
    rw [paintsWith_done_iff rule s targets hp _ _ _ _
      (painted_row_after_column s p.m_grid i j _ okC)] at hc
    obtain ⟨okR, rfl⟩ := hc
    exact ⟨okR, okC, rfl⟩
  · rintro ⟨okR, okC, rfl⟩
    refine ⟨_, (ruleOnColumn_done_iff rule j p _).2 ⟨_, (paintsWith_done_iff rule s targets hp
      _ _ _ _ (painted_refl s _)).2 ⟨okC, rfl⟩, rfl⟩, ?_⟩
    rw [ruleOnRow_done_iff]
    exact ⟨_, (paintsWith_done_iff rule s targets hp _ _ _ _
      (painted_row_after_column s p.m_grid i j _ okC)).2 ⟨okR, rfl⟩, rfl⟩

/-- Painting a row and then a column gives the grid that painting the column
and then the row gives. -/
theorem paint_cross_eq (s : FieldState) (g : List (List FieldState)) (i j : Nat)
    (tr tc : List Nat) :
    Puzzle.putColumn (Puzzle.putRow g i (paint tr s (Puzzle.GetRowView g i))) j
        (paint tc s (Puzzle.GetColumnView
          (Puzzle.putRow g i (paint tr s (Puzzle.GetRowView g i))) j)) =
      Puzzle.putRow (Puzzle.putColumn g j (paint tc s (Puzzle.GetColumnView g j))) i
        (paint tr s (Puzzle.GetRowView
          (Puzzle.putColumn g j (paint tc s (Puzzle.GetColumnView g j))) i)) := by
  have hl1 : (paint tc s (Puzzle.GetColumnView
      (Puzzle.putRow g i (paint tr s (Puzzle.GetRowView g i))) j)).length =
      (Puzzle.putRow g i (paint tr s (Puzzle.GetRowView g i))).length := by
    rw [paint_length, getColumnView_length]
  have hl2 : (paint tc s (Puzzle.GetColumnView g j)).length = g.length := by
    rw [paint_length, getColumnView_length]
  apply grid_ext
  · rw [putColumn_length _ _ _ hl1, putRow_length, putRow_length, putColumn_length _ _ _ hl2]
  · intro r hr
    rw [putColumn_length _ _ _ hl1, putRow_length] at hr
    rw [getRowView_putColumn _ _ _ _ hl1, getRowView_putRow, getRowView_putRow,
      putColumn_length _ _ _ hl2, getRowView_putColumn _ _ _ _ hl2,
      getRowView_putColumn _ _ _ _ hl2, getColumnView_putRow]
    by_cases hri : r = i
    · subst hri
      rw [if_pos ⟨rfl, hr⟩, if_pos ⟨rfl, hr⟩]
      apply line_ext
      · rw [List.length_set, paint_length, paint_length, List.length_set]
      · intro k
        simp only [at_set, at_paint, List.length_set, paint_length, getColumnView_length,
          at_getColumnView]
        by_cases hjk : j = k
        · subst hjk
          by_cases h1 : j < (Puzzle.GetRowView g r).length <;>
          by_cases h2 : j ∈ tr <;> by_cases h3 : r ∈ tc <;> simp [h1, h2, h3, hr]
        · simp [hjk]
    · have hne : ¬ (r = i ∧ i < g.length) := fun h => hri h.1
      rw [if_neg hne, if_neg hne]
      congr 1
      simp only [at_paint, at_set, List.length_set, getColumnView_length]
      have : ¬ (i = r ∧ i < g.length) := fun h => hri h.1.symm
      simp [this]

theorem row_column_comm (rule : List Nat → Line → Outcome Line) (s : FieldState)
    (targets : List Nat → Line → List Nat) (hp : PaintsWith rule s targets)
    (p : Puzzle) (i j : Nat) (q : Puzzle) :
    (ruleOnRow rule i p).andThen (ruleOnColumn rule j) = Outcome.done q ↔
      (ruleOnColumn rule j p).andThen (ruleOnRow rule i) = Outcome.done q := by
  rw [row_then_column_done rule s targets hp, column_then_row_done rule s targets hp,
    paint_cross_eq]

theorem paintsWith_length (rule : List Nat → Line → Outcome Line) (s : FieldState)
    (targets : List Nat → Line → List Nat) (hp : PaintsWith rule s targets)
    (values : List Nat) (l : Line) : (rule values l).state.length = l.length := by
  rw [hp.2.1]
  have := runAll_state_rel (fun a b : Line => b.length = a.length) (fun _ => rfl)
    (fun a b c h1 h2 => h2.trans h1) (fun j w => GridView.set w j s)
    (fun j w => by
      beta_reduce
      unfold GridView.set
      split_ifs <;> simp [Outcome.state]) (targets values l) l
  exact this

/-- For a rule that paints, two applications to different lines (rows or
columns) return in one order exactly when they return in the other, with the
same puzzle. -/
theorem ruleOnLine_comm (rule : List Nat → Line → Outcome Line) (s : FieldState)
    (targets : List Nat → Line → List Nat) (hp : PaintsWith rule s targets)
    (a b : LineId) (p q : Puzzle) (hab : a ≠ b) :
    (ruleOnLine rule a p).andThen (ruleOnLine rule b) = Outcome.done q ↔
      (ruleOnLine rule b p).andThen (ruleOnLine rule a) = Outcome.done q := by
  cases a with
  | row i =>
    cases b with
    | row j => exact ruleOnRow_comm rule p i j (fun h => hab (by rw [h])) q
    | column j => exact row_column_comm rule s targets hp p i j q
  | column i =>
    cases b with
    | row j => exact (row_column_comm rule s targets hp p j i q).symm
    | column j =>
      exact ruleOnColumn_comm rule (paintsWith_length rule s targets hp) p i j
        (fun h => hab (by rw [h])) q

theorem applyInOrder_perm (rule : List Nat → Line → Outcome Line) (s : FieldState)
    (targets : List Nat → Line → List Nat) (hp : PaintsWith rule s targets)
    (o1 o2 : List LineId) (h : o1.Perm o2) (p q : Puzzle) :
    applyInOrder rule o1 p = Outcome.done q ↔ applyInOrder rule o2 p = Outcome.done q :=
  runAll_perm_done (ruleOnLine rule) (fun _ => True) (fun _ _ _ _ _ => trivial)
    (fun a b t u _ hab => ruleOnLine_comm rule s targets hp a b t u hab) o1 o2 h p q trivial

theorem zeroValueRule_paints : PaintsWith ZeroValueRule FieldState.Empty zeroTargets := by
  refine ⟨by decide, fun values l => ?_, fun values a b h => ?_⟩
  · unfold ZeroValueRule zeroTargets
    cases hz : (decide (values.length = 1) && decide (values.getD 0 0 = 0)) with
    | false => rfl
    | true => rfl
  · unfold zeroTargets GridView.size
    rw [h.1]

theorem sectionStep_painted (a b : Line) (h : Painted FieldState.Marked a b) :
    sectionStep b = sectionStep a := by
  have hE : ∀ k, GridView.at_ b k = FieldState.Empty ↔ GridView.at_ a k = FieldState.Empty := by
    intro k
    rcases h.2 k with e | e
    · rw [e]
    · rw [e.1, e.2]; constructor <;> intro x <;> cases x
  funext st id
  unfold sectionStep GridView.size
  simp only [ne_eq, hE, h.1]

theorem markerTargets_painted (values : List Nat) (a b : Line)
    (h : Painted FieldState.Marked a b) : markerTargets values b = markerTargets values a := by
  unfold markerTargets section_ranges GridView.size
  rw [sectionStep_painted a b h, h.1]

theorem markerRule_paints : PaintsWith MarkerRule FieldState.Marked markerTargets :=
  ⟨by decide, markerRule_eq_targets, markerTargets_painted⟩

/-- C14 (amended): for `ZeroValueRule` and `MarkerRule` and every puzzle
state, applying the rule once to every row and every column in any order of
the lines returns exactly when the reference order (`apply_rule`: all rows,
then all columns) returns, and with the same grid.  For `CloseSideRule` this
holds for any order of the rows among themselves and of the columns among
themselves, with all rows before all columns as in the reference order or with
all columns before all rows; whether rows or columns go first is not
covered. -/
theorem pass_order_independent :
    (∀ rule ∈ [ZeroValueRule, MarkerRule], ∀ (p : Puzzle) (order : List LineId),
      order.Perm (referenceOrder p) →
      ∀ q, applyInOrder rule order p = Outcome.done q ↔ apply_rule rule p = Outcome.done q) ∧
    (∀ (p : Puzzle) (rowOrder columnOrder : List Nat),
      rowOrder.Perm (List.range p.m_rows.length) →
      columnOrder.Perm (List.range p.m_columns.length) →
      ∀ q,
        (applyInOrder CloseSideRule
            (rowOrder.map LineId.row ++ columnOrder.map LineId.column) p = Outcome.done q ↔
          apply_rule CloseSideRule p = Outcome.done q) ∧
        (applyInOrder CloseSideRule
            (columnOrder.map LineId.column ++ rowOrder.map LineId.row) p = Outcome.done q ↔
          applyInOrder CloseSideRule
            ((List.range p.m_columns.length).map LineId.column ++
              (List.range p.m_rows.length).map LineId.row) p = Outcome.done q)) := by
  constructor
  · intro rule hrule p order hperm q
    rw [apply_rule_eq_applyInOrder]
    simp only [List.mem_cons, List.mem_singleton, List.not_mem_nil, or_false] at hrule
    rcases hrule with rfl | rfl
    · exact applyInOrder_perm _ _ _ zeroValueRule_paints _ _ hperm p q
    · exact applyInOrder_perm _ _ _ markerRule_paints _ _ hperm p q
  · intro p rowOrder columnOrder hr hc q
    have hlen := rule_length_of_narrows CloseSideRule closeSideRule_narrows
    have h := applyInOrder_blocks CloseSideRule hlen _ _ _ _ hr hc p q
    refine ⟨?_, h.2⟩
    rw [apply_rule_eq_applyInOrder]
    exact h.1

/-- Witness for C14: on the 3x3 puzzle `crossPuzzle` the Marker pass with all
columns before all rows returns the grid of the reference order, in which the
middle row and the middle column are `Marked`. -/
theorem pass_order_independent_witness :
    List.Perm [LineId.column 0, LineId.column 1, LineId.column 2,
        LineId.row 0, LineId.row 1, LineId.row 2] (referenceOrder crossPuzzle) ∧
    applyInOrder MarkerRule [LineId.column 0, LineId.column 1, LineId.column 2,
        LineId.row 0, LineId.row 1, LineId.row 2] crossPuzzle =
      Outcome.done { crossPuzzle with
        m_grid := [[FieldState.Unknown, FieldState.Marked, FieldState.Unknown],
          [FieldState.Marked, FieldState.Marked, FieldState.Marked],
          [FieldState.Unknown, FieldState.Marked, FieldState.Unknown]] } :=
  ⟨by decide,
    (pass_order_independent.1 MarkerRule (List.mem_cons_of_mem _ (List.mem_singleton.2 rfl))
      crossPuzzle _ (by decide) _).2 (by decide)⟩

/-! ## C18: soundness of `MarkerRule` on partially filled lines -/

theorem span_nil : span [] = 0 := rfl

theorem span_cons (v : Nat) (vs : List Nat) : span (v :: vs) = v + 1 + span vs := by
  simp [span]

theorem span_append (a b : List Nat) : span (a ++ b) = span a + span b := by
  simp [span]

theorem span_reverse (a : List Nat) : span a.reverse = span a := by
  simp [span, List.sum_reverse]

theorem span_take_le (a : List Nat) (n : Nat) : span (a.take n) ≤ span a := by
  conv_rhs => rw [← List.take_append_drop n a]
  rw [span_append]
  omega

theorem span_drop_le (a : List Nat) (n : Nat) : span (a.drop n) ≤ span a := by
  conv_rhs => rw [← List.take_append_drop n a]
  rw [span_append]
  omega

theorem runsFrom_nil (n : Nat) : runsFrom n [] = if n = 0 then [] else [n] := rfl

theorem runsFrom_marked (n : Nat) (rest : Line) :
    runsFrom n (FieldState.Marked :: rest) = runsFrom (n + 1) rest := by
  simp [runsFrom]

theorem runsFrom_other (n : Nat) (c : FieldState) (rest : Line) (hc : c ≠ FieldState.Marked) :
    runsFrom n (c :: rest) = (if n = 0 then [] else [n]) ++ runsFrom 0 rest := by
  by_cases hn : n = 0
  · simp [runsFrom, hc, hn]
  · simp [runsFrom, hc, hn]

/-- A cell that is not `Marked` separates the runs on its two sides. -/
theorem runsFrom_split (n : Nat) (a : Line) (c : FieldState) (b : Line)
    (hc : c ≠ FieldState.Marked) :
    runsFrom n (a ++ c :: b) = runsFrom n a ++ runsFrom 0 b := by
  induction a generalizing n with
  | nil =>
    rw [List.nil_append, runsFrom_other n c b hc, runsFrom_nil]
  | cons x a ih =>
    rw [List.cons_append]
    by_cases hx : x = FieldState.Marked
    · subst hx
      rw [runsFrom_marked, runsFrom_marked, ih]
    · rw [runsFrom_other n x _ hx, runsFrom_other n x _ hx, ih, List.append_assoc]

/-- The runs of a line, with one separating cell each, need at most one cell
more than the line has. -/
theorem span_runsFrom_le (n : Nat) (a : Line) : span (runsFrom n a) ≤ n + a.length + 1 := by
  induction a generalizing n with
  | nil =>
    rw [runsFrom_nil]
    by_cases hn : n = 0
    · simp [hn, span_nil]
    · simp [hn, span_cons, span_nil]
  | cons x a ih =>
    by_cases hx : x = FieldState.Marked
    · subst hx
      rw [runsFrom_marked]
      have := ih (n + 1)
      simp only [List.length_cons]
      omega
    · rw [runsFrom_other n x _ hx, span_append]
      have := ih 0
      simp only [List.length_cons]
      by_cases hn : n = 0
      · simp [hn, span_nil]; omega
      · simp [hn, span_cons, span_nil]; omega

theorem at_append_right_shift (a b : Line) (j : Nat) (h : a.length ≤ j) :
    GridView.at_ (a ++ b) j = GridView.at_ b (j - a.length) := by
  have := at_append_right a b (j - a.length)
  rwa [show a.length + (j - a.length) = j by omega] at this

/-- The first run of a line that continues `n ≥ 1` `Marked` cells. -/
theorem runsFrom_first_open (n : Nat) (hn : n ≠ 0) (a : Line) (w : Nat) (ys : List Nat)
    (h : runsFrom n a = w :: ys) :
    ∃ m b, a = List.replicate m FieldState.Marked ++ b ∧ w = n + m ∧ runsFrom 0 b = ys ∧
      span ys ≤ b.length ∧ (b = [] ∨ ∃ c b2, b = c :: b2 ∧ c ≠ FieldState.Marked) := by
  induction a generalizing n with
  | nil =>
    rw [runsFrom_nil, if_neg hn] at h
    injection h with h1 h2
    exact ⟨0, [], rfl, by omega, by rw [← h2]; rfl, by rw [← h2]; simp [span_nil], Or.inl rfl⟩
  | cons x a ih =>
    by_cases hx : x = FieldState.Marked
    · subst hx
      rw [runsFrom_marked] at h
      obtain ⟨m, b, e1, e2, e3, e4, e5⟩ := ih (n + 1) (by omega) h
      exact ⟨m + 1, b, by rw [e1]; rfl, by omega, e3, e4, e5⟩
    · rw [runsFrom_other n x _ hx, if_neg hn, List.singleton_append] at h
      injection h with h1 h2
      refine ⟨0, x :: a, rfl, by omega, ?_, ?_, Or.inr ⟨x, a, rfl, hx⟩⟩
      · rw [runsFrom_other 0 x _ hx, if_pos rfl, List.nil_append]; exact h2
      · rw [← h2]
        have := span_runsFrom_le 0 a
        simp only [List.length_cons]
        omega

/-- The first run of a line: a gap, the run, and the rest of the line, which
is empty or starts with a cell that is not `Marked`. -/
theorem runsFrom_first (a : Line) (v : Nat) (ys : List Nat) (h : runsFrom 0 a = v :: ys) :
    ∃ gap b, a = gap ++ List.replicate v FieldState.Marked ++ b ∧ runsFrom 0 b = ys ∧
      span ys ≤ b.length ∧ (b = [] ∨ ∃ c b2, b = c :: b2 ∧ c ≠ FieldState.Marked) := by
  induction a with
  | nil => rw [runsFrom_nil] at h; simp at h
  | cons x a ih =>
    by_cases hx : x = FieldState.Marked
    · subst hx
      rw [runsFrom_marked] at h
      obtain ⟨m, b, e1, e2, e3, e4, e5⟩ := runsFrom_first_open 1 (by omega) a v ys h
      refine ⟨[], b, ?_, e3, e4, e5⟩
      rw [e1, e2, List.nil_append, Nat.add_comm 1 m, List.replicate_succ, List.cons_append]
    · rw [runsFrom_other 0 x _ hx, if_pos rfl, List.nil_append] at h
      obtain ⟨gap, b, e1, e2, e3, e4⟩ := ih h
      exact ⟨x :: gap, b, by rw [e1]; rfl, e2, e3, e4⟩

/-- The run `v` that follows the runs `xs` and precedes the runs `ys` starts at
a cell `t` that leaves room for `xs` before it and for `ys` after it. -/
theorem runsFrom_locate (xs : List Nat) (v : Nat) (ys : List Nat) (a : Line)
    (h : runsFrom 0 a = xs ++ v :: ys) :
    ∃ t, span xs ≤ t ∧ t + v + span ys ≤ a.length ∧
      ∀ j, t ≤ j → j < t + v → GridView.at_ a j = FieldState.Marked := by
  induction xs generalizing a with
  | nil =>
    rw [List.nil_append] at h
    obtain ⟨gap, b, e1, e2, e3, _⟩ := runsFrom_first a v ys h
    refine ⟨gap.length, by simp [span_nil], ?_, ?_⟩
    · rw [e1]; simp only [List.length_append, List.length_replicate]; omega
    · intro j h1 h2
      rw [e1, List.append_assoc, at_append_right_shift gap _ j h1,
        at_append_left _ _ _ (by rw [List.length_replicate]; omega)]
      exact at_replicate v _ _ (by omega)
  | cons x xs ih =>
    rw [List.cons_append] at h
    obtain ⟨gap, b, e1, e2, e3, e4⟩ := runsFrom_first a x (xs ++ v :: ys) h
    rcases e4 with rfl | ⟨c, b2, rfl, hc⟩
    · rw [runsFrom_nil] at e2; simp at e2
    · rw [runsFrom_other 0 c _ hc, if_pos rfl, List.nil_append] at e2
      obtain ⟨t, h1, h2, h3⟩ := ih b2 e2
      have hlen : (gap ++ List.replicate x FieldState.Marked ++ [c]).length =
          gap.length + x + 1 := by
        simp only [List.length_append, List.length_replicate, List.length_singleton]
      refine ⟨gap.length + x + 1 + t, by rw [span_cons]; omega, ?_, ?_⟩
      · rw [e1]; simp only [List.length_append, List.length_replicate, List.length_cons]; omega
      · intro j h4 h5
        have e : a = (gap ++ List.replicate x FieldState.Marked ++ [c]) ++ b2 := by
          rw [e1]; simp
        rw [e, at_append_right_shift _ _ j (by rw [hlen]; omega), hlen]
        exact h3 _ (by omega) (by omega)

/-- The overlap property of a line with known runs: a cell that the run `v`
covers both in its leftmost and in its rightmost placement is `Marked`. -/
theorem runsFrom_overlap (xs : List Nat) (v : Nat) (ys : List Nat) (a : Line)
    (h : runsFrom 0 a = xs ++ v :: ys) (j : Nat) (h1 : a.length ≤ j + (span ys + v))
    (h2 : j < span xs + v) :
    GridView.at_ a j = FieldState.Marked ∧ j < a.length ∧ span ys + v ≤ a.length := by
  obtain ⟨t, e1, e2, e3⟩ := runsFrom_locate xs v ys a h
  exact ⟨e3 j (by omega) (by omega), by omega, by omega⟩

theorem span_eq (vs : List Nat) : span vs = vs.sum + vs.length := by
  induction vs with
  | nil => rfl
  | cons v vs ih => rw [span_cons, ih, List.sum_cons, List.length_cons]; omega

theorem padding_le_span (vs : List Nat) : padding vs ≤ span vs := by
  rw [padding_eq, span_eq]
  exact Nat.mod_le _ _

theorem startScan_cons (b v : Nat) (rest : List Nat) (s i : Nat) :
    startScan b (v :: rest) s i =
      if b < (s + scanStep v) % u64 then i
      else startScan b rest ((s + scanStep v) % u64) (i + 1) := rfl

theorem endScan_cons (e v : Nat) (rest : List Nat) (s : Nat) :
    endScan e (v :: rest) s =
      if subWrap u64 s (scanStep v % u64) < e then rest.length + 1
      else endScan e rest (subWrap u64 s (scanStep v % u64)) := rfl

theorem startScan_ge (b : Nat) (vs : List Nat) (s i : Nat) : i ≤ startScan b vs s i := by
  induction vs generalizing s i with
  | nil => exact Nat.le_refl i
  | cons v rest ih =>
    rw [startScan_cons]
    split
    · exact Nat.le_refl i
    · exact Nat.le_trans (Nat.le_succ i) (ih _ _)

/-- The left scan passes every run of a list of runs that fits, with its
separators, before the section. -/
theorem startScan_skip (b : Nat) (hb : b < u64) (pre rest : List Nat) (s i : Nat)
    (hv : ∀ v ∈ pre, v < 2147483647)
    (h : s + span pre ≤ b) : i + pre.length ≤ startScan b (pre ++ rest) s i := by
  induction pre generalizing s i with
  | nil => simpa using startScan_ge b rest s i
  | cons v pre ih =>
    rw [span_cons] at h
    have hv1 := hv v (List.mem_cons_self _ _)
    have hm : (s + (v + 1)) % u64 = s + (v + 1) := Nat.mod_eq_of_lt (by omega)
    rw [List.cons_append, startScan_cons, scanStep_of_ne v (by omega), hm, if_neg (by omega)]
    have := ih (s + (v + 1)) (i + 1) (fun w hw => hv w (List.mem_cons_of_mem _ hw)) (by omega)
    simp only [List.length_cons]
    omega

theorem endScan_le (e : Nat) (vs : List Nat) (s : Nat) : endScan e vs s ≤ vs.length := by
  induction vs generalizing s with
  | nil => exact Nat.le_refl 0
  | cons v rest ih =>
    rw [endScan_cons]
    split
    · exact Nat.le_refl _
    · exact Nat.le_trans (ih _) (by simp)

/-- The right scan passes every run of a list of runs that fits, with its
separators, after the section. -/
theorem endScan_skip (e : Nat) (post rest : List Nat) (s : Nat) (hs : s < u64)
    (hv : ∀ v ∈ post, v < 2147483647)
    (h : e + span post ≤ s) :
    endScan e (post ++ rest) s = endScan e rest (s - span post) := by
  induction post generalizing s with
  | nil => simp [span_nil]
  | cons v post ih =>
    rw [span_cons] at h
    have hv1 := hv v (List.mem_cons_self _ _)
    have hm : (v + 1) % u64 = v + 1 := Nat.mod_eq_of_lt (by omega)
    have hw : subWrap u64 s (v + 1) = s - (v + 1) := by
      unfold subWrap
      rw [if_pos (by omega)]
    rw [List.cons_append, endScan_cons, scanStep_of_ne v (by omega), hm, hw, if_neg (by omega),
      ih (s - (v + 1)) (by omega) (fun w hw => hv w (List.mem_cons_of_mem _ hw)) (by omega),
      span_cons]
    congr 1
    omega

theorem sectionStep_inv (l : Line) (n : Nat) (hn : n < l.length)
    (st : Option SectionRange × List SectionRange)
    (hacc : ∀ sr ∈ st.2, GoodSection l sr)
    (hsome : ∀ s, st.1 = some s →
      s.begin_ < n ∧ (s.begin_ = 0 ∨ GridView.at_ l (s.begin_ - 1) = FieldState.Empty))
    (hnone : st.1 = none → n = 0 ∨ GridView.at_ l (n - 1) = FieldState.Empty ∨
      GridView.at_ l n = FieldState.Empty) :
    (∀ sr ∈ (sectionStep l st n).2, GoodSection l sr) ∧
    (∀ s, (sectionStep l st n).1 = some s →
      s.begin_ < n + 1 ∧ (s.begin_ = 0 ∨ GridView.at_ l (s.begin_ - 1) = FieldState.Empty)) ∧
    ((sectionStep l st n).1 = none → GridView.at_ l n = FieldState.Empty ∨
      GridView.at_ l (n + 1) = FieldState.Empty ∨ n + 1 = l.length) := by
  obtain ⟨sec, acc⟩ := st
  simp only at hacc hsome hnone
  unfold sectionStep GridView.size
  simp only
  cases sec with
  | some s =>
    obtain ⟨h1, h2⟩ := hsome s rfl
    rw [if_neg (by simp)]
    simp only
    by_cases hc : n + 1 = l.length ∨ GridView.at_ l (n + 1) = FieldState.Empty
    · rw [if_pos hc]
      refine ⟨?_, by simp, fun _ => ?_⟩
      · intro sr hsr
        rcases List.mem_append.1 hsr with hsr | hsr
        · exact hacc sr hsr
        · rw [List.mem_singleton] at hsr
          subst hsr
          exact ⟨by show s.begin_ < n + 1; omega, by show n + 1 ≤ l.length; omega, h2, hc⟩
      · rcases hc with hc | hc
        · exact Or.inr (Or.inr hc)
        · exact Or.inr (Or.inl hc)
    · rw [if_neg hc]
      refine ⟨hacc, ?_, by simp⟩
      intro s2 hs2
      simp only [Option.some.injEq] at hs2
      subst hs2
      exact ⟨by omega, h2⟩
  | none =>
    have h0 := hnone rfl
    by_cases hE : GridView.at_ l n = FieldState.Empty
    · rw [if_neg (by simp [hE])]
      exact ⟨hacc, by simp, fun _ => Or.inl hE⟩
    · rw [if_pos ⟨hE, rfl⟩]
      simp only
      have hb : n = 0 ∨ GridView.at_ l (n - 1) = FieldState.Empty := by
        rcases h0 with h | h | h
        · exact Or.inl h
        · exact Or.inr h
        · exact absurd h hE
      by_cases hc : n + 1 = l.length ∨ GridView.at_ l (n + 1) = FieldState.Empty
      · rw [if_pos hc]
        refine ⟨?_, by simp, fun _ => ?_⟩
        · intro sr hsr
          rcases List.mem_append.1 hsr with hsr | hsr
          · exact hacc sr hsr
          · rw [List.mem_singleton] at hsr
            subst hsr
            exact ⟨by show n < n + 1; omega, by show n + 1 ≤ l.length; omega, hb, hc⟩
        · rcases hc with hc | hc
          · exact Or.inr (Or.inr hc)
          · exact Or.inr (Or.inl hc)
      · rw [if_neg hc]
        refine ⟨hacc, ?_, by simp⟩
        intro s2 hs2
        simp only [Option.some.injEq] at hs2
        subst hs2
        exact ⟨by show n < n + 1; omega, hb⟩

theorem sectionFold_inv (l : Line) (n : Nat) (hn : n ≤ l.length) :
    (∀ sr ∈ ((List.range n).foldl (sectionStep l) (none, [])).2, GoodSection l sr) ∧
    (∀ s, ((List.range n).foldl (sectionStep l) (none, [])).1 = some s →
      s.begin_ < n ∧ (s.begin_ = 0 ∨ GridView.at_ l (s.begin_ - 1) = FieldState.Empty)) ∧
    (((List.range n).foldl (sectionStep l) (none, [])).1 = none →
      n = 0 ∨ GridView.at_ l (n - 1) = FieldState.Empty ∨
      GridView.at_ l n = FieldState.Empty ∨ n = l.length) := by
  induction n with
  | zero =>
    refine ⟨?_, ?_, fun _ => Or.inl rfl⟩
    · intro sr hsr; simp at hsr
    · intro s hs; simp at hs
  | succ n ih =>
    obtain ⟨h1, h2, h3⟩ := ih (by omega)
    rw [List.range_succ, List.foldl_append, List.foldl_cons, List.foldl_nil]
    have hnone : ((List.range n).foldl (sectionStep l) (none, [])).1 = none →
        n = 0 ∨ GridView.at_ l (n - 1) = FieldState.Empty ∨
          GridView.at_ l n = FieldState.Empty := by
      intro h
      rcases h3 h with h | h | h | h
      · exact Or.inl h
      · exact Or.inr (Or.inl h)
      · exact Or.inr (Or.inr h)
      · omega
    obtain ⟨g1, g2, g3⟩ := sectionStep_inv l n (by omega) _ h1 h2 hnone
    refine ⟨g1, g2, fun h => ?_⟩
    rcases g3 h with h | h | h
    · exact Or.inr (Or.inl (by simpa using h))
    · exact Or.inr (Or.inr (Or.inl h))
    · exact Or.inr (Or.inr (Or.inr h))

/-- Every range that the first block of `MarkerRule` collects is a non-empty
range of the line bounded by `Empty` cells or the ends of the line. -/
theorem section_ranges_good (l : Line) : ∀ sr ∈ section_ranges l, GoodSection l sr :=
  (sectionFold_inv l l.length (Nat.le_refl _)).1

theorem at_drop (a : Line) (b i : Nat) :
    GridView.at_ (a.drop b) i = GridView.at_ a (b + i) := by
  unfold GridView.at_
  rw [List.getD_eq_getElem?_getD, List.getD_eq_getElem?_getD, List.getElem?_drop]

theorem at_take (a : Line) (k i : Nat) (h : i < k) :
    GridView.at_ (a.take k) i = GridView.at_ a i := by
  unfold GridView.at_
  rw [List.getD_eq_getElem?_getD, List.getD_eq_getElem?_getD, List.getElem?_take_of_lt h]

/-- A cell that is not `Marked` cuts the runs of the line into those before it
and those after it. -/
theorem runsFrom_cut (a : Line) (k : Nat) (hk : k < a.length)
    (h : GridView.at_ a k ≠ FieldState.Marked) :
    runsFrom 0 a = runsFrom 0 (a.take k) ++ runsFrom 0 (a.drop (k + 1)) := by
  have e : a = a.take k ++ a[k] :: a.drop (k + 1) := by
    rw [← List.drop_eq_getElem_cons hk, List.take_append_drop]
  have hc : a[k] ≠ FieldState.Marked := by
    intro hc
    apply h
    unfold GridView.at_
    rw [List.getD_eq_getElem?_getD, List.getElem?_eq_getElem hk]
    exact hc
  conv_lhs => rw [e]
  exact runsFrom_split 0 _ _ _ hc

/-- The runs of a line split into the runs before a section, the runs inside
it and the runs after it, and the outer runs fit, with their separators, in
the cells outside the section. -/
theorem section_runs (a : Line) (b e : Nat) (h1 : b ≤ e) (h2 : e ≤ a.length)
    (hb : b = 0 ∨ GridView.at_ a (b - 1) ≠ FieldState.Marked)
    (he : e = a.length ∨ GridView.at_ a e ≠ FieldState.Marked) :
    ∃ r1 r3, runsFrom 0 a = r1 ++ runsFrom 0 ((a.drop b).take (e - b)) ++ r3 ∧
      span r1 ≤ b ∧ e + span r3 ≤ a.length := by
  have left : ∃ r1, runsFrom 0 a = r1 ++ runsFrom 0 (a.drop b) ∧ span r1 ≤ b := by
    by_cases hb0 : b = 0
    · subst hb0
      exact ⟨[], rfl, by simp [span_nil]⟩
    · have hb1 : GridView.at_ a (b - 1) ≠ FieldState.Marked := by
        rcases hb with h | h
        · exact absurd h hb0
        · exact h
      refine ⟨runsFrom 0 (a.take (b - 1)), ?_, ?_⟩
      · have := runsFrom_cut a (b - 1) (by omega) hb1
        rwa [show b - 1 + 1 = b by omega] at this
      · have := span_runsFrom_le 0 (a.take (b - 1))
        rw [List.length_take] at this
        omega
  have right : ∃ r3, runsFrom 0 (a.drop b) =
      runsFrom 0 ((a.drop b).take (e - b)) ++ r3 ∧ e + span r3 ≤ a.length := by
    by_cases he0 : e = a.length
    · refine ⟨[], ?_, by simp [span_nil]; omega⟩
      rw [List.append_nil, List.take_of_length_le (by rw [List.length_drop]; omega)]
    · have he1 : GridView.at_ (a.drop b) (e - b) ≠ FieldState.Marked := by
        rw [at_drop, show b + (e - b) = e by omega]
        rcases he with h | h
        · exact absurd h he0
        · exact h
      refine ⟨runsFrom 0 ((a.drop b).drop (e - b + 1)), ?_, ?_⟩
      · exact runsFrom_cut (a.drop b) (e - b) (by rw [List.length_drop]; omega) he1
      · have := span_runsFrom_le 0 ((a.drop b).drop (e - b + 1))
        rw [List.length_drop, List.length_drop] at this
        omega
  obtain ⟨r1, e1, e2⟩ := left
  obtain ⟨r3, e3, e4⟩ := right
  exact ⟨r1, r3, by rw [e1, e3, List.append_assoc], e2, e4⟩

/-- A window of a list of runs: its entries are entries of the list, and the
runs before (after) an entry inside the window are among the runs before
(after) it in the list. -/
theorem window_spans (r : List Nat) (d m i : Nat) (hi : i < m) :
    ((r.drop d).take m).getD i 0 = r.getD (d + i) 0 ∧
    span (((r.drop d).take m).take i) ≤ span (r.take (d + i)) ∧
    span (((r.drop d).take m).drop (i + 1)) ≤ span (r.drop (d + i + 1)) := by
  refine ⟨?_, ?_, ?_⟩
  · rw [List.getD_eq_getElem?_getD, List.getD_eq_getElem?_getD, List.getElem?_take_of_lt hi,
      List.getElem?_drop]
  · rw [List.take_take, Nat.min_eq_left (by omega), List.take_add, span_append]
    omega
  · rw [List.drop_take, List.drop_drop]
    exact span_take_le _ _

theorem window_of_append (r1 r2 r3 : List Nat) (s0 e0 : Nat) (h1 : r1.length ≤ s0)
    (h2 : s0 ≤ e0) (h3 : e0 ≤ r1.length + r2.length) :
    ((r1 ++ r2 ++ r3).drop s0).take (e0 - s0) =
      (r2.drop (s0 - r1.length)).take (e0 - s0) := by
  rw [List.append_assoc, List.drop_append_eq_append_drop, List.drop_of_length_le h1,
    List.nil_append, List.drop_append_of_le_length (by omega),
    List.take_append_of_le_length (by rw [List.length_drop]; omega)]

theorem mem_sectionTargets (values : List Nat) (grid_size : Nat) (sr : SectionRange) (j : Nat)
    (h : j ∈ sectionTargets values grid_size sr) :
    start_value_id values sr ≤ end_value_id values grid_size sr ∧
    ∃ i jr, i < ((values.drop (start_value_id values sr)).take
        (end_value_id values grid_size sr - start_value_id values sr)).length ∧
      left_begin ((values.drop (start_value_id values sr)).take
        (end_value_id values grid_size sr - start_value_id values sr))
        (sr.end_ - sr.begin_) i ≤ jr ∧
      jr < right_end ((values.drop (start_value_id values sr)).take
        (end_value_id values grid_size sr - start_value_id values sr)) i ∧
      j = sr.begin_ + jr := by
  unfold sectionTargets at h
  simp only at h
  split at h
  · simp at h
  · rename_i hse
    refine ⟨by omega, ?_⟩
    simp only [List.mem_flatten, List.mem_map, List.mem_range, List.mem_range'_1] at h
    obtain ⟨t, ⟨i, hi, rfl⟩, hj⟩ := h
    simp only [List.mem_map, List.mem_range'_1] at hj
    obtain ⟨jr, ⟨h1, h2⟩, rfl⟩ := hj
    exact ⟨i, jr, hi, h1, by omega, rfl⟩

/-- Every cell `MarkerRule` passes to `set` is a cell of the line and is
`Marked` in every solution. -/
theorem markerTargets_sound (values : List Nat) (l solution : Line)
    (hL : l.length + 1 < u64) (hv : ∀ v ∈ values, v < 2147483647)
    (hs : IsSolution values l solution) (j : Nat)
    (hj : j ∈ markerTargets values l) :
    j < l.length ∧ GridView.at_ solution j = FieldState.Marked := by
  obtain ⟨hlen, _, hruns, hagree⟩ := hs
  unfold markerTargets at hj
  simp only [List.mem_flatten, List.mem_map] at hj
  obtain ⟨t, ⟨sr, hsr, rfl⟩, hj⟩ := hj
  obtain ⟨hbe, hel, hb, he⟩ := section_ranges_good l sr hsr
  have hbm : sr.begin_ = 0 ∨ GridView.at_ solution (sr.begin_ - 1) ≠ FieldState.Marked := by
    rcases hb with h | h
    · exact Or.inl h
    · right
      rw [hagree _ (by rw [h]; decide), h]
      decide
  have hem : sr.end_ = solution.length ∨
      GridView.at_ solution sr.end_ ≠ FieldState.Marked := by
    rcases he with h | h
    · exact Or.inl (by rw [hlen]; exact h)
    · right
      rw [hagree _ (by rw [h]; decide), h]
      decide
  obtain ⟨r1, r3, hsplit, hr1, hr3⟩ := section_runs solution sr.begin_ sr.end_ (by omega)
    (by rw [hlen]; exact hel) hbm hem
  rw [hlen] at hr3
  have hvals : values =
      r1 ++ runsFrom 0 ((solution.drop sr.begin_).take (sr.end_ - sr.begin_)) ++ r3 := by
    rw [← hsplit]; exact hruns.symm
  generalize hr2 : runsFrom 0 ((solution.drop sr.begin_).take (sr.end_ - sr.begin_)) = r2
    at hvals
  have htau : ((solution.drop sr.begin_).take (sr.end_ - sr.begin_)).length =
      sr.end_ - sr.begin_ := by
    rw [List.length_take, List.length_drop, hlen]; omega
  -- the two scans
  have hs0 : r1.length ≤ start_value_id values sr := by
    have := startScan_skip sr.begin_ (by omega) r1 (r2 ++ r3) 0 0
      (fun w hw => hv w (by rw [hvals]; simp [hw])) (by omega)
    rw [start_value_id, hvals, List.append_assoc]
    omega
  have he0 : end_value_id values (GridView.size l) sr ≤ r1.length + r2.length := by
    have h1 := endScan_skip sr.end_ r3.reverse (r1 ++ r2).reverse l.length (by omega)
      (fun w hw => hv w (by rw [hvals]; simp [List.mem_reverse.1 hw]))
      (by rw [span_reverse]; exact hr3)
    have h2 := endScan_le sr.end_ (r1 ++ r2).reverse (l.length - span r3.reverse)
    rw [List.length_reverse, List.length_append] at h2
    rw [end_value_id, GridView.size, hvals, List.reverse_append, h1]
    exact h2
  obtain ⟨hse, i, jr, hi, hlb, hre, rfl⟩ := mem_sectionTargets values _ sr _ hj
  generalize hs0' : start_value_id values sr = s0 at *
  generalize he0' : end_value_id values (GridView.size l) sr = e0 at *
  have hwin := window_of_append r1 r2 r3 s0 e0 hs0 hse he0
  rw [← hvals] at hwin
  rw [hwin] at hi hlb hre
  have him : i < e0 - s0 := by
    rw [List.length_take] at hi
    omega
  obtain ⟨w1, w2, w3⟩ := window_spans r2 (s0 - r1.length) (e0 - s0) i him
  generalize hS : (r2.drop (s0 - r1.length)).take (e0 - s0) = S at *
  have hk : s0 - r1.length + i < r2.length := by omega
  have hdecomp : r2 = r2.take (s0 - r1.length + i) ++
      r2.getD (s0 - r1.length + i) 0 :: r2.drop (s0 - r1.length + i + 1) := by
    rw [List.getD_eq_getElem?_getD, List.getElem?_eq_getElem hk, Option.getD_some,
      ← List.drop_eq_getElem_cons hk, List.take_append_drop]
  rw [← w1] at hdecomp
  obtain ⟨t, t1, t2, t3⟩ := runsFrom_locate _ _ _ _ (hr2.trans hdecomp)
  rw [htau] at t2
  -- the bounds of the marking loop
  have hre2 : jr < span (r2.take (s0 - r1.length + i)) + S.getD i 0 := by
    simp only [right_end] at hre
    have h1 := padding_le_span (S.take i)
    have h2 := Nat.mod_le (padding (S.take i) + S.getD i 0) u32
    omega
  have hlb2 : sr.end_ - sr.begin_ ≤ jr + (span (r2.drop (s0 - r1.length + i + 1)) +
      S.getD i 0) := by
    simp only [left_begin, subWrap] at hlb
    have h1 := padding_le_span (S.drop (i + 1))
    have h2 := Nat.mod_le (padding (S.drop (i + 1)) + S.getD i 0) u32
    rw [if_pos (by omega)] at hlb
    omega
  have hjr : jr < sr.end_ - sr.begin_ := by omega
  refine ⟨by omega, ?_⟩
  have := t3 jr (by omega) (by omega)
  rwa [at_take _ _ _ hjr, at_drop] at this

theorem runsFrom_pos (n : Nat) (a : Line) : ∀ v ∈ runsFrom n a, 0 < v := by
  induction a generalizing n with
  | nil =>
    intro v hv
    rw [runsFrom_nil] at hv
    by_cases hn : n = 0
    · simp [hn] at hv
    · simp [hn] at hv; omega
  | cons x a ih =>
    intro v hv
    by_cases hx : x = FieldState.Marked
    · subst hx
      rw [runsFrom_marked] at hv
      exact ih _ v hv
    · rw [runsFrom_other n x _ hx] at hv
      rcases List.mem_append.1 hv with h | h
      · by_cases hn : n = 0
        · simp [hn] at h
        · simp [hn] at h; omega
      · exact ih _ v h

/-- C18 (amended): soundness of `MarkerRule` on a partially filled line, for
clues that the 32-bit `int` arithmetic of the scans can take.  For every line
shorter than `2 ^ 64 - 1` cells, every sequence of fewer than `2 ^ 31` clues
that are all below `2 ^ 31 - 1`, and every solution of the line (an assignment
of `Marked`/`Empty` to all cells whose maximal `Marked` runs have, in order,
exactly the clue lengths and which agrees with the determined cells of the
line): every index `MarkerRule` writes to is inside the line, is not an
`Empty` cell and is `Marked` in the solution; so no write fails and
`MarkerRule` returns the line with exactly these cells set to `Marked`.  The
clues of a line that has a solution are positive. -/
theorem markerRule_sound (values : List Nat) (l solution : Line)
    (hL : l.length + 1 < u64) (hv : ∀ v ∈ values, v < 2147483647)
    (_hn : values.length < 2147483648) (hs : IsSolution values l solution) :
    (∀ j ∈ markerTargets values l,
      j < l.length ∧ GridView.at_ l j ≠ FieldState.Empty ∧
        GridView.at_ solution j = FieldState.Marked) ∧
    MarkerRule values l =
      Outcome.done (paint (markerTargets values l) FieldState.Marked l) ∧
    (∀ v ∈ values, 0 < v) := by
  have key : ∀ j ∈ markerTargets values l,
      j < l.length ∧ GridView.at_ l j ≠ FieldState.Empty ∧
        GridView.at_ solution j = FieldState.Marked := by
    intro j hj
    obtain ⟨h1, h2⟩ := markerTargets_sound values l solution hL hv hs j hj
    refine ⟨h1, fun hE => ?_, h2⟩
    have := hs.2.2.2 j (by rw [hE]; decide)
    rw [h2, hE] at this
    cases this
  refine ⟨key, ?_, ?_⟩
  · rw [markerRule_eq_targets]
    apply (runAll_set_done_iff FieldState.Marked (by decide) _ l _).2
    refine ⟨fun j hj => ?_, rfl⟩
    obtain ⟨h1, h2, _⟩ := key j hj
    refine ⟨h1, ?_⟩
    cases h : GridView.at_ l j with
    | Unknown => exact Or.inl rfl
    | Marked => exact Or.inr rfl
    | Empty => exact absurd h h2
  · have := hs.2.2.1
    unfold runLengths at this
    rw [← this]
    exact runsFrom_pos 0 solution

/-- Witness for C18: on the line `? ? ? ? E ? ? ?` with clues `[3, 2]` the
rule writes the cells 1, 2 and 6, which are `Marked` in the solution
`M M M E E M M E`. -/
theorem markerRule_sound_witness :
    IsSolution [3, 2] partialLine partialLineSolution ∧
    markerTargets [3, 2] partialLine = [1, 2, 6] ∧
    (∀ j ∈ markerTargets [3, 2] partialLine,
      j < partialLine.length ∧ GridView.at_ partialLine j ≠ FieldState.Empty ∧
        GridView.at_ partialLineSolution j = FieldState.Marked) :=
  have hsol : IsSolution [3, 2] partialLine partialLineSolution :=
    ⟨by decide, by decide, by decide, fun i hi => by
      rcases Nat.lt_or_ge i 8 with h | h
      · revert hi
        interval_cases i <;> decide
      · exact absurd (at_of_length_le partialLine i h) hi⟩
  ⟨hsol, by decide,
    (markerRule_sound [3, 2] partialLine partialLineSolution (by decide) (by decide)
      (by decide) hsol).1⟩


/-! ### C18 at a clue of `INT32_MAX` -/

theorem at_gapLine (a : Nat) (tail : Line) (i : Nat) :
    GridView.at_ (List.replicate a FieldState.Unknown ++ tail) i =
      if i < a then FieldState.Unknown else GridView.at_ tail (i - a) := by
  by_cases h : i < a
  · rw [if_pos h, at_append_left _ _ _ (by rw [List.length_replicate]; exact h)]
    exact at_replicate a i _ h
  · rw [if_neg h]
    have := at_append_right_shift (List.replicate a FieldState.Unknown) tail i
      (by rw [List.length_replicate]; omega)
    rw [List.length_replicate] at this
    exact this

/-- The first phase of the section loop on a line that starts with `a`
`Unknown` cells: before the last of them the one section is still open. -/
theorem sectionFold_gapLine (a : Nat) (tail : Line) (n : Nat) (h : n < a) :
    (List.range n).foldl (sectionStep (List.replicate a FieldState.Unknown ++ tail))
        (none, []) =
      (if n = 0 then none else some ⟨0, 0⟩, []) := by
  induction n with
  | zero => rfl
  | succ n ih =>
    rw [List.range_succ, List.foldl_append, ih (by omega)]
    simp only [List.foldl_cons, List.foldl_nil, sectionStep, GridView.size, List.length_append,
      List.length_replicate, at_gapLine]
    have h1 : n < a := by omega
    have h2 : n + 1 < a := h
    have h3 : n + 1 ≠ a + tail.length := by omega
    by_cases hn : n = 0
    · subst hn
      simp [h1, h2, h3]
    · simp [hn, h1, h2, h3]

/-- The sections of a line of `a ≥ 1` `Unknown` cells, an `Empty` cell and two
`Unknown` cells. -/
theorem section_ranges_gapLine (a b e : Nat) (ha : 1 ≤ a) (hb : b = a + 1) (he : e = a + 3) :
    section_ranges (List.replicate a FieldState.Unknown ++
        [FieldState.Empty, FieldState.Unknown, FieldState.Unknown]) =
      [⟨0, a⟩, ⟨b, e⟩] := by
  subst hb he
  obtain ⟨n, rfl⟩ : ∃ n, a = n + 1 := ⟨a - 1, by omega⟩
  have hsz : GridView.size (List.replicate (n + 1) FieldState.Unknown ++
      [FieldState.Empty, FieldState.Unknown, FieldState.Unknown]) = n + 1 + 3 := by
    simp [GridView.size]
  rw [section_ranges, hsz, List.range_succ, List.range_succ, List.range_succ, List.range_succ,
    List.foldl_append, List.foldl_append, List.foldl_append, List.foldl_append,
    sectionFold_gapLine (n + 1) _ n (by omega)]
  simp only [List.foldl_cons, List.foldl_nil, sectionStep, hsz, at_gapLine]
  have e1 : n + 1 + 1 - (n + 1) = 1 := by omega
  have e2 : n + 1 + 2 - (n + 1) = 2 := by omega
  have e3 : n + 1 + 3 - (n + 1) = 3 := by omega
  have e4 : n + 1 + 1 + 1 - (n + 1) = 2 := by omega
  have e5 : n + 1 + 2 + 1 - (n + 1) = 3 := by omega
  by_cases hn : n = 0
  · subst hn
    simp [GridView.at_]
  · simp [hn, e1, e2, e3, e4, e5, GridView.at_]

theorem mem_sectionTargets_of (values : List Nat) (grid_size : Nat) (sr : SectionRange)
    (i jr : Nat)
    (hse : start_value_id values sr ≤ end_value_id values grid_size sr)
    (hi : i < ((values.drop (start_value_id values sr)).take
        (end_value_id values grid_size sr - start_value_id values sr)).length)
    (h1 : left_begin ((values.drop (start_value_id values sr)).take
        (end_value_id values grid_size sr - start_value_id values sr))
        (sr.end_ - sr.begin_) i ≤ jr)
    (h2 : jr < right_end ((values.drop (start_value_id values sr)).take
        (end_value_id values grid_size sr - start_value_id values sr)) i) :
    sr.begin_ + jr ∈ sectionTargets values grid_size sr := by
  unfold sectionTargets
  simp only
  rw [if_neg (by omega)]
  simp only [List.mem_flatten, List.mem_map, List.mem_range]
  refine ⟨_, ⟨i, hi, rfl⟩, ?_⟩
  simp only [List.mem_map, List.mem_range'_1]
  exact ⟨jr, ⟨h1, by omega⟩, rfl⟩

theorem mem_markerTargets_of (values : List Nat) (l : Line) (sr : SectionRange) (j : Nat)
    (hsr : sr ∈ section_ranges l) (hj : j ∈ sectionTargets values (GridView.size l) sr) :
    j ∈ markerTargets values l := by
  unfold markerTargets
  simp only [List.mem_flatten, List.mem_map]
  exact ⟨_, ⟨sr, hsr, rfl⟩, hj⟩

theorem runsFrom_replicate (n m : Nat) (rest : Line) :
    runsFrom n (List.replicate m FieldState.Marked ++ rest) = runsFrom (n + m) rest := by
  induction m generalizing n with
  | zero => rfl
  | succ m ih =>
    rw [List.replicate_succ, List.cons_append, runsFrom_marked, ih]
    congr 1
    omega

/-- The line of `a ≥ 1` `Marked` cells followed by `E M E` solves the line of
`a` `Unknown` cells followed by `E ? ?` for the clues `[a, 1]`. -/
theorem isSolution_gapLine (a : Nat) (ha : 1 ≤ a) :
    IsSolution [a, 1]
      (List.replicate a FieldState.Unknown ++
        [FieldState.Empty, FieldState.Unknown, FieldState.Unknown])
      (List.replicate a FieldState.Marked ++
        [FieldState.Empty, FieldState.Marked, FieldState.Empty]) := by
  refine ⟨by simp, ?_, ?_, ?_⟩
  · intro c hc
    rcases List.mem_append.1 hc with h | h
    · exact Or.inl (List.eq_of_mem_replicate h)
    · simp only [List.mem_cons, List.mem_singleton, List.not_mem_nil, or_false] at h
      rcases h with rfl | rfl | rfl
      · exact Or.inr rfl
      · exact Or.inl rfl
      · exact Or.inr rfl
  · unfold runLengths
    rw [runsFrom_replicate, Nat.zero_add]
    have h0 : a ≠ 0 := by omega
    simp [runsFrom, h0]
  · intro i hi
    rw [at_gapLine] at hi
    by_cases h : i < a
    · rw [if_pos h] at hi
      exact absurd rfl hi
    · rw [if_neg h] at hi
      rw [at_gapLine, if_neg h]
      have hm := at_append_right_shift (List.replicate a FieldState.Marked)
        [FieldState.Empty, FieldState.Marked, FieldState.Empty] i
        (by rw [List.length_replicate]; omega)
      rw [List.length_replicate] at hm
      rw [hm]
      generalize i - a = k at hi ⊢
      match k, hi with
      | 0, _ => rfl
      | 1, hi => exact absurd rfl hi
      | 2, hi => exact absurd rfl hi
      | k + 3, hi => exact absurd rfl hi

theorem wideLine_length : wideLine.length = 2147483650 := by
  rw [wideLine, List.length_append, List.length_replicate]
  rfl

/-- C18, counterexample: the line `wideLine` (`2^31 - 1` `Unknown` cells, an
`Empty` cell, two `Unknown` cells) has the solution `wideLineSolution` for the
clues `[2147483647, 1]`.  For the section after the `Empty` cell the left scan
adds `values[0] + 1`, which overflows `int` and arrives in `size_t` as
`2^64 - 2^31`; the scan stops at once and assigns the long run to this section
(`start_value_id = 0` where `1` is right).  The marking loop then writes cell
`2^31 + 1`, which is `Empty` in the solution, and cell `2^31 + 2`, which is
outside the line, so the rule does not return. -/
theorem markerRule_writes_unmarked_cell_at_int_max :
    IsSolution [2147483647, 1] wideLine wideLineSolution ∧
    wideLine.length = 2147483650 ∧
    start_value_id [2147483647, 1] ⟨2147483648, 2147483650⟩ = 0 ∧
    2147483649 ∈ markerTargets [2147483647, 1] wideLine ∧
    GridView.at_ wideLineSolution 2147483649 = FieldState.Empty ∧
    2147483650 ∈ markerTargets [2147483647, 1] wideLine ∧
    ∀ x, MarkerRule [2147483647, 1] wideLine ≠ Outcome.done x := by
  have hsr : (⟨2147483648, 2147483650⟩ : SectionRange) ∈ section_ranges wideLine := by
    rw [wideLine, section_ranges_gapLine 2147483647 2147483648 2147483650 (by decide)
      (by decide) (by decide)]
    exact List.mem_cons_of_mem _ (List.mem_cons_self _ _)
  have hsize : GridView.size wideLine = 2147483650 := wideLine_length
  have ht1 : 2147483649 ∈ markerTargets [2147483647, 1] wideLine := by
    apply mem_markerTargets_of _ _ ⟨2147483648, 2147483650⟩ _ hsr
    rw [hsize]
    exact mem_sectionTargets_of [2147483647, 1] 2147483650 ⟨2147483648, 2147483650⟩ 1 1
      (by decide) (by decide) (by decide) (by decide)
  have ht2 : 2147483650 ∈ markerTargets [2147483647, 1] wideLine := by
    apply mem_markerTargets_of _ _ ⟨2147483648, 2147483650⟩ _ hsr
    rw [hsize]
    exact mem_sectionTargets_of [2147483647, 1] 2147483650 ⟨2147483648, 2147483650⟩ 1 2
      (by decide) (by decide) (by decide) (by decide)
  refine ⟨isSolution_gapLine 2147483647 (by decide), wideLine_length, by decide, ht1, ?_, ht2,
    ?_⟩
  · have hm := at_append_right_shift (List.replicate 2147483647 FieldState.Marked)
      [FieldState.Empty, FieldState.Marked, FieldState.Empty] 2147483649
      (by rw [List.length_replicate]; decide)
    rw [List.length_replicate] at hm
    rw [wideLineSolution, hm]
    rfl
  · intro x
    rw [markerRule_eq_targets]
    apply runAll_set_not_done
    intro hp
    have := (hp 2147483650 ht2).1
    rw [wideLine_length] at this
    exact absurd this (by decide)

end Nonogram
